import Mathlib

/-!
# The curses front end of `vis` (`ui-curses.c`)

A shallow embedding of the colour-pair cache (`color_hash`, `color_get`), of
the window list of the curses user interface (`ui_window_resize`,
`ui_window_move`, `arrange`, `ui_resize_to`, `ui_window_free`, `ui_window_new`,
`prompt_new`, `ui_window_focus`, `update`, `info`, `info_hide`) and of the
status bar and sidebar of a window (`ui_window_draw_status`,
`ui_window_draw_sidebar`), followed by the properties established about them.

Conventions.
* C `short` and `int` values are `Int`; where a value is stored into a narrower
  type the truncation is explicit (`toShort`, `toUInt`).
* Calls into curses and the allocator are answered by explicit arguments
  (`Answers`, `Alloc`), so that every theorem quantifies over what the library
  might answer.
* Windows live in a heap indexed by addresses; dereferencing an address that
  holds no window is a `Fault`.
* The pair-to-slot table has `(COLORS + 2) * (COLORS + 2)` entries;
  `color_get_checked` makes an access beyond them a `ColorFault`, and agrees
  with `color_get` on every call that stays inside the table.
* A curses surface keeps its size when `wresize` refuses the size asked for.
-/

namespace Vis

/-! ## Colour pairs: data -/

/-- Value of an `int` after it is stored into a `short` (16 bit, two's complement). -/
def toShort (x : Int) : Int := (x + 32768) % 65536 - 32768

/-- Value of an `int` after conversion to `unsigned int` (32 bit). -/
def toUInt (x : Int) : Nat := (x % 4294967296).toNat

/-- Curses colour number of black. -/
def COLOR_BLACK : Int := 0

/-- Curses colour number of white. -/
def COLOR_WHITE : Int := 7

/-- Upper limit on colour pairs, lines 12-22: the branch taken for ncurses
without extended colours, where the limit is the constant 256. -/
def MAX_COLOR_PAIRS : Int := 256

/-- The two curses globals read by the colour code. -/
structure Term where
  COLORS : Int
  COLOR_PAIRS : Int

/-- Answers of the library during one call of `color_get`. -/
structure Answers where
  /-- Result `(fg, bg)` written by `pair_content(pair, &fg, &bg)`. -/
  pair_content : Int → Int × Int
  /-- Whether `use_default_colors() == OK`. -/
  use_default_colors : Bool
  /-- Whether `calloc` returned a table. -/
  calloc : Bool
  /-- Whether `init_pair(pair, fg, bg) == OK`. -/
  init_pair : Int → Int → Int → Bool

/-- The function-local statics of `color_get` (lines 89-91). The table
`color2palette` is `none` while the pointer is `NULL`; an allocated table is a
map from the `unsigned int` index to the stored `short`. The source allocates
`(COLORS + 2) * (COLORS + 2)` entries (`table_len`); `color_get` below gives
the effect of a call all of whose table accesses lie inside them, and
`color_get_checked` tells the calls that leave them apart. -/
structure ColorState where
  has_default_colors : Bool
  color2palette : Option (Nat → Int)
  default_fg : Int
  default_bg : Int
  color_pairs_max : Int
  color_pair_current : Int

/-- Zero-initialised statics: the state before the first call. -/
def ColorState.fresh : ColorState :=
  { has_default_colors := false, color2palette := none, default_fg := 0,
    default_bg := 0, color_pairs_max := 0, color_pair_current := 0 }

/-- Entry of the pair-to-slot table at key `k`; a table that was never
allocated has no entry, which reads as slot 0. -/
def ColorState.lookup (s : ColorState) (k : Nat) : Int :=
  match s.color2palette with
  | none => 0
  | some t => t k

/-- Outcome of one `color_get` call: the statics afterwards, the returned slot
and the `init_pair(pair, fg, bg)` that succeeded during the call, if any. -/
structure ColorResult where
  state : ColorState
  slot : Int
  assigned : Option (Int × Int × Int)

/-! ## Colour pairs: code -/

/-- Lines 80-86, `color_hash`. -/
def color_hash (COLORS : Int) (fg bg : Int) : Nat :=
  let fg := if fg = -1 then toShort COLORS else fg
  let bg := if bg = -1 then toShort (COLORS + 1) else bg
  toUInt (fg * (COLORS + 2) + bg)

/-- Lines 93-103 of `color_get`: the one-time initialisation, run while the
table pointer is `NULL`. -/
def color_setup (T : Term) (a : Answers) (s : ColorState) : ColorState :=
  match s.color2palette with
  | some _ => s
  | none =>
    let d := a.pair_content 0
    { has_default_colors := a.use_default_colors
      color2palette := if T.COLORS ≠ 0 ∧ a.calloc = true then some (fun _ => 0) else none
      default_fg := if d.1 = -1 then COLOR_WHITE else d.1
      default_bg := if d.2 = -1 then COLOR_BLACK else d.2
      color_pairs_max := toShort (min T.COLOR_PAIRS MAX_COLOR_PAIRS)
      color_pair_current := s.color_pair_current }

/-- Lines 105-115 of `color_get`: substitution of the recorded defaults. -/
def color_subst (T : Term) (s : ColorState) (fg bg : Int) : Int × Int :=
  let fg := if fg ≥ T.COLORS then s.default_fg else fg
  let bg := if bg ≥ T.COLORS then s.default_bg else bg
  if s.has_default_colors = false then
    (if fg = -1 then s.default_fg else fg, if bg = -1 then s.default_bg else bg)
  else (fg, bg)

/-- Lines 88-134, `color_get`, with the table read and written as a map: the
effect of a call all of whose table accesses lie inside the allocated entries
(`color_get_checked` tells the other calls apart). -/
def color_get (T : Term) (a : Answers) (s0 : ColorState) (fg0 bg0 : Int) : ColorResult :=
  let s := color_setup T a s0
  let fg := (color_subst T s fg0 bg0).1
  let bg := (color_subst T s fg0 bg0).2
  match s.color2palette with
  | none => { state := s, slot := 0, assigned := none }
  | some tbl =>
    if fg = -1 ∧ bg = -1 then { state := s, slot := 0, assigned := none }
    else
      let index := color_hash T.COLORS fg bg
      if tbl index = 0 then
        let inc := toShort (s.color_pair_current + 1)
        let cur := if inc ≥ s.color_pairs_max then 1 else inc
        let old := a.pair_content cur
        let old_index := color_hash T.COLORS old.1 old.2
        if a.init_pair cur fg bg = true then
          let tbl2 := Function.update (Function.update tbl old_index 0) index cur
          { state := { s with color2palette := some tbl2, color_pair_current := cur }
            slot := tbl2 index
            assigned := some (cur, fg, bg) }
        else
          { state := { s with color_pair_current := cur }
            slot := tbl index
            assigned := none }
      else { state := s, slot := tbl index, assigned := none }

/-- A sequence of `color_get` calls, each with the library's answers for that
call; the result is the final statics and the slots returned, in call order. -/
def color_run (T : Term) : ColorState → List (Answers × Int × Int) → ColorState × List Int
  | s, [] => (s, [])
  | s, (a, fg, bg) :: rest =>
    let r := color_get T a s fg bg
    let out := color_run T r.state rest
    (out.1, r.slot :: out.2)

/-- Slot contents of the terminal, as `pair_content` reports them. -/
abbrev Hw := Int → Int × Int

/-- One `color_get` call against a terminal that stores every accepted
`init_pair` and reports it back through `pair_content`. -/
def color_get_hw (T : Term) (udc alloc : Bool) (accept : Int → Int → Int → Bool)
    (hw : Hw) (s : ColorState) (fg bg : Int) : Hw × ColorState × Int :=
  let r := color_get T
    { pair_content := hw, use_default_colors := udc, calloc := alloc, init_pair := accept }
    s fg bg
  match r.assigned with
  | some (p, f, b) => (Function.update hw p (f, b), r.state, r.slot)
  | none => (hw, r.state, r.slot)

/-- Key under which a `color_get` call looks its pair up (line 120): the hash
of the arguments after default substitution. -/
def color_key (T : Term) (a : Answers) (s : ColorState) (fg bg : Int) : Nat :=
  color_hash T.COLORS (color_subst T (color_setup T a s) fg bg).1
    (color_subst T (color_setup T a s) fg bg).2

/-- A library that reports black on black for every slot, supports default
colours, allocates, and accepts every `init_pair`. -/
def acceptAll : Answers :=
  { pair_content := fun _ => (0, 0), use_default_colors := true, calloc := true,
    init_pair := fun _ _ _ => true }

/-- A library like `acceptAll` that rejects every `init_pair`. -/
def rejectAll : Answers :=
  { pair_content := fun _ => (0, 0), use_default_colors := true, calloc := true,
    init_pair := fun _ _ _ => false }

/-- A sequence of `color_get` calls against a terminal that stores accepted
pairs, with default colours supported, the table allocated and every
`init_pair` accepted; the result is the terminal, the statics and the slots
returned, in call order. -/
def color_run_hw (T : Term) : Hw → ColorState → List (Int × Int) → Hw × ColorState × List Int
  | hw, s, [] => (hw, s, [])
  | hw, s, (fg, bg) :: rest =>
    let r := color_get_hw T true true (fun _ _ _ => true) hw s fg bg
    let out := color_run_hw T r.1 r.2.1 rest
    (out.1, out.2.1, r.2.2 :: out.2.2)

/-- Slot contents of a terminal on which no pair was assigned yet, with a
zero-initialised pair table as in ncurses after `start_color`: slot 0 holds the
terminal's own colours (white on black), every other slot reports colour 0 on
colour 0. -/
def zeroHw : Hw := fun p => if p = 0 then (7, 0) else (0, 0)

/-! ## Windows: data -/

/-- A curses `WINDOW`, as far as this file uses it. `rows` and `cols` are the
size of the surface: the size arguments of the `newwin` that created it, where
0 stands for "up to the edge of the screen" as in `newwin`, or those of the
last `wresize` that succeeded. `y` and `x` are the origin last asked for with
`newwin` or `mvwin`; curses refuses a move that would leave the screen, whose
size is not part of this file, so they need not be where the surface is, and no
theorem below speaks about them. -/
structure WINDOW where
  rows : Int
  cols : Int
  y : Int
  x : Int

/-- Modelled from the spec: the viewport `Win` of `window.c`, of which only the
header `window.h` is among the sources. The user interface hands it a size
(`window_new`, `window_resize`); that size is all that is recorded of it. -/
structure Win where
  width : Int
  height : Int

/-- The C enumeration `UiLayout`. -/
inductive UiLayout where
  | UI_LAYOUT_HORIZONTAL
  | UI_LAYOUT_VERTICAL
  deriving DecidableEq

/-- The C structure `UiCursesWin` (lines 65-78). Pointers to other windows are
heap addresses, `none` being `NULL`; `ui` records whether `win->ui` points to
the user interface (`true`) or is `NULL` (`false`). -/
structure UiCursesWin where
  ui : Bool
  view : Option Win
  win : Option WINDOW
  winstatus : Option WINDOW
  winside : Option WINDOW
  width : Int
  height : Int
  x : Int
  y : Int
  sidebar_width : Int
  next : Option Nat
  prev : Option Nat

/-- A window as `calloc` returns it: every field zero. -/
def UiCursesWin.zero : UiCursesWin :=
  { ui := false, view := none, win := none, winstatus := none, winside := none,
    width := 0, height := 0, x := 0, y := 0, sidebar_width := 0, next := none, prev := none }

/-- The heap of windows: the window stored at each address, `none` where no
window is allocated (never allocated, or freed). -/
abbrev Heap := Nat → Option UiCursesWin

/-- The C structure `UiCurses` (lines 53-63) together with the heap its window
pointers point into. -/
structure UiCurses where
  heap : Heap
  windows : Option Nat
  selwin : Option Nat
  prompt_title : String
  prompt_win : Option Nat
  info : String
  width : Int
  height : Int
  layout : UiLayout

/-- The user interface as `ui_curses_new` allocates it (`calloc`): no window,
no focus, no prompt, empty banner. -/
def UiCurses.zero : UiCurses :=
  { heap := fun _ => none, windows := none, selwin := none, prompt_title := "",
    prompt_win := none, info := "", width := 0, height := 0,
    layout := UiLayout.UI_LAYOUT_HORIZONTAL }

/-- Ways in which the modelled code can go wrong. -/
inductive Fault where
  /-- A `NULL` pointer was dereferenced. -/
  | null
  /-- An address holding no window (a freed window) was dereferenced. -/
  | freed
  /-- A loop over the window list did not end within the given number of steps. -/
  | fuel
  deriving DecidableEq

/-- Dereference of a window pointer. -/
def load (h : Heap) (p : Option Nat) : Except Fault UiCursesWin :=
  match p with
  | none => Except.error Fault.null
  | some a =>
    match h a with
    | none => Except.error Fault.freed
    | some w => Except.ok w

/-- A vertical rule drawn on the screen by `mvvline(y, x, ch, n)`: `n` cells
downwards from row `y` in column `x`. -/
structure VLine where
  y : Int
  x : Int
  n : Int
  deriving DecidableEq

/-- Answers of the allocator and of the constructors called by `ui_window_new`. -/
structure Alloc where
  /-- Address returned by `calloc`, `none` for `NULL`. -/
  calloc : Option Nat
  /-- Whether the viewport constructor `window_new` returned a viewport. -/
  window_new : Bool
  /-- Whether `newwin(0, 0, 0, 0)` returned a surface. -/
  newwin : Bool
  /-- Whether `newwin(1, 0, 0, 0)` returned a surface. -/
  newwin_status : Bool

/-! ## Windows: code -/

/-- The curses call `wresize(win, rows, cols)` on a possibly `NULL` surface
created by `newwin`: it gives the surface the size asked for when both
dimensions are positive, and otherwise returns `ERR` and leaves the surface as
it was. The callers ignore the return value. A failure of curses to allocate
the lines of the resized surface is not modelled. -/
def wresize (w : Option WINDOW) (rows cols : Int) : Option WINDOW :=
  w.map fun v => if 0 < rows ∧ 0 < cols then { v with rows := rows, cols := cols } else v

/-- The curses call `mvwin(win, y, x)` on a possibly `NULL` surface: the origin
asked for is recorded. -/
def mvwin (w : Option WINDOW) (y x : Int) : Option WINDOW :=
  w.map fun v => { v with y := y, x := x }

/-- Modelled from the spec: the viewport call `window_resize(view, width,
height)` of `window.c`, which is not among the sources. The pane's resize
propagates the size of the text sub-surface to the viewport, so the call
records that size. -/
def window_resize (v : Option Win) (width height : Int) : Option Win :=
  v.map fun _ => { width := width, height := height }

/-- Lines 136-145, `ui_window_resize`. -/
def ui_window_resize (win : UiCursesWin) (width height : Int) : UiCursesWin :=
  let win := { win with width := width, height := height }
  let win := { win with winstatus := wresize win.winstatus 1 width }
  let win := { win with
    win := wresize win.win (if win.winstatus.isSome then height - 1 else height)
      (width - win.sidebar_width) }
  let win := { win with winside := wresize win.winside (height - 1) win.sidebar_width }
  { win with
    view := window_resize win.view (width - win.sidebar_width)
      (if win.winstatus.isSome then height - 1 else height) }

/-- Lines 147-155, `ui_window_move`. -/
def ui_window_move (win : UiCursesWin) (x y : Int) : UiCursesWin :=
  let win := { win with x := x, y := y }
  let win := { win with win := mvwin win.win y (x + win.sidebar_width) }
  let win := { win with winside := mvwin win.winside y x }
  { win with winstatus := mvwin win.winstatus (y + win.height - 1) x }

/-- Lines 255-256 of `arrange`: the loop counting the windows of the list. -/
def count_windows : Nat → Heap → Option Nat → Int → Except Fault Int
  | _, _, none, n => Except.ok n
  | 0, _, some _, _ => Except.error Fault.fuel
  | fuel + 1, h, some p, n =>
    match h p with
    | none => Except.error Fault.freed
    | some w => count_windows fuel h w.next (n + 1)

/-- Lines 260-272 of `arrange`: the loop laying the windows out. The arguments
are the layout, `uic->width`, `max_height`, `width` and `height`, then the
steps left, the heap, the loop variable `win`, the running `x` and `y` and the
vertical rules drawn so far. -/
def arrange_loop (layout : UiLayout) (W max_height width height : Int) :
    Nat → Heap → Option Nat → Int → Int → List VLine → Except Fault (Heap × List VLine)
  | _, h, none, _, _, vl => Except.ok (h, vl)
  | 0, _, some _, _, _, _ => Except.error Fault.fuel
  | fuel + 1, h, some p, x, y, vl =>
    match h p with
    | none => Except.error Fault.freed
    | some w =>
      match layout with
      | UiLayout.UI_LAYOUT_HORIZONTAL =>
        let w1 := ui_window_resize w W (if w.next.isSome then height else max_height - y)
        let w2 := ui_window_move w1 x y
        arrange_loop layout W max_height width height fuel
          (Function.update h p (some w2)) w2.next x (y + height) vl
      | UiLayout.UI_LAYOUT_VERTICAL =>
        let w1 := ui_window_resize w (if w.next.isSome then width else W - x) max_height
        let w2 := ui_window_move w1 x y
        let x1 := x + width
        if w2.next.isSome then
          arrange_loop layout W max_height width height fuel
            (Function.update h p (some w2)) w2.next (x1 + 1) y
            (vl ++ [{ y := 0, x := x1, n := max_height }])
        else
          arrange_loop layout W max_height width height fuel
            (Function.update h p (some w2)) w2.next x1 y vl

/-- Line 257 of `arrange`: the height left for the windows, one row less when
a prompt or an info banner is shown. -/
def max_height (uic : UiCurses) : Int :=
  uic.height - (if uic.prompt_title ≠ "" ∨ uic.info ≠ "" then 1 else 0)

/-- Lines 251-273, `arrange`: the user interface afterwards and the vertical
rules drawn, in drawing order. Integer division is C division, which truncates. -/
def arrange (fuel : Nat) (uic : UiCurses) (layout : UiLayout) :
    Except Fault (UiCurses × List VLine) :=
  let uic := { uic with layout := layout }
  match count_windows fuel uic.heap uic.windows 0 with
  | Except.error e => Except.error e
  | Except.ok n =>
    let width := Int.tdiv uic.width (max 1 n) - 1
    let height := Int.tdiv (max_height uic) (max 1 n)
    match arrange_loop layout uic.width (max_height uic) width height fuel
        uic.heap uic.windows 0 0 [] with
    | Except.error e => Except.error e
    | Except.ok (h, vl) => Except.ok ({ uic with heap := h }, vl)

/-- Lines 275-295, `draw`, as far as it assigns window geometry: the layout
pass of line 278. The calls that follow it render: they write to the screen and
call into the viewport, whose callback `ui_window_draw_sidebar` resizes and
moves a window only to the width, height and origin it already has. -/
def draw (fuel : Nat) (uic : UiCurses) : Except Fault (UiCurses × List VLine) :=
  arrange fuel uic uic.layout

/-- Lines 297-307, `ui_resize_to`. -/
def ui_resize_to (fuel : Nat) (uic : UiCurses) (width height : Int) :
    Except Fault (UiCurses × List VLine) :=
  let uic := { uic with width := width, height := height }
  if uic.prompt_title ≠ "" then
    match load uic.heap uic.prompt_win with
    | Except.error e => Except.error e
    | Except.ok pw =>
      let title_width : Int := uic.prompt_title.utf8ByteSize
      let pw := ui_window_resize pw (width - title_width) 1
      let pw := ui_window_move pw title_width (height - 1)
      match uic.prompt_win with
      | none => Except.error Fault.null
      | some a => draw fuel { uic with heap := Function.update uic.heap a (some pw) }
  else draw fuel uic

/-- Lines 325-347, `ui_window_free`. -/
def ui_window_free (uic : UiCurses) (w : Option Nat) : Except Fault UiCurses :=
  match w with
  | none => Except.ok uic
  | some p =>
    match load uic.heap (some p) with
    | Except.error e => Except.error e
    | Except.ok win =>
      -- if (win->prev) win->prev->next = win->next;
      let r1 : Except Fault Heap :=
        match win.prev with
        | none => Except.ok uic.heap
        | some q =>
          match load uic.heap (some q) with
          | Except.error e => Except.error e
          | Except.ok wq => Except.ok (Function.update uic.heap q (some { wq with next := win.next }))
      match r1 with
      | Except.error e => Except.error e
      | Except.ok h1 =>
        -- if (win->next) win->next->prev = win->prev;
        let r2 : Except Fault Heap :=
          match win.next with
          | none => Except.ok h1
          | some q =>
            match load h1 (some q) with
            | Except.error e => Except.error e
            | Except.ok wq => Except.ok (Function.update h1 q (some { wq with prev := win.prev }))
        match r2 with
        | Except.error e => Except.error e
        | Except.ok h2 =>
          -- uic = win->ui; uic->windows, uic->selwin
          if win.ui = false then Except.error Fault.null
          else
            Except.ok
              { uic with
                heap := Function.update h2 p none
                windows := if uic.windows = some p then win.next else uic.windows
                selwin := if uic.selwin = some p then none else uic.selwin }

/-- Lines 413-444, `ui_window_new`: the user interface afterwards and the
returned pointer. -/
def ui_window_new (uic : UiCurses) (a : Alloc) : Except Fault (UiCurses × Option Nat) :=
  match a.calloc with
  | none => Except.ok (uic, none)
  | some p =>
    let view : Option Win :=
      if a.window_new = true then some { width := uic.width, height := uic.height } else none
    let win : Option WINDOW :=
      if view.isSome ∧ a.newwin = true then some { rows := 0, cols := 0, y := 0, x := 0 } else none
    let winstatus : Option WINDOW :=
      if win.isSome ∧ a.newwin_status = true then some { rows := 1, cols := 0, y := 0, x := 0 }
      else none
    let w : UiCursesWin := { UiCursesWin.zero with view := view, win := win, winstatus := winstatus }
    if view.isNone ∨ win.isNone ∨ winstatus.isNone then
      match ui_window_free { uic with heap := Function.update uic.heap p (some w) } (some p) with
      | Except.error e => Except.error e
      | Except.ok uic1 => Except.ok (uic1, none)
    else
      let w := { w with ui := true }
      -- if (uic->windows) uic->windows->prev = win;
      let r : Except Fault Heap :=
        match uic.windows with
        | none => Except.ok (Function.update uic.heap p (some w))
        | some q =>
          match load (Function.update uic.heap p (some w)) (some q) with
          | Except.error e => Except.error e
          | Except.ok wq =>
            Except.ok (Function.update (Function.update uic.heap p (some w)) q
              (some { wq with prev := some p }))
      match r with
      | Except.error e => Except.error e
      | Except.ok h =>
        match load h (some p) with
        | Except.error e => Except.error e
        | Except.ok w1 =>
          Except.ok
            ({ uic with
               heap := Function.update h p (some { w1 with next := uic.windows })
               windows := some p }, some p)

/-- Lines 460-479, `prompt_new`: the user interface afterwards and the
returned pointer. -/
def prompt_new (uic : UiCurses) (a : Alloc) : Except Fault (UiCurses × Option Nat) :=
  match uic.prompt_win with
  | some p => Except.ok (uic, some p)
  | none =>
    match ui_window_new uic a with
    | Except.error e => Except.error e
    | Except.ok (uic1, none) => Except.ok (uic1, none)
    | Except.ok (uic1, some p) =>
      match load uic1.heap (some p) with
      | Except.error e => Except.error e
      | Except.ok win =>
        -- uic->windows = win->next; if (uic->windows) uic->windows->prev = NULL;
        let r : Except Fault Heap :=
          match win.next with
          | none => Except.ok uic1.heap
          | some q =>
            match load uic1.heap (some q) with
            | Except.error e => Except.error e
            | Except.ok wq => Except.ok (Function.update uic1.heap q (some { wq with prev := none }))
        match r with
        | Except.error e => Except.error e
        | Except.ok h =>
          match load h (some p) with
          | Except.error e => Except.error e
          | Except.ok w1 =>
            Except.ok
              ({ uic1 with
                 heap := Function.update h p (some { w1 with winstatus := none, winside := none })
                 windows := win.next
                 prompt_win := some p }, some p)

/-! ## Windows: well-formed lists and screen regions -/

/-- The doubly linked chain starting at `cur`, whose first window has `prev`
as its back link, visits exactly the addresses `l` and ends at `NULL`; every
window on it is allocated and points back to the user interface. -/
def Linked (h : Heap) : Option Nat → Option Nat → List Nat → Prop
  | _, cur, [] => cur = none
  | prev, cur, p :: l =>
    cur = some p ∧ ∃ w, h p = some w ∧ w.prev = prev ∧ w.ui = true ∧ Linked h (some p) w.next l

/-- Well-formed window list with forward sequence `l`: the chain from
`uic->windows` visits exactly `l` and ends at `NULL`, next and prev links
agree, and the head has no prev link. -/
def WF (uic : UiCurses) (l : List Nat) : Prop :=
  Linked uic.heap none uic.windows l

/-- Heap after `ui_window_free` unlinked and freed the window `w` at `p`. -/
def unlinked (h : Heap) (p : Nat) (w : UiCursesWin) : Heap := fun q =>
  if q = p then none
  else (h q).map fun wq =>
    { wq with
      next := if w.prev = some q then w.next else wq.next
      prev := if w.next = some q then w.prev else wq.prev }

/-! ## Windows: the layout in closed form -/

/-- Vertical rules drawn by the layout loop for `len` remaining windows when
the running column is `x`: one after every window but the last. -/
def seps (layout : UiLayout) (max_height width : Int) : Nat → Int → List VLine
  | 0, _ => []
  | 1, _ => []
  | len + 2, x =>
    match layout with
    | UiLayout.UI_LAYOUT_HORIZONTAL => []
    | UiLayout.UI_LAYOUT_VERTICAL =>
      { y := 0, x := x + width, n := max_height } ::
        seps layout max_height width (len + 1) (x + width + 1)

/-- Geometry the layout loop gives to the window at position `i` of `len`
remaining windows, when the loop starts them at column `x` and row `y`. -/
def placeWin (layout : UiLayout) (W max_height width height : Int) (len : Nat) (x y : Int)
    (i : Nat) (w : UiCursesWin) : UiCursesWin :=
  match layout with
  | UiLayout.UI_LAYOUT_HORIZONTAL =>
    ui_window_move
      (ui_window_resize w W (if i + 1 < len then height else max_height - (y + i * height)))
      x (y + i * height)
  | UiLayout.UI_LAYOUT_VERTICAL =>
    ui_window_move
      (ui_window_resize w (if i + 1 < len then width else W - (x + i * (width + 1))) max_height)
      (x + i * (width + 1)) y

/-- Allocator answers for a call in which every allocation succeeds and
`calloc` returns the address `p`. -/
def okAlloc (p : Nat) : Alloc :=
  { calloc := some p, window_new := true, newwin := true, newwin_status := true }

/-- A linked window at origin with the given links and size zero. -/
def linkedWin (prev next : Option Nat) : UiCursesWin :=
  { UiCursesWin.zero with
    ui := true, view := some { width := 0, height := 0 }
    win := some { rows := 0, cols := 0, y := 0, x := 0 }
    winstatus := some { rows := 1, cols := 0, y := 0, x := 0 }
    next := next, prev := prev }

/-- A user interface with the three windows 1, 2, 3 in list order, window 2
focused, on a screen of the given size. -/
def threeWins (width height : Int) : UiCurses :=
  { UiCurses.zero with
    heap := fun q =>
      if q = 1 then some (linkedWin none (some 2))
      else if q = 2 then some (linkedWin (some 1) (some 3))
      else if q = 3 then some (linkedWin (some 2) none)
      else none
    windows := some 1
    selwin := some 2
    width := width
    height := height }

/-- A user interface with the two windows 1, 2 in list order on a screen of
the given size. -/
def twoWins (width height : Int) : UiCurses :=
  { UiCurses.zero with
    heap := fun q =>
      if q = 1 then some (linkedWin none (some 2))
      else if q = 2 then some (linkedWin (some 1) none)
      else none
    windows := some 1
    width := width
    height := height }

/-- A user interface with the single window 1 on a screen of the given size. -/
def oneWin (width height : Int) : UiCurses :=
  { UiCurses.zero with
    heap := fun q => if q = 1 then some (linkedWin none none) else none
    windows := some 1
    width := width
    height := height }

/-- The list head, the focus and the `(prev, next)` links of the windows at
the given addresses, for comparing outcomes. -/
def observe (r : Except Fault UiCurses) (ps : List Nat) :
    Except Fault (Option Nat × Option Nat × List (Option (Option Nat × Option Nat))) :=
  match r with
  | Except.error e => Except.error e
  | Except.ok u =>
    Except.ok (u.windows, u.selwin, ps.map fun p => (u.heap p).map fun w => (w.prev, w.next))

/-- The call sequence `window_new` (window 1), `prompt_new` (prompt pane 2) on
the empty user interface. -/
def afterPrompt : Except Fault UiCurses :=
  match ui_window_new UiCurses.zero (okAlloc 1) with
  | Except.error e => Except.error e
  | Except.ok (u1, _) =>
    match prompt_new u1 (okAlloc 2) with
    | Except.error e => Except.error e
    | Except.ok (u2, _) => Except.ok u2

/-- `afterPrompt`, then `window_free` of window 1, then `window_free` of the
prompt pane, as `ui_curses_free` would do it after the editor closed window 1. -/
def promptFreedAfterWindow : Except Fault UiCurses :=
  match afterPrompt with
  | Except.error e => Except.error e
  | Except.ok u2 =>
    match ui_window_free u2 (some 1) with
    | Except.error e => Except.error e
    | Except.ok u3 => ui_window_free u3 u3.prompt_win

/-- `afterPrompt`, then `window_new` (window 3). -/
def afterPromptAndWindow : Except Fault UiCurses :=
  match afterPrompt with
  | Except.error e => Except.error e
  | Except.ok u2 =>
    match ui_window_new u2 (okAlloc 3) with
    | Except.error e => Except.error e
    | Except.ok (u3, _) => Except.ok u3

/-- `afterPromptAndWindow`, then `window_free` of the prompt pane. -/
def promptFreedBesideWindows : Except Fault UiCurses :=
  match afterPromptAndWindow with
  | Except.error e => Except.error e
  | Except.ok u3 => ui_window_free u3 u3.prompt_win

/-- Origin and size `(x, y, width, height)` of the window at address `p` in
the outcome of a layout pass, `none` if the pass faulted or no window is
allocated there. -/
def geomOf (r : Except Fault (UiCurses × List VLine)) (p : Nat) : Option (Int × Int × Int × Int) :=
  match r with
  | Except.error _ => none
  | Except.ok (u, _) => (u.heap p).map fun w => (w.x, w.y, w.width, w.height)

/-- A colour argument of `color_get` that is in range for `C` colours: the
default sentinel -1 or a palette index in `[0, C)`. -/
def ValidColor (C : Int) (c : Int) : Prop := c = -1 ∨ (0 ≤ c ∧ c < C)

/-- A logical pair with both components in range. -/
def ValidPair (C : Int) (p : Int × Int) : Prop := ValidColor C p.1 ∧ ValidColor C p.2

/-- The pairs of a request sequence in the order of their first occurrence,
continuing from the pairs `ds` already seen. -/
def firstsFrom : List (Int × Int) → List (Int × Int) → List (Int × Int)
  | ds, [] => ds
  | ds, p :: cs => firstsFrom (if p ∈ ds then ds else ds ++ [p]) cs

/-- The distinct pairs of a request sequence in the order of their first
occurrence. -/
def firsts (cs : List (Int × Int)) : List (Int × Int) := firstsFrom [] cs

/-- State of cache and terminal after the distinct pairs `ds` were resolved, in
that order, on a terminal with untouched slot contents `hw0` and `S` slots:
the cursor is the number of pairs, pair number `i` owns slot `i + 1` in the
table and in the terminal, no other key has an entry, and the remaining slots
are untouched. -/
def RoundRobin (T : Term) (S : Int) (hw0 hw : Hw) (s : ColorState) (ds : List (Int × Int)) :
    Prop :=
  s.color_pair_current = ds.length ∧
  (∀ (i : Nat) p, ds[i]? = some p → s.lookup (color_hash T.COLORS p.1 p.2) = (i : Int) + 1) ∧
  (∀ k, (∀ p ∈ ds, color_hash T.COLORS p.1 p.2 ≠ k) → s.lookup k = 0) ∧
  (∀ (i : Nat) p, ds[i]? = some p → hw ((i : Int) + 1) = p) ∧
  (∀ j : Int, (ds.length : Int) < j → hw j = hw0 j) ∧
  (∀ t, s.color2palette = some t → s.has_default_colors = true ∧ s.color_pairs_max = S)

/-! ## Windows: the detached prompt pane -/

/-- The prompt pane `P` is allocated, belongs to the user interface, is not on
the window list `l` and has no link into it; the list itself is well formed. -/
def Detached (uic : UiCurses) (l : List Nat) (P : Nat) : Prop :=
  WF uic l ∧ P ∉ l ∧ uic.prompt_win = some P ∧
    ∃ w, uic.heap P = some w ∧ w.next = none ∧ w.prev = none ∧ w.ui = true

/-- A call made by the editor between `prompt_new` and the end: `window_new`
with the allocator's answers, or `window_free` of a window. -/
inductive WinOp where
  | window_new (a : Alloc)
  | window_free (p : Nat)

/-- Effect of a sequence of `WinOp` calls. -/
def runOps : UiCurses → List WinOp → Except Fault UiCurses
  | uic, [] => Except.ok uic
  | uic, WinOp.window_new a :: rest =>
    match ui_window_new uic a with
    | Except.error e => Except.error e
    | Except.ok (uic1, _) => runOps uic1 rest
  | uic, WinOp.window_free p :: rest =>
    match ui_window_free uic (some p) with
    | Except.error e => Except.error e
    | Except.ok uic1 => runOps uic1 rest

/-- The calls of a sequence are legal from the state `uic`: every `window_new`
finds its allocations succeeding at an unused address, and every
`window_free` is given a window of the current list. -/
def OpsLegal : UiCurses → List WinOp → Prop
  | _, [] => True
  | uic, WinOp.window_new a :: rest =>
    (∃ p, a.calloc = some p ∧ uic.heap p = none) ∧ a.window_new = true ∧ a.newwin = true ∧
      a.newwin_status = true ∧
      match ui_window_new uic a with
      | Except.ok (uic1, _) => OpsLegal uic1 rest
      | Except.error _ => True
  | uic, WinOp.window_free p :: rest =>
    (∃ l, WF uic l ∧ p ∈ l) ∧
      match ui_window_free uic (some p) with
      | Except.ok uic1 => OpsLegal uic1 rest
      | Except.error _ => True

/-- The empty user interface after `prompt_new` created the prompt pane at
address 2. -/
def promptOnly : UiCurses :=
  match prompt_new UiCurses.zero (okAlloc 2) with
  | Except.ok (u, _) => u
  | Except.error _ => UiCurses.zero

/-! ## Colour pairs: table accesses -/

/-- Indices at which one `color_get` call reads or writes `color2palette`, in
program order: the read of line 121, the writes of lines 128 and 129 when
`init_pair` succeeded, and the read of line 133. -/
def color_get_indices (T : Term) (a : Answers) (s0 : ColorState) (fg0 bg0 : Int) : List Nat :=
  let s := color_setup T a s0
  let fg := (color_subst T s fg0 bg0).1
  let bg := (color_subst T s fg0 bg0).2
  match s.color2palette with
  | none => []
  | some tbl =>
    if fg = -1 ∧ bg = -1 then []
    else
      let index := color_hash T.COLORS fg bg
      if tbl index = 0 then
        let inc := toShort (s.color_pair_current + 1)
        let cur := if inc ≥ s.color_pairs_max then 1 else inc
        let old := a.pair_content cur
        let old_index := color_hash T.COLORS old.1 old.2
        if a.init_pair cur fg bg = true then [index, old_index, index, index]
        else [index, index]
      else [index, index]

/-- The answers of a terminal with slot contents `hw` that supports default
colours, allocates, and accepts every `init_pair`. -/
def hwAnswers (hw : Hw) : Answers :=
  { pair_content := hw, use_default_colors := true, calloc := true,
    init_pair := fun _ _ _ => true }

/-! ## Status bar and sidebar: data and code -/

/-- Value of a `size_t` (64 bit) as `printf` shows it for `%zd`. -/
def toSSize (x : Int) : Int := (x + 9223372036854775808) % 18446744073709551616 - 9223372036854775808

/-- Number of decimal digits of `n`, by repeated division by ten; `fuel` bounds
the number of divisions and `n` itself is always enough. -/
def decimalDigits : Nat → Nat → Nat
  | 0, _ => 1
  | fuel + 1, n => if n < 10 then 1 else 1 + decimalDigits fuel (n / 10)

/-- Number of characters of the decimal text of an integer, as `snprintf`
counts them for `%zd`: the digits, and a minus sign for a negative value. -/
def decimalLength (v : Int) : Nat :=
  (if v < 0 then 1 else 0) + decimalDigits v.natAbs v.natAbs

/-- The C structure `CursorPos` of `window.h`. -/
structure CursorPos where
  line : Nat
  col : Nat

/-- A screen line, the C structure `Line` of `window.h`, without its cells; the
`next` chain of lines is a list of these. -/
structure Line where
  len : Nat
  lineno : Nat
  width : Int

/-- What `ui_window_draw_status` does with the buffer for the position text
(lines 173-178): the size of `buf`, the value `len` returned by `snprintf`, the
index at which the terminator is written and the column handed to `mvwaddstr`,
the last two only when `len > 0`. -/
structure StatusText where
  buf_size : Int
  len : Int
  terminator : Option Int
  column : Option Int
  deriving DecidableEq

/-- Lines 157-179, `ui_window_draw_status`, as far as the position text goes;
`pos` is the answer of `window_cursor_getpos`. The result is `none` when the
window has no status bar. `snprintf` returns the length the whole text would
have, whatever the size limit it was given. -/
def ui_window_draw_status (win : UiCursesWin) (pos : CursorPos) : Option StatusText :=
  match win.winstatus with
  | none => none
  | some _ =>
    let len : Int := decimalLength (toSSize pos.line) + 2 + decimalLength (toSSize pos.col)
    if len > 0 then
      some { buf_size := win.width + 1, len := len, terminator := some len,
             column := some (win.width - len - 1) }
    else some { buf_size := win.width + 1, len := len, terminator := none, column := none }

/-- Lines 196-225, `ui_window_draw_sidebar`, as far as it changes the window;
`line` is the chain of screen lines, empty for `NULL`. The branch of lines
206-223 only prints. -/
def ui_window_draw_sidebar (win : UiCursesWin) (line : List Line) : UiCursesWin :=
  match win.winside, line with
  | none, _ => win
  | some _, [] => win
  | some _, l :: _ =>
    let sidebar_width : Int := decimalLength (toSSize (l.lineno + win.height - 2)) + 1
    if win.sidebar_width ≠ sidebar_width then
      let win := { win with sidebar_width := sidebar_width }
      let win := ui_window_resize win win.width win.height
      ui_window_move win win.x win.y
    else win

/-- Sidebar width as the spec words it: `⌈log10 m⌉ + 1` for the maximum line
number `m`. -/
def spec_sidebar_width (m : Nat) : Nat := Nat.clog 10 m + 1

/-- A window with status bar and sidebar of the given height whose other
fields are zero. -/
def sidebarWin (height : Int) : UiCursesWin :=
  { UiCursesWin.zero with
    ui := true, view := some { width := 0, height := 0 }
    win := some { rows := 0, cols := 0, y := 0, x := 0 }
    winstatus := some { rows := 1, cols := 0, y := 0, x := 0 }
    winside := some { rows := 1, cols := 1, y := 1, x := 1 }
    width := 80, height := height }

/-- Size `(rows, cols)` of a surface, `none` for `NULL`. -/
def surface_size (w : Option WINDOW) : Option (Int × Int) :=
  w.map fun v => (v.rows, v.cols)

/-- A pane with status bar and sidebar after it was laid out 80 columns wide
and 24 rows high with line numbers up to 999: the sidebar is 4 columns wide,
the status bar 1 by 80, the text surface 23 by 76 and the sidebar 23 by 4. -/
def pane80x24 : UiCursesWin :=
  ui_window_draw_sidebar (sidebarWin 24) [⟨0, 977, 0⟩]

/-! ## Staging, focus and the info banner: data and code -/

/-- The three curses surfaces of a window. -/
inductive Surface where
  | winstatus
  | winside
  | win
  deriving DecidableEq

/-- One `wnoutrefresh` call: the address of the window and which of its
surfaces is staged. -/
abbrev Staged := Nat × Surface

/-- Lines 227-233, `ui_window_update` of the window at address `p`: the
`wnoutrefresh` calls in program order. -/
def ui_window_update (p : Nat) (win : UiCursesWin) : List Staged :=
  (if win.winstatus.isSome then [(p, Surface.winstatus)] else []) ++
    (if win.winside.isSome then [(p, Surface.winside)] else []) ++ [(p, Surface.win)]

/-- Lines 237-240 of `update`: the loop over the window list, which stages
every window but the selected one. The arguments are the steps left, the heap,
`uic->selwin`, the loop variable `win` and the calls made so far. -/
def update_loop : Nat → Heap → Option Nat → Option Nat → List Staged →
    Except Fault (List Staged)
  | _, _, _, none, acc => Except.ok acc
  | 0, _, _, some _, _ => Except.error Fault.fuel
  | fuel + 1, h, sel, some p, acc =>
    match h p with
    | none => Except.error Fault.freed
    | some w =>
      update_loop fuel h sel w.next (if some p ≠ sel then acc ++ ui_window_update p w else acc)

/-- Lines 235-249, `update`: the `wnoutrefresh` calls in program order; the
`doupdate` of line 248 follows them. -/
def update (fuel : Nat) (uic : UiCurses) : Except Fault (List Staged) :=
  match update_loop fuel uic.heap uic.selwin uic.windows [] with
  | Except.error e => Except.error e
  | Except.ok t1 =>
    -- if (uic->selwin) ui_window_update(uic->selwin);
    let r2 : Except Fault (List Staged) :=
      match uic.selwin with
      | none => Except.ok t1
      | some q =>
        match load uic.heap (some q) with
        | Except.error e => Except.error e
        | Except.ok w => Except.ok (t1 ++ ui_window_update q w)
    match r2 with
    | Except.error e => Except.error e
    | Except.ok t2 =>
      if uic.prompt_title ≠ "" then
        match uic.prompt_win with
        | none => Except.error Fault.null
        | some P =>
          match load uic.heap (some P) with
          | Except.error e => Except.error e
          | Except.ok pw => Except.ok (t2 ++ [(P, Surface.win)] ++ ui_window_update P pw)
      else Except.ok t2

/-- The `wnoutrefresh` calls of `ui_window_update` for each of the windows
`ps` in turn. -/
def stagePanes (h : Heap) (ps : List Nat) : List Staged :=
  ps.flatMap fun p =>
    match h p with
    | some w => ui_window_update p w
    | none => []

/-- Lines 384-391, `ui_window_focus`. The two `ui_window_draw_status` calls
write to the screen only; the first dereferences the window selected before. -/
def ui_window_focus (uic : UiCurses) (w : Option Nat) : Except Fault UiCurses :=
  match load uic.heap w with
  | Except.error e => Except.error e
  | Except.ok win =>
    if win.ui = false then Except.error Fault.null
    else
      let oldsel := uic.selwin
      let uic := { uic with selwin := w }
      match oldsel with
      | none => Except.ok uic
      | some q =>
        match load uic.heap (some q) with
        | Except.error e => Except.error e
        | Except.ok _ => Except.ok uic

/-- A call of the window interface: `window_new` and `prompt_new` with the
allocator's answers, `window_free` and `window_focus` of the window at an
address. -/
inductive UiOp where
  | window_new (a : Alloc)
  | window_free (p : Nat)
  | window_focus (p : Nat)
  | prompt_new (a : Alloc)

/-- Effect of one `UiOp` call. -/
def stepUi (uic : UiCurses) : UiOp → Except Fault UiCurses
  | UiOp.window_new a =>
    match ui_window_new uic a with
    | Except.error e => Except.error e
    | Except.ok (uic1, _) => Except.ok uic1
  | UiOp.window_free p => ui_window_free uic (some p)
  | UiOp.window_focus p => ui_window_focus uic (some p)
  | UiOp.prompt_new a =>
    match prompt_new uic a with
    | Except.error e => Except.error e
    | Except.ok (uic1, _) => Except.ok uic1

/-- Effect of a sequence of `UiOp` calls. -/
def runUi : UiCurses → List UiOp → Except Fault UiCurses
  | uic, [] => Except.ok uic
  | uic, op :: rest =>
    match stepUi uic op with
    | Except.error e => Except.error e
    | Except.ok uic1 => runUi uic1 rest

/-- Answers the allocator can give in the state `uic`: `calloc` fails, or it
returns an unused address and the constructors succeed. -/
def AllocLegal (uic : UiCurses) (a : Alloc) : Prop :=
  a.calloc = none ∨
    ((∃ p, a.calloc = some p ∧ uic.heap p = none) ∧ a.window_new = true ∧ a.newwin = true ∧
      a.newwin_status = true)

/-- A call is made on the window list: the allocator's answers are legal, and
`window_free` and `window_focus` are given a window of the current list. -/
def UiOpLegal (uic : UiCurses) : UiOp → Prop
  | UiOp.window_new a => AllocLegal uic a
  | UiOp.window_free p => ∃ l, WF uic l ∧ p ∈ l
  | UiOp.window_focus p => ∃ l, WF uic l ∧ p ∈ l
  | UiOp.prompt_new a => AllocLegal uic a

/-- Every call of a sequence is made on the window list of the state it is
made in. -/
def UiOpsLegal : UiCurses → List UiOp → Prop
  | _, [] => True
  | uic, op :: rest =>
    UiOpLegal uic op ∧
      match stepUi uic op with
      | Except.ok uic1 => UiOpsLegal uic1 rest
      | Except.error _ => True

/-- The focus pointer is `NULL` or points to a window of the list `l`. -/
def FocusInList (uic : UiCurses) (l : List Nat) : Prop :=
  uic.selwin = none ∨ ∃ p ∈ l, uic.selwin = some p

/-- The longest prefix of whole characters that fits `n` bytes of UTF-8. -/
def takeBytes : Nat → List Char → List Char
  | _, [] => []
  | n, c :: cs => if c.utf8Size ≤ n then c :: takeBytes (n - c.utf8Size) cs else []

/-- Lines 446-450, `info`, for the formatted message `text`: `vsnprintf` stores
what fits the 255 bytes of `uic->info` with its terminator, cut here at a
character boundary, then `draw` runs. -/
def info (fuel : Nat) (uic : UiCurses) (text : String) :
    Except Fault (UiCurses × List VLine) :=
  draw fuel { uic with info := String.mk (takeBytes 254 text.data) }

/-- Lines 452-458, `info_hide`: the user interface afterwards and the vertical
rules of the redraw, `none` when no redraw took place. -/
def info_hide (fuel : Nat) (uic : UiCurses) :
    Except Fault (UiCurses × Option (List VLine)) :=
  if uic.info ≠ "" then
    match draw fuel { uic with info := "" } with
    | Except.error e => Except.error e
    | Except.ok (u, vl) => Except.ok (u, some vl)
  else Except.ok (uic, none)

/-! ## Staging, focus and the info banner: sample states -/

/-- The user interface `uic` with a prompt pane at address `P`, detached from
the window list, and the prompt shown under the given title. -/
def withPrompt (uic : UiCurses) (P : Nat) (title : String) : UiCurses :=
  { uic with
    heap := Function.update uic.heap P (some { linkedWin none none with winstatus := none })
    prompt_win := some P
    prompt_title := title }

/-- The user interface `threeWins 80 24` after `window_new` created window 4. -/
def fourWins : UiCurses :=
  match ui_window_new (threeWins 80 24) (okAlloc 4) with
  | Except.ok (u, _) => u
  | Except.error _ => UiCurses.zero

/-- The user interface `twoWins 80 24` after `info` showed the banner "msg". -/
def infoShown : UiCurses :=
  match info 2 (twoWins 80 24) "msg" with
  | Except.ok (u, _) => u
  | Except.error _ => UiCurses.zero

/-! ## Colour pairs: the cache against a terminal -/

/-- One `color_get` call against a terminal: what the library answers to
`use_default_colors`, `calloc` and `init_pair` during the call, and the
arguments `fg` and `bg`; `pair_content` is answered by the terminal. -/
structure HwCall where
  use_default_colors : Bool
  calloc : Bool
  init_pair : Int → Int → Int → Bool
  fg : Int
  bg : Int

/-- Every key that holds a nonzero slot in the table is the key of the pair
the terminal has in that slot. -/
def CacheInv (T : Term) (hw : Hw) (s : ColorState) : Prop :=
  ∀ k, s.lookup k ≠ 0 → k = color_hash T.COLORS (hw (s.lookup k)).1 (hw (s.lookup k)).2

/-- A call `color_get(fg, bg)` against a terminal with `pairs` slots, during
which `use_default_colors` and `calloc` succeed and the terminal accepts an
assignment to any of its slots from 1 on. -/
def acceptedCall (pairs : Int) (fg bg : Int) : HwCall :=
  { use_default_colors := true, calloc := true
    init_pair := fun p _ _ => decide (1 ≤ p ∧ p < pairs), fg := fg, bg := bg }

/-- A call `color_get(fg, bg)` during which `init_pair` fails. -/
def rejectedCall (fg bg : Int) : HwCall :=
  { use_default_colors := true, calloc := true, init_pair := fun _ _ _ => false, fg := fg, bg := bg }

/-! ## Colour pairs: the table as allocated -/

/-- Undefined behaviour in `color_get`. -/
inductive ColorFault where
  /-- The count `(COLORS + 2) * (COLORS + 2)` handed to `calloc` (line 101),
  computed in `int`, does not fit `int`. -/
  | overflow
  /-- The table is read or written beyond its last entry (lines 121, 128, 129,
  133). -/
  | bounds
  deriving DecidableEq

/-- Number of entries of the table allocated at line 101. -/
def table_len (T : Term) : Nat := ((T.COLORS + 2) * (T.COLORS + 2)).toNat

/-- Lines 88-134, `color_get`, with the memory of the table as allocated: the
arguments arrive as `short`, the table has `table_len` entries, and a call that
reads or writes beyond them has no defined result. Where the call stays inside
the table its result is that of `color_get`. -/
def color_get_checked (T : Term) (a : Answers) (s0 : ColorState) (fg0 bg0 : Int) :
    Except ColorFault ColorResult :=
  if s0.color2palette.isNone ∧ T.COLORS ≠ 0 ∧
      2147483648 ≤ (T.COLORS + 2) * (T.COLORS + 2) then
    Except.error ColorFault.overflow
  else
    let s := color_setup T a s0
    let fg := (color_subst T s (toShort fg0) (toShort bg0)).1
    let bg := (color_subst T s (toShort fg0) (toShort bg0)).2
    match s.color2palette with
    | none => Except.ok { state := s, slot := 0, assigned := none }
    | some tbl =>
      if fg = -1 ∧ bg = -1 then Except.ok { state := s, slot := 0, assigned := none }
      else
        let index := color_hash T.COLORS fg bg
        if table_len T ≤ index then Except.error ColorFault.bounds
        else if tbl index = 0 then
          let inc := toShort (s.color_pair_current + 1)
          let cur := if inc ≥ s.color_pairs_max then 1 else inc
          let old := a.pair_content cur
          let old_index := color_hash T.COLORS old.1 old.2
          if a.init_pair cur fg bg = true then
            if table_len T ≤ old_index then Except.error ColorFault.bounds
            else
              let tbl2 := Function.update (Function.update tbl old_index 0) index cur
              Except.ok
                { state := { s with color2palette := some tbl2, color_pair_current := cur }
                  slot := tbl2 index
                  assigned := some (cur, fg, bg) }
          else
            Except.ok
              { state := { s with color_pair_current := cur }
                slot := tbl index
                assigned := none }
        else Except.ok { state := s, slot := tbl index, assigned := none }

/-- A sequence of `color_get` calls, each with the library's answers for that
call, as long as every call stays inside the table; the result is the final
statics and the slots returned, in call order. -/
def color_run_checked (T : Term) :
    ColorState → List (Answers × Int × Int) → Except ColorFault (ColorState × List Int)
  | s, [] => Except.ok (s, [])
  | s, (a, fg, bg) :: rest =>
    match color_get_checked T a s fg bg with
    | Except.error e => Except.error e
    | Except.ok r =>
      match color_run_checked T r.state rest with
      | Except.error e => Except.error e
      | Except.ok out => Except.ok (out.1, r.slot :: out.2)

/-- One `color_get` call, with the table as allocated, against a terminal that
stores every accepted `init_pair` and reports it back through `pair_content`. -/
def color_get_hw_checked (T : Term) (udc alloc : Bool) (accept : Int → Int → Int → Bool)
    (hw : Hw) (s : ColorState) (fg bg : Int) : Except ColorFault (Hw × ColorState × Int) :=
  match color_get_checked T
      { pair_content := hw, use_default_colors := udc, calloc := alloc, init_pair := accept }
      s fg bg with
  | Except.error e => Except.error e
  | Except.ok r =>
    match r.assigned with
    | some (p, f, b) => Except.ok (Function.update hw p (f, b), r.state, r.slot)
    | none => Except.ok (hw, r.state, r.slot)

/-- A sequence of `color_get` calls, with the table as allocated, against a
terminal that stores every accepted `init_pair` and reports it back through
`pair_content`; the result is the terminal, the statics and the slots
returned, in call order. -/
def color_run_hw_checked (T : Term) :
    Hw → ColorState → List HwCall → Except ColorFault (Hw × ColorState × List Int)
  | hw, s, [] => Except.ok (hw, s, [])
  | hw, s, c :: rest =>
    match color_get_hw_checked T c.use_default_colors c.calloc c.init_pair hw s c.fg c.bg with
    | Except.error e => Except.error e
    | Except.ok r =>
      match color_run_hw_checked T r.1 r.2.1 rest with
      | Except.error e => Except.error e
      | Except.ok out => Except.ok (out.1, out.2.1, r.2.2 :: out.2.2)

/-- Five calls against a terminal with 64 slots, the third of them rejected. -/
def sampleCalls : List HwCall :=
  [acceptedCall 64 0 0, acceptedCall 64 1 0, rejectedCall 2 3, acceptedCall 64 0 0,
    acceptedCall 64 (-1) 4]

/-- The terminal accepts an assignment only to one of its `COLOR_PAIRS` slots. -/
def SlotsExist (T : Term) (c : HwCall) : Prop :=
  ∀ p f b, c.init_pair p f b = true → 0 ≤ p ∧ p < T.COLOR_PAIRS

/-- Invariant of the statics against a terminal that accepts assignments only
to its own slots: the cursor is a non-negative `short` below its last value,
and once the table exists the recorded limit is `min(COLOR_PAIRS, 256)` as a
`short` and every entry is 0 or a slot in `[1, min(COLOR_PAIRS, 256))`. -/
def EntryInv (T : Term) (s : ColorState) : Prop :=
  (0 ≤ s.color_pair_current ∧ s.color_pair_current < 32767) ∧
  ∀ t, s.color2palette = some t →
    s.color_pairs_max = toShort (min T.COLOR_PAIRS MAX_COLOR_PAIRS) ∧
    ∀ k, t k = 0 ∨ (1 ≤ t k ∧ t k < min T.COLOR_PAIRS MAX_COLOR_PAIRS)

/-- The arguments of a call are `short` values that are -1 or non-negative. -/
def ArgsInRange (c : HwCall) : Prop :=
  (-1 ≤ c.fg ∧ c.fg < 32768) ∧ (-1 ≤ c.bg ∧ c.bg < 32768)

/-- A call whose arguments are `short` values that are -1 or non-negative,
made while the library reports pairs of `[-1, C) × [-1, C)` for every slot and
a foreground for slot 0 that leaves the recorded default a palette index. -/
def CallInRange (T : Term) (c : Answers × Int × Int) : Prop :=
  (-1 ≤ c.2.1 ∧ c.2.1 < 32768) ∧ (-1 ≤ c.2.2 ∧ c.2.2 < 32768) ∧
  (∀ p, ValidPair T.COLORS (c.1.pair_content p)) ∧
  ((c.1.pair_content 0).1 = -1 → COLOR_WHITE < T.COLORS)

/-- Once the table exists the recorded defaults are palette indices. -/
def DefaultsInv (T : Term) (s : ColorState) : Prop :=
  ∀ t, s.color2palette = some t →
    (0 ≤ s.default_fg ∧ s.default_fg < T.COLORS) ∧ (0 ≤ s.default_bg ∧ s.default_bg < T.COLORS)

/-! ## Colour pairs: properties -/

/-- Invariant of the statics once the table exists: every entry is a slot below
`S`, the cursor is below `S`, and the recorded limit is `S`. -/
def SlotInv (S : Int) (s : ColorState) : Prop :=
  (0 ≤ s.color_pair_current ∧ s.color_pair_current < S) ∧
  ∀ t, s.color2palette = some t → s.color_pairs_max = S ∧ ∀ k, 0 ≤ t k ∧ t k < S

theorem toShort_of_range {x : Int} (h0 : -32768 ≤ x) (h1 : x < 32768) : toShort x = x := by
  unfold toShort
  omega

theorem slotInv_fresh {S : Int} (hS : 2 ≤ S) : SlotInv S ColorState.fresh := by
  refine ⟨⟨by simp [ColorState.fresh], by simp [ColorState.fresh]; omega⟩, ?_⟩
  intro t ht
  simp [ColorState.fresh] at ht

theorem slotInv_setup (T : Term) (a : Answers) (s : ColorState)
    (hS : 2 ≤ min T.COLOR_PAIRS MAX_COLOR_PAIRS)
    (h : SlotInv (min T.COLOR_PAIRS MAX_COLOR_PAIRS) s) :
    SlotInv (min T.COLOR_PAIRS MAX_COLOR_PAIRS) (color_setup T a s) := by
  unfold color_setup
  cases hc : s.color2palette with
  | some t => simpa [hc] using h
  | none =>
    refine ⟨h.1, ?_⟩
    intro t ht
    have hle : min T.COLOR_PAIRS MAX_COLOR_PAIRS ≤ 256 := min_le_right _ _
    refine ⟨toShort_of_range (by omega) (by omega), ?_⟩
    simp only at ht
    split_ifs at ht
    · cases ht
      intro k
      exact ⟨le_refl _, by show (0 : Int) < _; omega⟩

theorem slotInv_color_get (T : Term) (a : Answers) (s : ColorState) (fg bg : Int)
    (hS : 2 ≤ min T.COLOR_PAIRS MAX_COLOR_PAIRS)
    (h : SlotInv (min T.COLOR_PAIRS MAX_COLOR_PAIRS) s) :
    SlotInv (min T.COLOR_PAIRS MAX_COLOR_PAIRS) (color_get T a s fg bg).state ∧
      0 ≤ (color_get T a s fg bg).slot ∧
      (color_get T a s fg bg).slot < min T.COLOR_PAIRS MAX_COLOR_PAIRS := by
  have h1 := slotInv_setup T a s hS h
  have hle : min T.COLOR_PAIRS MAX_COLOR_PAIRS ≤ 256 := min_le_right _ _
  generalize min T.COLOR_PAIRS MAX_COLOR_PAIRS = S at *
  simp only [color_get]
  generalize color_setup T a s = s1 at *
  cases hc : s1.color2palette with
  | none => exact ⟨h1, le_refl _, by show (0 : Int) < S; omega⟩
  | some tbl =>
    obtain ⟨⟨hc0, hc1⟩, ht⟩ := h1
    obtain ⟨hmax, hk⟩ := ht tbl hc
    have hinc : toShort (s1.color_pair_current + 1) = s1.color_pair_current + 1 :=
      toShort_of_range (by omega) (by omega)
    simp only [hinc, hmax]
    have hcur : 1 ≤ (if s1.color_pair_current + 1 ≥ S then 1 else s1.color_pair_current + 1) ∧
        (if s1.color_pair_current + 1 ≥ S then 1 else s1.color_pair_current + 1) < S := by
      split_ifs <;> omega
    generalize (if s1.color_pair_current + 1 ≥ S then 1 else s1.color_pair_current + 1) = cur
      at hcur
    split_ifs with hd hz hok
    · exact ⟨⟨⟨hc0, hc1⟩, ht⟩, le_refl _, by show (0 : Int) < S; omega⟩
    · refine ⟨⟨⟨by show 0 ≤ cur; omega, by show cur < S; omega⟩, ?_⟩, ?_, ?_⟩
      · intro t2 ht2
        simp only [Option.some.injEq] at ht2
        subst ht2
        refine ⟨rfl, fun k => ?_⟩
        by_cases hk1 : k = color_hash T.COLORS (color_subst T s1 fg bg).1 (color_subst T s1 fg bg).2
        · subst hk1
          simp only [Function.update_same]
          omega
        · rw [Function.update_noteq hk1]
          by_cases hk2 : k = color_hash T.COLORS (a.pair_content cur).1 (a.pair_content cur).2
          · subst hk2
            simp only [Function.update_same]
            omega
          · rw [Function.update_noteq hk2]
            exact hk k
      · simp only [Function.update_same]
        omega
      · simp only [Function.update_same]
        omega
    · refine ⟨⟨⟨by show 0 ≤ cur; omega, by show cur < S; omega⟩, ?_⟩, (hk _).1, (hk _).2⟩
      intro t2 ht2
      cases ht2
      exact ⟨rfl, hk⟩
    · exact ⟨⟨⟨hc0, hc1⟩, ht⟩, (hk _).1, (hk _).2⟩

theorem slotInv_color_run (T : Term) (hS : 2 ≤ min T.COLOR_PAIRS MAX_COLOR_PAIRS)
    (calls : List (Answers × Int × Int)) :
    ∀ s, SlotInv (min T.COLOR_PAIRS MAX_COLOR_PAIRS) s →
      ∀ r ∈ (color_run T s calls).2, 0 ≤ r ∧ r < min T.COLOR_PAIRS MAX_COLOR_PAIRS := by
  induction calls with
  | nil => intro s _ r hr; simp [color_run] at hr
  | cons c rest ih =>
    obtain ⟨a, fg, bg⟩ := c
    intro s hs r hr
    have h1 := slotInv_color_get T a s fg bg hS hs
    simp only [color_run, List.mem_cons] at hr
    rcases hr with rfl | hr
    · exact h1.2
    · exact ih _ h1.1 r hr

theorem lookup_setup (T : Term) (a : Answers) (s : ColorState) (k : Nat) :
    (color_setup T a s).lookup k = s.lookup k := by
  unfold color_setup ColorState.lookup
  cases hc : s.color2palette with
  | some t => simp [hc]
  | none =>
    simp only
    split_ifs <;> rfl

/-- C10: when the pair has no slot before the call (a cache miss) and the
library rejects the assignment, `color_get` returns slot 0 and every entry of
the pair-to-slot table is what it was before the call. -/
theorem color_get_rejected_unchanged (T : Term) (a : Answers) (s : ColorState) (fg bg : Int)
    (hmiss : s.lookup (color_key T a s fg bg) = 0)
    (hrej : ∀ p f b, a.init_pair p f b = false) :
    (color_get T a s fg bg).slot = 0 ∧
      (color_get T a s fg bg).assigned = none ∧
      ∀ k, (color_get T a s fg bg).state.lookup k = s.lookup k := by
  have hl := lookup_setup T a s
  rw [← hl] at hmiss
  unfold color_key at hmiss
  simp only [color_get]
  generalize color_setup T a s = s1 at *
  cases hc : s1.color2palette with
  | none => exact ⟨rfl, rfl, hl⟩
  | some tbl =>
    have hz : tbl (color_hash T.COLORS (color_subst T s1 fg bg).1 (color_subst T s1 fg bg).2) = 0 := by
      simpa [ColorState.lookup, hc] using hmiss
    simp only [hz, hrej, if_true, Bool.false_eq_true, if_false]
    split_ifs
    · exact ⟨rfl, rfl, hl⟩
    all_goals
      refine ⟨rfl, rfl, fun k => ?_⟩
      rw [← hl k]
      simp [ColorState.lookup, hc]

/-- Witness for C10: after `(1, 0)` was given slot 1, a rejected request for
`(2, 0)` is a cache miss. -/
theorem color_get_rejected_unchanged_witness :
    (color_get ⟨8, 64⟩ rejectAll (color_get ⟨8, 64⟩ acceptAll ColorState.fresh 1 0).state 2 0).slot = 0 ∧
      (color_get ⟨8, 64⟩ rejectAll
        (color_get ⟨8, 64⟩ acceptAll ColorState.fresh 1 0).state 2 0).assigned = none ∧
      ∀ k, (color_get ⟨8, 64⟩ rejectAll
          (color_get ⟨8, 64⟩ acceptAll ColorState.fresh 1 0).state 2 0).state.lookup k =
        (color_get ⟨8, 64⟩ acceptAll ColorState.fresh 1 0).state.lookup k :=
  color_get_rejected_unchanged ⟨8, 64⟩ rejectAll _ 2 0 (by decide) (fun _ _ _ => rfl)

/-! ## Windows: properties -/

theorem linked_frame (h h2 : Heap) (l : List Nat) :
    ∀ a c, Linked h a c l → (∀ q ∈ l, h2 q = h q) → Linked h2 a c l := by
  induction l with
  | nil => intro a c hl _; exact hl
  | cons p l ih =>
    intro a c hl hq
    obtain ⟨hc, w, hw, hp, hu, hr⟩ := hl
    refine ⟨hc, w, ?_, hp, hu, ih _ _ hr (fun q hq2 => hq q (List.mem_cons_of_mem _ hq2))⟩
    rw [hq p (List.mem_cons_self _ _)]
    exact hw

theorem linked_alloc (h : Heap) (l : List Nat) :
    ∀ a c, Linked h a c l → ∀ q ∈ l, ∃ w, h q = some w ∧ w.ui = true := by
  induction l with
  | nil => intro a c _ q hq; simp at hq
  | cons p l ih =>
    intro a c hl q hq
    obtain ⟨_, w, hw, _, hu, hr⟩ := hl
    rcases List.mem_cons.1 hq with rfl | hq2
    · exact ⟨w, hw, hu⟩
    · exact ih _ _ hr q hq2

theorem linked_det (h : Heap) (l1 : List Nat) :
    ∀ (a b c : Option Nat) (l2 : List Nat), Linked h a c l1 → Linked h b c l2 → l1 = l2 := by
  induction l1 with
  | nil =>
    intro a b c l2 h1 h2
    cases l2 with
    | nil => rfl
    | cons q l2 =>
      have hc : c = none := h1
      rw [hc] at h2
      cases h2.1
  | cons p l1 ih =>
    intro a b c l2 h1 h2
    obtain ⟨hc, w, hw, _, _, hr⟩ := h1
    cases l2 with
    | nil =>
      have hc2 : c = none := h2
      rw [hc] at hc2
      cases hc2
    | cons q l2 =>
      obtain ⟨hc2, w2, hw2, _, _, hr2⟩ := h2
      rw [hc] at hc2
      cases hc2
      rw [hw] at hw2
      cases hw2
      rw [ih _ _ _ _ hr hr2]

theorem linked_suffix (h : Heap) (p : Nat) (l : List Nat) :
    ∀ (a c : Option Nat), Linked h a c l → p ∈ l →
      ∃ b t, t.length < l.length ∧ Linked h b (some p) (p :: t) := by
  induction l with
  | nil => intro a c _ hp; simp at hp
  | cons q l ih =>
    intro a c hl hp
    by_cases hpq : p = q
    · subst hpq
      refine ⟨a, l, by simp, ?_⟩
      obtain ⟨_, w, hw, hpv, hu, hr⟩ := hl
      exact ⟨rfl, w, hw, hpv, hu, hr⟩
    · have hp2 : p ∈ l := by
        rcases List.mem_cons.1 hp with h1 | h1
        · exact absurd h1 hpq
        · exact h1
      obtain ⟨_, w, _, _, _, hr⟩ := hl
      obtain ⟨b, t, ht, hlt⟩ := ih _ _ hr hp2
      exact ⟨b, t, by simp only [List.length_cons]; omega, hlt⟩

/-- A chain that ends at `NULL` visits no window twice. -/
theorem linked_nodup (h : Heap) (l : List Nat) :
    ∀ (a c : Option Nat), Linked h a c l → l.Nodup := by
  induction l with
  | nil => intro _ _ _; exact List.nodup_nil
  | cons p l ih =>
    intro a c hl
    obtain ⟨_, w, hw, _, _, hr⟩ := hl
    refine List.nodup_cons.2 ⟨?_, ih _ _ hr⟩
    intro hp
    obtain ⟨b, t, ht, hlt⟩ := linked_suffix h p l _ _ hr hp
    obtain ⟨_, w2, hw2, _, _, hr2⟩ := hlt
    rw [hw] at hw2
    cases hw2
    have := linked_det h l _ _ _ t hr hr2
    rw [this] at ht
    exact absurd ht (lt_irrefl _)

/-- Links of a member `p` of a chain: its successor is a later member and its
predecessor is the chain's back link or another member. -/
theorem linked_mem (h : Heap) (p : Nat) (l : List Nat) :
    ∀ a c, Linked h a c l → l.Nodup → p ∈ l →
      ∃ w, h p = some w ∧ w.ui = true ∧ (∀ r, w.next = some r → r ∈ l ∧ r ≠ p) ∧
        (∀ q, w.prev = some q → (a = some q ∨ (q ∈ l ∧ q ≠ p))) ∧
        (c = some p → w.prev = a) := by
  induction l with
  | nil => intro a c _ _ hp; simp at hp
  | cons q l ih =>
    intro a c hl hnd hp
    obtain ⟨hc, w, hw, hpv, hu, hr⟩ := hl
    have hql : q ∉ l := (List.nodup_cons.1 hnd).1
    have hnd2 : l.Nodup := (List.nodup_cons.1 hnd).2
    by_cases hpq : p = q
    · subst hpq
      refine ⟨w, hw, hu, ?_, ?_, fun _ => hpv⟩
      · intro r hr2
        cases l with
        | nil => rw [hr2] at hr; simp [Linked] at hr
        | cons r2 l2 =>
          have : w.next = some r2 := hr.1
          rw [hr2] at this
          cases this
          exact ⟨by simp, fun e => hql (by rw [← e]; simp)⟩
      · intro x hx
        left
        rw [← hx, hpv]
    · have hp2 : p ∈ l := by
        rcases List.mem_cons.1 hp with h1 | h1
        · exact absurd h1 hpq
        · exact h1
      obtain ⟨wp, hwp, hup, hn, hpr, hhead⟩ := ih _ _ hr hnd2 hp2
      refine ⟨wp, hwp, hup, ?_, ?_, ?_⟩
      · intro r hr2
        exact ⟨List.mem_cons_of_mem _ (hn r hr2).1, (hn r hr2).2⟩
      · intro x hx
        right
        rcases hpr x hx with h1 | h1
        · cases h1
          exact ⟨List.mem_cons_self _ _, fun e => hpq e.symm⟩
        · exact ⟨List.mem_cons_of_mem _ h1.1, h1.2⟩
      · intro hcp
        rw [hc] at hcp
        cases hcp
        exact absurd rfl hpq

theorem unlinked_other (h : Heap) (p : Nat) (w : UiCursesWin) (q : Nat) (hq : q ≠ p)
    (h1 : w.prev ≠ some q) (h2 : w.next ≠ some q) : unlinked h p w q = h q := by
  unfold unlinked
  rw [if_neg hq]
  simp only [if_neg h1, if_neg h2]
  cases h q <;> rfl

theorem linked_unlinked (h : Heap) (p : Nat) (w : UiCursesWin) (hw : h p = some w)
    (l : List Nat) :
    ∀ a c, Linked h a c l → l.Nodup → (∀ x, a = some x → x ∉ l) → p ∈ l →
      Linked (unlinked h p w) a (if c = some p then w.next else c) (l.erase p) := by
  induction l with
  | nil => intro a c _ _ _ hp; simp at hp
  | cons q l ih =>
    intro a c hl hnd ha hp
    have hql : q ∉ l := (List.nodup_cons.1 hnd).1
    have hnd2 : l.Nodup := (List.nodup_cons.1 hnd).2
    obtain ⟨hc, wq, hwq, hpv, hu, hr⟩ := hl
    by_cases hpq : q = p
    · subst hpq
      rw [hw] at hwq
      cases hwq
      rw [List.erase_cons_head, if_pos hc]
      cases l with
      | nil => exact hr
      | cons r l2 =>
        obtain ⟨hn, wr, hwr, hrp, hru, hrr⟩ := hr
        have hrq : r ≠ q := fun e => hql (by rw [← e]; simp)
        have hrl : r ∉ l2 := (List.nodup_cons.1 hnd2).1
        have har : w.prev ≠ some r := by
          intro e
          rw [hpv] at e
          exact ha r e (by simp)
        refine ⟨hn, { wr with prev := w.prev }, ?_, hpv, hru, ?_⟩
        · unfold unlinked
          rw [if_neg hrq, hwr]
          simp [har, hn]
        · refine linked_frame h _ l2 _ _ hrr (fun x hx => ?_)
          apply unlinked_other
          · exact fun e => hql (by rw [← e]; simp [hx])
          · intro e
            rw [hpv] at e
            exact ha x e (by simp [hx])
          · rw [hn]
            intro e
            cases e
            exact hrl hx
    · have hp2 : p ∈ l := by
        rcases List.mem_cons.1 hp with h1 | h1
        · exact absurd h1.symm hpq
        · exact h1
      have hcp : c ≠ some p := by
        rw [hc]
        intro e
        cases e
        exact hpq rfl
      rw [if_neg hcp, List.erase_cons_tail (by simpa using hpq)]
      have ih2 := ih (some q) wq.next hr hnd2 (fun x hx => by cases hx; exact hql) hp2
      obtain ⟨wp, hwp, _, hn, hpr, hhead⟩ := linked_mem h p l _ _ hr hnd2 hp2
      rw [hw] at hwp
      cases hwp
      have hnq : w.next ≠ some q := fun e => hql (hn q e).1
      refine ⟨hc, { wq with next := if wq.next = some p then w.next else wq.next }, ?_, hpv, hu, ih2⟩
      unfold unlinked
      rw [if_neg hpq, hwq]
      simp only [Option.map_some', if_neg hnq]
      by_cases hqp : wq.next = some p
      · rw [if_pos hqp, if_pos (hhead hqp)]
      · rw [if_neg hqp]
        have : w.prev ≠ some q := by
          intro e
          cases l with
          | nil => simp at hp2
          | cons r l2 =>
            have hr1 : wq.next = some r := hr.1
            obtain ⟨_, wr, hwr, _, _, hrr⟩ := hr
            have hrp : r ≠ p := fun e2 => hqp (by rw [hr1, e2])
            have hp3 : p ∈ l2 := by
              rcases List.mem_cons.1 hp2 with h1 | h1
              · exact absurd h1.symm hrp
              · exact h1
            obtain ⟨wp2, hwp2, _, _, hpr2, _⟩ :=
              linked_mem h p l2 _ _ hrr (List.nodup_cons.1 hnd2).2 hp3
            rw [hw] at hwp2
            cases hwp2
            rcases hpr2 q e with h1 | h1
            · cases h1
              exact hql (by simp)
            · exact hql (List.mem_cons_of_mem _ h1.1)
        rw [if_neg this]

theorem ui_window_free_member (uic : UiCurses) (l : List Nat) (p : Nat)
    (hwf : WF uic l) (hp : p ∈ l) :
    ∃ w, uic.heap p = some w ∧
      ui_window_free uic (some p) = Except.ok
        { uic with
          heap := unlinked uic.heap p w
          windows := if uic.windows = some p then w.next else uic.windows
          selwin := if uic.selwin = some p then none else uic.selwin } := by
  have hl : Linked uic.heap none uic.windows l := hwf
  have hnd := linked_nodup uic.heap l _ _ hl
  obtain ⟨w, hw, hu, hn, hpr, _⟩ := linked_mem uic.heap p l _ _ hl hnd hp
  refine ⟨w, hw, ?_⟩
  have hprev : ∀ q, w.prev = some q → q ≠ p ∧ ∃ wq, uic.heap q = some wq := by
    intro q hq
    rcases hpr q hq with h1 | h1
    · cases h1
    · obtain ⟨wq, hwq, _⟩ := linked_alloc uic.heap l _ _ hl q h1.1
      exact ⟨h1.2, wq, hwq⟩
  have hnext : ∀ r, w.next = some r → r ≠ p ∧ ∃ wr, uic.heap r = some wr := by
    intro r hr
    obtain ⟨wr, hwr, _⟩ := linked_alloc uic.heap l _ _ hl r (hn r hr).1
    exact ⟨(hn r hr).2, wr, hwr⟩
  unfold ui_window_free
  simp only [load, hw, hu]
  cases hpv : w.prev with
  | none =>
    cases hnx : w.next with
    | none =>
      simp only [Bool.true_eq_false, if_false]
      congr 2
      funext q
      unfold unlinked
      by_cases hq : q = p
      · subst hq; simp
      · simp only [Function.update_noteq hq, if_neg hq, hpv, hnx]
        cases uic.heap q <;> simp
    | some r =>
      obtain ⟨hrp, wr, hwr⟩ := hnext r hnx
      simp only [hwr, Bool.true_eq_false, if_false]
      congr 2
      funext q
      unfold unlinked
      by_cases hq : q = p
      · subst hq; simp
      · simp only [Function.update_noteq hq, if_neg hq, hpv, hnx]
        by_cases hqr : q = r
        · subst hqr
          simp [hwr]
        · rw [Function.update_noteq hqr]
          have : ¬ (some r = some q) := fun e => hqr (by cases e; rfl)
          cases uic.heap q <;> simp [this]
  | some a =>
    obtain ⟨hap, wa, hwa⟩ := hprev a hpv
    cases hnx : w.next with
    | none =>
      simp only [hwa, Bool.true_eq_false, if_false]
      congr 2
      funext q
      unfold unlinked
      by_cases hq : q = p
      · subst hq; simp
      · simp only [Function.update_noteq hq, if_neg hq, hpv, hnx]
        by_cases hqa : q = a
        · subst hqa
          simp [hwa]
        · rw [Function.update_noteq hqa]
          have : ¬ (some a = some q) := fun e => hqa (by cases e; rfl)
          cases uic.heap q <;> simp [this]
    | some r =>
      obtain ⟨hrp, wr, hwr⟩ := hnext r hnx
      simp only [hwa]
      by_cases hra : r = a
      · subst hra
        simp only [Function.update_same, Bool.true_eq_false, if_false]
        congr 2
        funext q
        unfold unlinked
        by_cases hq : q = p
        · subst hq; simp
        · simp only [Function.update_noteq hq, if_neg hq, hpv, hnx]
          by_cases hqr : q = r
          · subst hqr
            simp [hwa]
          · simp only [Function.update_noteq hqr]
            have : ¬ (some r = some q) := fun e => hqr (by cases e; rfl)
            cases uic.heap q <;> simp [this]
      · simp only [Function.update_noteq hra, hwr, Bool.true_eq_false, if_false]
        congr 2
        funext q
        unfold unlinked
        by_cases hq : q = p
        · subst hq; simp
        · simp only [Function.update_noteq hq, if_neg hq, hpv, hnx]
          by_cases hqr : q = r
          · subst hqr
            have : ¬ (some a = some q) := fun e => hra (by cases e; rfl)
            simp [hwr, this]
          · rw [Function.update_noteq hqr]
            have h2 : ¬ (some r = some q) := fun e => hqr (by cases e; rfl)
            by_cases hqa : q = a
            · subst hqa
              simp [hwa, h2]
            · rw [Function.update_noteq hqa]
              have h3 : ¬ (some a = some q) := fun e => hqa (by cases e; rfl)
              cases uic.heap q <;> simp [h2, h3]

theorem linked_head (h : Heap) (l : List Nat) (a c : Option Nat) (hl : Linked h a c l) :
    c = l.head? := by
  cases l with
  | nil => exact hl
  | cons p l => exact hl.1

theorem wf_threeWins (W H : Int) : WF (threeWins W H) [1, 2, 3] := by
  simp [WF, Linked, threeWins, linkedWin, UiCursesWin.zero, UiCurses.zero]

theorem wf_twoWins (W H : Int) : WF (twoWins W H) [1, 2] := by
  simp [WF, Linked, twoWins, linkedWin, UiCursesWin.zero, UiCurses.zero]

theorem wf_oneWin (W H : Int) : WF (oneWin W H) [1] := by
  simp [WF, Linked, oneWin, linkedWin, UiCursesWin.zero, UiCurses.zero]

/-- C5: for a well-formed window list `l` and a window `p` on it,
`ui_window_free(p)` returns, clears the focus pointer `selwin` when `p` is the
focused window, and leaves it unchanged when `p` is not. -/
theorem ui_window_free_focus (uic : UiCurses) (l : List Nat) (p : Nat)
    (hwf : WF uic l) (hp : p ∈ l) :
    ∃ uic2, ui_window_free uic (some p) = Except.ok uic2 ∧
      (uic.selwin = some p → uic2.selwin = none) ∧
      (uic.selwin ≠ some p → uic2.selwin = uic.selwin) := by
  obtain ⟨w, _, hfree⟩ := ui_window_free_member uic l p hwf hp
  refine ⟨_, hfree, ?_, ?_⟩
  · intro h
    simp [h]
  · intro h
    simp [h]

/-- Witness for C5: three windows with window 2 focused; window 2 is freed. -/
theorem ui_window_free_focus_witness :
    WF (threeWins 80 24) [1, 2, 3] ∧ 2 ∈ [1, 2, 3] ∧
    ∃ uic2, ui_window_free (threeWins 80 24) (some 2) = Except.ok uic2 ∧
      ((threeWins 80 24).selwin = some 2 → uic2.selwin = none) ∧
      ((threeWins 80 24).selwin ≠ some 2 → uic2.selwin = (threeWins 80 24).selwin) :=
  ⟨wf_threeWins 80 24, by decide,
    ui_window_free_focus (threeWins 80 24) [1, 2, 3] 2 (wf_threeWins 80 24) (by decide)⟩

/-- C6: for a well-formed window list with forward sequence `l` and a window
`p` on it (head, middle or tail), `ui_window_free(p)` returns and leaves a
well-formed list whose forward sequence is `l` with `p` removed, the other
windows in their previous order; the head pointer is the first remaining
window, the next and prev links of the remaining windows agree, and `p` is
no longer allocated. -/
theorem ui_window_free_unlinks (uic : UiCurses) (l : List Nat) (p : Nat)
    (hwf : WF uic l) (hp : p ∈ l) :
    ∃ uic2, ui_window_free uic (some p) = Except.ok uic2 ∧
      WF uic2 (l.erase p) ∧ uic2.windows = (l.erase p).head? ∧ uic2.heap p = none := by
  obtain ⟨w, hw, hfree⟩ := ui_window_free_member uic l p hwf hp
  have hl := linked_unlinked uic.heap p w hw l none uic.windows hwf
    (linked_nodup uic.heap l _ _ hwf) (fun x hx => by cases hx) hp
  refine ⟨_, hfree, hl, linked_head _ _ _ _ hl, ?_⟩
  simp [unlinked]

/-- Witness for C6: the middle one of three windows is freed. -/
theorem ui_window_free_unlinks_witness :
    WF (threeWins 80 24) [1, 2, 3] ∧ 2 ∈ [1, 2, 3] ∧
    ∃ uic2, ui_window_free (threeWins 80 24) (some 2) = Except.ok uic2 ∧
      WF uic2 ([1, 2, 3].erase 2) ∧ uic2.windows = ([1, 2, 3].erase 2).head? ∧
      uic2.heap 2 = none :=
  ⟨wf_threeWins 80 24, by decide,
    ui_window_free_unlinks (threeWins 80 24) [1, 2, 3] 2 (wf_threeWins 80 24) (by decide)⟩

/-- C7 fails on the code. `prompt_new` leaves the prompt pane's `next` link
pointing at the window that was the list head. (1) After `window_new`,
`prompt_new`, `window_free` of that window, `window_free` of the prompt pane
writes to the freed window. (2) After `window_new`, `prompt_new`, `window_new`,
where the list is window 3 then window 1 with window 1 pointing back to
window 3, `window_free` of the prompt pane resets the prev link of window 1 to
`NULL`. -/
theorem prompt_free_touches_list :
    observe afterPrompt [1, 2] = Except.ok (some 1, none, [some (none, none), some (none, some 1)]) ∧
    promptFreedAfterWindow = Except.error Fault.freed ∧
    observe afterPromptAndWindow [3, 1] =
      Except.ok (some 3, none, [some (none, some 1), some (some 3, none)]) ∧
    observe promptFreedBesideWindows [3, 1] =
      Except.ok (some 3, none, [some (none, some 1), some (none, none)]) := by
  refine ⟨rfl, rfl, rfl, rfl⟩

/-- C8 fails on the code. When the viewport or a surface cannot be allocated,
`ui_window_new` calls `ui_window_free` on the window while its `ui` pointer is
still `NULL`, and `ui_window_free` dereferences that pointer: the call faults
instead of returning `NULL`, whether the list is empty or not. -/
theorem ui_window_new_failure_faults :
    ui_window_new UiCurses.zero
        { calloc := some 1, window_new := false, newwin := true, newwin_status := true } =
      Except.error Fault.null ∧
    ui_window_new UiCurses.zero
        { calloc := some 1, window_new := true, newwin := false, newwin_status := true } =
      Except.error Fault.null ∧
    ui_window_new (threeWins 80 24)
        { calloc := some 4, window_new := true, newwin := true, newwin_status := false } =
      Except.error Fault.null := by
  refine ⟨rfl, rfl, rfl⟩

theorem ui_window_move_next (w : UiCursesWin) (x y : Int) : (ui_window_move w x y).next = w.next := rfl

theorem ui_window_resize_next (w : UiCursesWin) (a b : Int) :
    (ui_window_resize w a b).next = w.next := rfl

theorem count_windows_linked (h : Heap) (l : List Nat) :
    ∀ (fuel : Nat) (a cur : Option Nat) (n : Int), Linked h a cur l → l.length ≤ fuel →
      count_windows fuel h cur n = Except.ok (n + l.length) := by
  induction l with
  | nil =>
    intro fuel a cur n hl _
    cases hl
    cases fuel <;> simp [count_windows]
  | cons p l ih =>
    intro fuel a cur n hl hf
    obtain ⟨hc, w, hw, _, _, hr⟩ := hl
    cases fuel with
    | zero => simp at hf
    | succ fuel =>
      subst hc
      simp only [count_windows, hw]
      rw [ih fuel _ _ _ hr (by simpa using hf)]
      simp only [List.length_cons, Nat.cast_add, Nat.cast_one]
      congr 1
      ring

theorem linked_next_isSome (h : Heap) (a : Option Nat) (c : Option Nat) (l : List Nat)
    (hl : Linked h a c l) : c.isSome = decide (0 < l.length) := by
  cases l with
  | nil => cases hl; rfl
  | cons p l => rw [hl.1]; simp

theorem arrange_loop_spec (layout : UiLayout) (W mh width height : Int) (l : List Nat) :
    ∀ (fuel : Nat) (h : Heap) (a cur : Option Nat) (x y : Int) (vl : List VLine),
      Linked h a cur l → l.Nodup → l.length ≤ fuel →
      ∃ h2, arrange_loop layout W mh width height fuel h cur x y vl =
          Except.ok (h2, vl ++ seps layout mh width l.length x) ∧
        (∀ q, q ∉ l → h2 q = h q) ∧
        (∀ i p, l[i]? = some p → ∃ w, h p = some w ∧
          h2 p = some (placeWin layout W mh width height l.length x y i w)) ∧
        Linked h2 a cur l := by
  induction l with
  | nil =>
    intro fuel h a cur x y vl hl _ _
    cases hl
    refine ⟨h, ?_, fun _ _ => rfl, ?_, rfl⟩
    · cases fuel <;> simp [arrange_loop, seps]
    · intro i p hi
      simp at hi
  | cons p l ih =>
    intro fuel h a cur x y vl hl hnd hf
    have hpl : p ∉ l := (List.nodup_cons.1 hnd).1
    have hnd2 : l.Nodup := (List.nodup_cons.1 hnd).2
    obtain ⟨hc, w, hw, hpv, hu, hr⟩ := hl
    subst hc
    cases fuel with
    | zero => simp at hf
    | succ fuel =>
      have hf2 : l.length ≤ fuel := by simpa using hf
      have hsome := linked_next_isSome h _ _ _ hr
      cases layout with
      | UI_LAYOUT_HORIZONTAL =>
        simp only [arrange_loop, hw, ui_window_move_next, ui_window_resize_next]
        generalize hw2 : ui_window_move (ui_window_resize w W
          (if w.next.isSome = true then height else mh - y)) x y = w2
        have hr2 : Linked (Function.update h p (some w2)) (some p) w.next l :=
          linked_frame h _ l _ _ hr (fun q hq => Function.update_noteq
            (fun e => hpl (by rw [← e]; exact hq)) _ _)
        obtain ⟨h2, hrun, hframe, hgeo, hlk⟩ := ih fuel _ _ _ x (y + height) vl hr2 hnd2 hf2
        refine ⟨h2, ?_, ?_, ?_, ?_⟩
        · rw [hrun]
          cases l with
          | nil => simp [seps]
          | cons r l2 => cases l2 <;> simp [seps]
        · intro q hq
          have hqp : q ≠ p := fun e => hq (by rw [e]; simp)
          rw [hframe q (fun hm => hq (List.mem_cons_of_mem _ hm)), Function.update_noteq hqp]
        · intro i q hi
          cases i with
          | zero =>
            simp only [List.getElem?_cons_zero, Option.some.injEq] at hi
            subst hi
            refine ⟨w, hw, ?_⟩
            rw [hframe p hpl, Function.update_same, ← hw2]
            by_cases h0 : 0 < l.length <;> simp [placeWin, hsome, h0]
          | succ i =>
            simp only [List.getElem?_cons_succ] at hi
            obtain ⟨wq, hwq, hq2⟩ := hgeo i q hi
            have hqp : q ≠ p := fun e => hpl (by rw [← e]; exact List.getElem?_mem hi)
            rw [Function.update_noteq hqp] at hwq
            refine ⟨wq, hwq, ?_⟩
            rw [hq2]
            simp only [placeWin, List.length_cons, Nat.cast_add, Nat.cast_one]
            have e1 : y + height + (i : Int) * height = y + ((i : Int) + 1) * height := by ring
            rw [e1]
            simp only [Nat.add_lt_add_iff_right]
        · refine ⟨rfl, w2, ?_, ?_, ?_, ?_⟩
          · rw [hframe p hpl, Function.update_same]
          · rw [← hw2]; exact hpv
          · rw [← hw2]; exact hu
          · rw [← hw2]; exact hlk
      | UI_LAYOUT_VERTICAL =>
        simp only [arrange_loop, hw, ui_window_move_next, ui_window_resize_next]
        generalize hw2 : ui_window_move (ui_window_resize w
          (if w.next.isSome = true then width else W - x) mh) x y = w2
        have hr2 : Linked (Function.update h p (some w2)) (some p) w.next l :=
          linked_frame h _ l _ _ hr (fun q hq => Function.update_noteq
            (fun e => hpl (by rw [← e]; exact hq)) _ _)
        have hgoal : ∀ x2 vl2, vl2 ++ seps UiLayout.UI_LAYOUT_VERTICAL mh width l.length x2 =
            vl ++ seps UiLayout.UI_LAYOUT_VERTICAL mh width (l.length + 1) x →
            (0 < l.length → x2 = x + width + 1) →
            ∃ h2, arrange_loop UiLayout.UI_LAYOUT_VERTICAL W mh width height fuel
                (Function.update h p (some w2)) w.next x2 y vl2 =
                Except.ok (h2, vl ++ seps UiLayout.UI_LAYOUT_VERTICAL mh width (l.length + 1) x) ∧
              (∀ q, q ∉ p :: l → h2 q = h q) ∧
              (∀ i q, (p :: l)[i]? = some q → ∃ wq, h q = some wq ∧
                h2 q = some (placeWin UiLayout.UI_LAYOUT_VERTICAL W mh width height
                  (l.length + 1) x y i wq)) ∧
              Linked h2 a (some p) (p :: l) := by
          intro x2 vl2 hvl hx2
          obtain ⟨h2, hrun, hframe, hgeo, hlk⟩ := ih fuel _ _ _ x2 y vl2 hr2 hnd2 hf2
          refine ⟨h2, ?_, ?_, ?_, ?_⟩
          · rw [hrun, hvl]
          · intro q hq
            have hqp : q ≠ p := fun e => hq (by rw [e]; simp)
            rw [hframe q (fun hm => hq (List.mem_cons_of_mem _ hm)), Function.update_noteq hqp]
          · intro i q hi
            cases i with
            | zero =>
              simp only [List.getElem?_cons_zero, Option.some.injEq] at hi
              subst hi
              refine ⟨w, hw, ?_⟩
              rw [hframe p hpl, Function.update_same, ← hw2]
              by_cases h0 : 0 < l.length <;> simp [placeWin, hsome, h0]
            | succ i =>
              simp only [List.getElem?_cons_succ] at hi
              obtain ⟨wq, hwq, hq2⟩ := hgeo i q hi
              have hqp : q ≠ p := fun e => hpl (by rw [← e]; exact List.getElem?_mem hi)
              have hpos : 0 < l.length := by
                cases l with
                | nil => simp at hi
                | cons _ _ => simp
              rw [Function.update_noteq hqp] at hwq
              refine ⟨wq, hwq, ?_⟩
              rw [hq2, hx2 hpos]
              simp only [placeWin, Nat.cast_add, Nat.cast_one]
              have e1 : x + width + 1 + (i : Int) * (width + 1) =
                  x + ((i : Int) + 1) * (width + 1) := by ring
              rw [e1]
              simp only [Nat.add_lt_add_iff_right]
          · refine ⟨rfl, w2, ?_, ?_, ?_, ?_⟩
            · rw [hframe p hpl, Function.update_same]
            · rw [← hw2]; exact hpv
            · rw [← hw2]; exact hu
            · rw [← hw2]; exact hlk
        simp only [List.length_cons]
        by_cases h0 : 0 < l.length
        · have hs : w.next.isSome = true := by rw [hsome]; simp [h0]
          rw [if_pos hs]
          apply hgoal
          · obtain ⟨k, hk⟩ : ∃ k, l.length = k + 1 := ⟨l.length - 1, by omega⟩
            rw [hk]
            simp [seps]
          · intro _; rfl
        · have hs : ¬ w.next.isSome = true := by rw [hsome]; simp [h0]
          rw [if_neg hs]
          apply hgoal
          · have : l.length = 0 := by omega
            rw [this]
            simp [seps]
          · intro h1; exact absurd h1 h0

theorem max_one_length (l : List Nat) (hne : l ≠ []) : max (1 : Int) (0 + (l.length : Int)) = l.length := by
  have : 1 ≤ l.length := by
    cases l with
    | nil => exact absurd rfl hne
    | cons _ _ => simp
  omega

/-- Outcome of `arrange` on a well-formed list, in closed form. -/
theorem arrange_spec (fuel : Nat) (uic : UiCurses) (layout : UiLayout) (l : List Nat)
    (hwf : WF uic l) (hf : l.length ≤ fuel) :
    ∃ h2, arrange fuel uic layout = Except.ok
          ({ uic with layout := layout, heap := h2 },
            seps layout (max_height uic)
              (Int.tdiv uic.width (max 1 (0 + (l.length : Int))) - 1) l.length 0) ∧
      (∀ q, q ∉ l → h2 q = uic.heap q) ∧
      (∀ i p, l[i]? = some p → ∃ w, uic.heap p = some w ∧
        h2 p = some (placeWin layout uic.width (max_height uic)
          (Int.tdiv uic.width (max 1 (0 + (l.length : Int))) - 1)
          (Int.tdiv (max_height uic) (max 1 (0 + (l.length : Int)))) l.length 0 0 i w)) ∧
      Linked h2 none uic.windows l := by
  have hl : Linked uic.heap none uic.windows l := hwf
  have hnd := linked_nodup uic.heap l _ _ hl
  have hcount := count_windows_linked uic.heap l fuel none uic.windows 0 hl hf
  obtain ⟨h2, hrun, hframe, hgeo, hlk⟩ := arrange_loop_spec layout uic.width (max_height uic)
    (Int.tdiv uic.width (max 1 (0 + (l.length : Int))) - 1)
    (Int.tdiv (max_height uic) (max 1 (0 + (l.length : Int)))) l fuel uic.heap none uic.windows
    0 0 [] hl hnd hf
  refine ⟨h2, ?_, hframe, hgeo, hlk⟩
  unfold arrange
  simp only [hcount]
  have hmh : max_height { uic with layout := layout } = max_height uic := rfl
  rw [hmh, hrun]
  simp

theorem tdiv_bounds (a b : Int) (ha : 0 ≤ a) (hb : 0 < b) :
    b * Int.tdiv a b ≤ a ∧ a < b * Int.tdiv a b + b := by
  have h1 := Int.tdiv_add_tmod a b
  have h2 := Int.tmod_nonneg b ha
  have h3 := Int.tmod_lt_of_pos a hb
  constructor <;> omega

theorem le_tdiv (a b k : Int) (hb : 0 < b) (hk : 0 ≤ k) (h : k * b ≤ a) : k ≤ Int.tdiv a b := by
  have ha : 0 ≤ a := le_trans (mul_nonneg hk (le_of_lt hb)) h
  obtain ⟨_, h2⟩ := tdiv_bounds a b ha hb
  by_contra hlt
  have h3 : Int.tdiv a b + 1 ≤ k := by omega
  have h4 : b * (Int.tdiv a b + 1) ≤ b * k := Int.mul_le_mul_of_nonneg_left h3 (le_of_lt hb)
  have h5 : b * (Int.tdiv a b + 1) = b * Int.tdiv a b + b := by ring
  have h6 : b * k = k * b := by ring
  omega

theorem index_lt_of_getElem? {α : Type} {l : List α} {i : Nat} {p : α} (h : l[i]? = some p) :
    i < l.length := by
  by_contra hlt
  rw [List.getElem?_eq_none (by omega)] at h
  cases h

/-- After `arrange` every window of the list is at least one cell wide and
high when the screen is large enough for the number of windows. -/
theorem arrange_min_size (fuel : Nat) (uic : UiCurses) (layout : UiLayout) (l : List Nat)
    (hwf : WF uic l) (hf : l.length ≤ fuel)
    (hH : layout = UiLayout.UI_LAYOUT_HORIZONTAL →
      1 ≤ uic.width ∧ (l.length : Int) ≤ max_height uic)
    (hV : layout = UiLayout.UI_LAYOUT_VERTICAL →
      1 ≤ max_height uic ∧ 1 ≤ uic.width ∧ (2 ≤ l.length → 2 * (l.length : Int) ≤ uic.width)) :
    ∃ uic2 vl, arrange fuel uic layout = Except.ok (uic2, vl) ∧
      uic2.width = uic.width ∧ uic2.height = uic.height ∧
      ∀ p ∈ l, ∃ w, uic2.heap p = some w ∧ 1 ≤ w.width ∧ 1 ≤ w.height := by
  obtain ⟨h2, hrun, _, hgeo, _⟩ := arrange_spec fuel uic layout l hwf hf
  refine ⟨_, _, hrun, rfl, rfl, ?_⟩
  intro p hp
  obtain ⟨i, hi⟩ := List.getElem?_of_mem hp
  have hil := index_lt_of_getElem? hi
  have hne : l ≠ [] := by
    intro e
    rw [e] at hil
    simp at hil
  obtain ⟨w, _, hw2⟩ := hgeo i p hi
  rw [max_one_length l hne] at hw2
  refine ⟨_, hw2, ?_⟩
  have hn : (0 : Int) < l.length := by exact_mod_cast (by omega : 0 < l.length)
  cases layout with
  | UI_LAYOUT_HORIZONTAL =>
    obtain ⟨hW, hM⟩ := hH rfl
    have hq : 1 ≤ Int.tdiv (max_height uic) l.length :=
      le_tdiv _ _ 1 hn (by decide) (by omega)
    obtain ⟨hb1, _⟩ := tdiv_bounds (max_height uic) l.length (by omega) hn
    refine ⟨hW, ?_⟩
    show 1 ≤ (if i + 1 < l.length then Int.tdiv (max_height uic) l.length
      else max_height uic - (0 + (i : Int) * Int.tdiv (max_height uic) l.length))
    split_ifs with hlast
    · exact hq
    · have hi1 : (i : Int) = (l.length : Int) - 1 := by
        have : i + 1 = l.length := by omega
        omega
      rw [hi1]
      have e : ((l.length : Int) - 1) * Int.tdiv (max_height uic) l.length =
          (l.length : Int) * Int.tdiv (max_height uic) l.length -
            Int.tdiv (max_height uic) l.length := by ring
      omega
  | UI_LAYOUT_VERTICAL =>
    obtain ⟨hM, hW, hW2⟩ := hV rfl
    refine ⟨?_, hM⟩
    obtain ⟨hb1, _⟩ := tdiv_bounds uic.width l.length (by omega) hn
    show 1 ≤ (if i + 1 < l.length then Int.tdiv uic.width l.length - 1
      else uic.width - (0 + (i : Int) * (Int.tdiv uic.width l.length - 1 + 1)))
    split_ifs with hlast
    · have h2n : 2 ≤ l.length := by omega
      have := le_tdiv uic.width l.length 2 hn (by decide) (by have := hW2 h2n; omega)
      omega
    · have hi1 : (i : Int) = (l.length : Int) - 1 := by
        have : i + 1 = l.length := by omega
        omega
      rw [hi1]
      have e : ((l.length : Int) - 1) * (Int.tdiv uic.width l.length - 1 + 1) =
          (l.length : Int) * Int.tdiv uic.width l.length - Int.tdiv uic.width l.length := by ring
      by_cases h2n : 2 ≤ l.length
      · have := le_tdiv uic.width l.length 2 hn (by decide) (by have := hW2 h2n; omega)
        omega
      · have h1 : (l.length : Int) = 1 := by omega
        rw [h1] at e ⊢
        omega

/-- C9 (as amended): `ui_resize_to` stores the reported width and height
unchanged and runs the layout pass on them without clamping; every window of
the list ends at least 1 by 1 when the reported size is large enough for the
`n` windows: in stacked-horizontal mode width at least 1 and available height
(the height, less one row when a prompt or info banner is shown) at least `n`;
in tiled-vertical mode available height at least 1, width at least 1, and
width at least `2 * n` when `n ≥ 2`. An active prompt must have its prompt
pane allocated outside the list. -/
theorem ui_resize_to_min_size (fuel : Nat) (uic : UiCurses) (l : List Nat) (width height : Int)
    (hwf : WF uic l) (hf : l.length ≤ fuel)
    (hprompt : uic.prompt_title ≠ "" →
      ∃ a w, uic.prompt_win = some a ∧ uic.heap a = some w ∧ a ∉ l)
    (hH : uic.layout = UiLayout.UI_LAYOUT_HORIZONTAL →
      1 ≤ width ∧
      (l.length : Int) ≤ height - (if uic.prompt_title ≠ "" ∨ uic.info ≠ "" then 1 else 0))
    (hV : uic.layout = UiLayout.UI_LAYOUT_VERTICAL →
      1 ≤ height - (if uic.prompt_title ≠ "" ∨ uic.info ≠ "" then 1 else 0) ∧
      1 ≤ width ∧ (2 ≤ l.length → 2 * (l.length : Int) ≤ width)) :
    ∃ uic2 vl, ui_resize_to fuel uic width height = Except.ok (uic2, vl) ∧
      uic2.width = width ∧ uic2.height = height ∧
      ∀ p ∈ l, ∃ w, uic2.heap p = some w ∧ 1 ≤ w.width ∧ 1 ≤ w.height := by
  obtain ⟨heap, windows, selwin, ptitle, pwin, info, w0, h0, layout⟩ := uic
  simp only at hprompt hH hV
  unfold ui_resize_to
  by_cases hpt : ptitle = ""
  · subst hpt
    rw [if_neg (by simp)]
    have hwf1 : WF (UiCurses.mk heap windows selwin "" pwin info width height layout) l := hwf
    exact arrange_min_size fuel _ layout l hwf1 hf (by simpa [max_height] using hH)
      (by simpa [max_height] using hV)
  · obtain ⟨a, w, hpa, hha, hal⟩ := hprompt hpt
    subst hpa
    rw [if_pos (by simpa using hpt)]
    simp only [load, hha]
    generalize ui_window_move (ui_window_resize w (width - _) 1) _ (height - 1) = pw
    have hwf1 : WF (UiCurses.mk (Function.update heap a (some pw)) windows selwin ptitle
        (some a) info width height layout) l :=
      linked_frame heap _ l _ _ hwf
        (fun q hq => Function.update_noteq (fun e => hal (by rw [← e]; exact hq)) _ _)
    exact arrange_min_size fuel _ layout l hwf1 hf (by simpa [max_height, hpt] using hH)
      (by simpa [max_height, hpt] using hV)

/-- Witness for C9: two windows side by side after a resize to 80 by 24. -/
theorem ui_resize_to_min_size_witness :
    ∃ uic2 vl, ui_resize_to 2 { twoWins 0 0 with layout := UiLayout.UI_LAYOUT_VERTICAL } 80 24 =
        Except.ok (uic2, vl) ∧
      uic2.width = 80 ∧ uic2.height = 24 ∧
      ∀ p ∈ [1, 2], ∃ w, uic2.heap p = some w ∧ 1 ≤ w.width ∧ 1 ≤ w.height :=
  ui_resize_to_min_size 2 { twoWins 0 0 with layout := UiLayout.UI_LAYOUT_VERTICAL } [1, 2] 80 24
    (wf_twoWins 0 0) (by decide) (fun h => absurd rfl h) (fun h => by cases h)
    (fun _ => by decide)

/-- C9 as stated fails: nothing clamps the reported size. A resize to 0 by 0
leaves the single window of the list 0 wide and 0 high, so not every window is
at least 1 by 1 after the layout pass; a resize to 1 by 1 with two windows side
by side leaves the first window with width -1. -/
theorem ui_resize_to_not_clamped :
    WF (oneWin 80 24) [1] ∧
    geomOf (ui_resize_to 1 (oneWin 80 24) 0 0) 1 = some (0, 0, 0, 0) ∧
    (¬ ∃ uic2 vl, ui_resize_to 1 (oneWin 80 24) 0 0 = Except.ok (uic2, vl) ∧
      ∀ p ∈ [1], ∃ w, uic2.heap p = some w ∧ 1 ≤ w.width ∧ 1 ≤ w.height) ∧
    geomOf (ui_resize_to 2 { twoWins 80 24 with layout := UiLayout.UI_LAYOUT_VERTICAL } 1 1) 1 =
      some (0, 0, -1, 1) := by
  have hg : geomOf (ui_resize_to 1 (oneWin 80 24) 0 0) 1 = some (0, 0, 0, 0) := by decide
  refine ⟨wf_oneWin 80 24, hg, ?_, by decide⟩
  rintro ⟨uic2, vl, hrun, hall⟩
  obtain ⟨w, hw, hwidth, _⟩ := hall 1 (by simp)
  rw [hrun] at hg
  simp only [geomOf, hw, Option.map_some', Option.some.injEq, Prod.mk.injEq] at hg
  omega

/-- C2 fails on the code. `color_get` evicts whatever pair `pair_content`
reports for the slot it is about to assign, also when that slot was never
assigned. On a terminal with 8 colours, 64 pairs and a zero-initialised pair
table, `color_get(0, 0)` gets slot 1; the next request, `color_get(1, 0)`,
gets slot 2, for which the terminal reports the pair `(0, 0)`, so the entry of
`(0, 0)` is cleared although only two pairs were requested; requesting
`(0, 0)` again assigns it the new slot 3. -/
theorem color_get_evicts_before_exhaustion :
    (color_run_hw ⟨8, 64⟩ zeroHw ColorState.fresh [(0, 0)]).2.2 = [1] ∧
    (color_run_hw ⟨8, 64⟩ zeroHw ColorState.fresh [(0, 0)]).2.1.lookup (color_hash 8 0 0) = 1 ∧
    (color_run_hw ⟨8, 64⟩ zeroHw ColorState.fresh [(0, 0), (1, 0)]).2.2 = [1, 2] ∧
    (color_run_hw ⟨8, 64⟩ zeroHw ColorState.fresh [(0, 0), (1, 0)]).2.1.lookup
      (color_hash 8 0 0) = 0 ∧
    (color_run_hw ⟨8, 64⟩ zeroHw ColorState.fresh [(0, 0), (1, 0), (0, 0)]).2.2 = [1, 2, 3] := by
  refine ⟨by decide, by decide, by decide, by decide, by decide⟩

/-! ## Colour pairs: keys and round-robin assignment -/

/-- The key of a pair in range, without the machine conversions. -/
theorem color_hash_valid (C : Int) (hC0 : 0 < C) (hC1 : C ≤ 32766) (p : Int × Int)
    (hp : ValidPair C p) :
    ∃ f b : Int, (f = if p.1 = -1 then C else p.1) ∧ (b = if p.2 = -1 then C + 1 else p.2) ∧
      0 ≤ f ∧ f ≤ C ∧ 0 ≤ b ∧ b ≤ C + 1 ∧
      (color_hash C p.1 p.2 : Int) = f * (C + 2) + b := by
  obtain ⟨h1, h2⟩ := hp
  refine ⟨_, _, rfl, rfl, ?_, ?_, ?_, ?_, ?_⟩
  · rcases h1 with h | h
    · rw [if_pos h]; omega
    · rw [if_neg (by omega)]; omega
  · rcases h1 with h | h
    · rw [if_pos h]
    · rw [if_neg (by omega)]; omega
  · rcases h2 with h | h
    · rw [if_pos h]; omega
    · rw [if_neg (by omega)]; omega
  · rcases h2 with h | h
    · rw [if_pos h]
    · rw [if_neg (by omega)]; omega
  · unfold color_hash toUInt
    rw [toShort_of_range (by omega : -32768 ≤ C) (by omega),
      toShort_of_range (by omega : -32768 ≤ C + 1) (by omega)]
    have hf : 0 ≤ (if p.1 = -1 then C else p.1) ∧ (if p.1 = -1 then C else p.1) ≤ C := by
      rcases h1 with h | h
      · rw [if_pos h]; omega
      · rw [if_neg (by omega)]; omega
    have hb : 0 ≤ (if p.2 = -1 then C + 1 else p.2) ∧
        (if p.2 = -1 then C + 1 else p.2) ≤ C + 1 := by
      rcases h2 with h | h
      · rw [if_pos h]; omega
      · rw [if_neg (by omega)]; omega
    generalize (if p.1 = -1 then C else p.1) = f at hf
    generalize (if p.2 = -1 then C + 1 else p.2) = b at hb
    have h0 : 0 ≤ f * (C + 2) := mul_nonneg hf.1 (by omega)
    have h3 : f * (C + 2) ≤ C * (C + 2) := Int.mul_le_mul_of_nonneg_right hf.2 (by omega)
    have h4 : C * (C + 2) ≤ 32766 * (C + 2) := Int.mul_le_mul_of_nonneg_right hC1 (by omega)
    have h5 : (0 : Int) ≤ f * (C + 2) + b := by omega
    have h6 : f * (C + 2) + b < 4294967296 := by omega
    show ((((f * (C + 2) + b) % 4294967296).toNat : Nat) : Int) = f * (C + 2) + b
    rw [Int.emod_eq_of_lt h5 h6, Int.toNat_of_nonneg h5]

/-- Keys of pairs in range lie inside the table of `(C + 2) * (C + 2)` entries. -/
theorem color_hash_lt (C : Int) (hC0 : 0 < C) (hC1 : C ≤ 32766) (p : Int × Int)
    (hp : ValidPair C p) : (color_hash C p.1 p.2 : Int) < (C + 2) * (C + 2) := by
  obtain ⟨f, b, _, _, hf0, hf1, hb0, hb1, hk⟩ := color_hash_valid C hC0 hC1 p hp
  rw [hk]
  have h3 : f * (C + 2) ≤ C * (C + 2) := Int.mul_le_mul_of_nonneg_right hf1 (by omega)
  have e : (C + 2) * (C + 2) = C * (C + 2) + 2 * (C + 2) := by ring
  omega

/-- Different pairs in range have different keys. -/
theorem color_hash_inj (C : Int) (hC0 : 0 < C) (hC1 : C ≤ 32766) (p q : Int × Int)
    (hp : ValidPair C p) (hq : ValidPair C q)
    (h : color_hash C p.1 p.2 = color_hash C q.1 q.2) : p = q := by
  obtain ⟨f1, b1, ef1, eb1, hf10, hf11, hb10, hb11, hk1⟩ := color_hash_valid C hC0 hC1 p hp
  obtain ⟨f2, b2, ef2, eb2, hf20, hf21, hb20, hb21, hk2⟩ := color_hash_valid C hC0 hC1 q hq
  have hk : f1 * (C + 2) + b1 = f2 * (C + 2) + b2 := by
    rw [← hk1, ← hk2, h]
  have hf : f1 = f2 := by
    rcases lt_trichotomy f1 f2 with hlt | heq | hgt
    · have : (f1 + 1) * (C + 2) ≤ f2 * (C + 2) :=
        Int.mul_le_mul_of_nonneg_right (by omega) (by omega)
      have e : (f1 + 1) * (C + 2) = f1 * (C + 2) + (C + 2) := by ring
      omega
    · exact heq
    · have : (f2 + 1) * (C + 2) ≤ f1 * (C + 2) :=
        Int.mul_le_mul_of_nonneg_right (by omega) (by omega)
      have e : (f2 + 1) * (C + 2) = f2 * (C + 2) + (C + 2) := by ring
      omega
  have hb : b1 = b2 := by
    rw [hf] at hk
    omega
  obtain ⟨hp1, hp2⟩ := hp
  obtain ⟨hq1, hq2⟩ := hq
  have e1 : p.1 = q.1 := by
    rw [ef1, ef2] at hf
    unfold ValidColor at hp1 hq1
    split_ifs at hf <;> omega
  have e2 : p.2 = q.2 := by
    rw [eb1, eb2] at hb
    unfold ValidColor at hp2 hq2
    split_ifs at hb <;> omega
  exact Prod.ext e1 e2

theorem color_subst_valid (T : Term) (s : ColorState) (p : Int × Int) (hC0 : 0 < T.COLORS)
    (hs : s.has_default_colors = true) (hp : ValidPair T.COLORS p) :
    color_subst T s p.1 p.2 = p := by
  obtain ⟨h1, h2⟩ := hp
  unfold color_subst
  have e1 : ¬ p.1 ≥ T.COLORS := by
    rcases h1 with h | h <;> omega
  have e2 : ¬ p.2 ≥ T.COLORS := by
    rcases h2 with h | h <;> omega
  simp [e1, e2, hs]

/-- The statics after the initialisation block on a terminal with colours,
default colours and a successful `calloc`, for a cache that is fresh or was set
up on such a terminal. -/
theorem setup_accepting (T : Term) (hwa : Hw) (s : ColorState) (c : Int)
    (hC0 : 0 < T.COLORS) (hS2 : 2 ≤ min T.COLOR_PAIRS MAX_COLOR_PAIRS)
    (hcur : s.color_pair_current = c)
    (hst : ∀ t, s.color2palette = some t →
      s.has_default_colors = true ∧ s.color_pairs_max = min T.COLOR_PAIRS MAX_COLOR_PAIRS) :
    ∃ t dfg dbg, color_setup T (Answers.mk hwa true true (fun _ _ _ => true)) s =
        ColorState.mk true (some t) dfg dbg (min T.COLOR_PAIRS MAX_COLOR_PAIRS) c ∧
      ∀ k, t k = s.lookup k := by
  have hle : min T.COLOR_PAIRS MAX_COLOR_PAIRS ≤ 256 := min_le_right _ _
  unfold color_setup
  cases hc : s.color2palette with
  | some t =>
    obtain ⟨hd, hm⟩ := hst t hc
    refine ⟨t, s.default_fg, s.default_bg, ?_, fun k => by simp [ColorState.lookup, hc]⟩
    simp only
    cases s
    simp only at hc hd hm hcur
    subst hc hd hm hcur
    rfl
  | none =>
    refine ⟨fun _ => 0, (if (hwa 0).1 = -1 then COLOR_WHITE else (hwa 0).1),
      (if (hwa 0).2 = -1 then COLOR_BLACK else (hwa 0).2), ?_,
      fun k => by simp [ColorState.lookup, hc]⟩
    simp only [ne_eq, and_true]
    rw [if_pos (by omega), toShort_of_range (by omega) (by omega), hcur]

/-- One `color_get` call on an accepting terminal, with cursor `c`, for a pair
in range that is not default on default: a hit returns the stored slot and changes nothing the
table or the terminal hold; a miss advances the cursor (wrapping to 1 at `S`),
clears the entry of the pair the terminal reports for the new slot, and gives
the new slot to the requested pair. -/
theorem color_get_hw_step (T : Term) (hw : Hw) (s : ColorState) (c : Int) (p : Int × Int)
    (hC0 : 0 < T.COLORS) (hS2 : 2 ≤ min T.COLOR_PAIRS MAX_COLOR_PAIRS)
    (hc0 : 0 ≤ c) (hlen : c < min T.COLOR_PAIRS MAX_COLOR_PAIRS)
    (hcur : s.color_pair_current = c)
    (hst : ∀ t, s.color2palette = some t →
      s.has_default_colors = true ∧ s.color_pairs_max = min T.COLOR_PAIRS MAX_COLOR_PAIRS)
    (hp : ValidPair T.COLORS p) (hnd : ¬ (p.1 = -1 ∧ p.2 = -1)) :
    ∃ s1, (∀ t, s1.color2palette = some t →
        s1.has_default_colors = true ∧ s1.color_pairs_max = min T.COLOR_PAIRS MAX_COLOR_PAIRS) ∧
      (s.lookup (color_hash T.COLORS p.1 p.2) ≠ 0 →
        color_get_hw T true true (fun _ _ _ => true) hw s p.1 p.2 =
          (hw, s1, s.lookup (color_hash T.COLORS p.1 p.2)) ∧
        (∀ k, s1.lookup k = s.lookup k) ∧ s1.color_pair_current = c) ∧
      (s.lookup (color_hash T.COLORS p.1 p.2) = 0 →
        ∀ cur, cur = (if c + 1 ≥ min T.COLOR_PAIRS MAX_COLOR_PAIRS then 1
          else c + 1) →
        color_get_hw T true true (fun _ _ _ => true) hw s p.1 p.2 =
          (Function.update hw cur p, s1, cur) ∧
        (∀ k, s1.lookup k = if k = color_hash T.COLORS p.1 p.2 then cur
          else if k = color_hash T.COLORS (hw cur).1 (hw cur).2 then 0 else s.lookup k) ∧
        s1.color_pair_current = cur) := by
  obtain ⟨t, dfg, dbg, hsetup, ht⟩ := setup_accepting T hw s c hC0 hS2 hcur hst
  have hle : min T.COLOR_PAIRS MAX_COLOR_PAIRS ≤ 256 := min_le_right _ _
  generalize hSdef : min T.COLOR_PAIRS MAX_COLOR_PAIRS = S at *
  have hsub := color_subst_valid T (ColorState.mk true (some t) dfg dbg S c) p hC0 rfl hp
  have hinc : toShort (c + 1) = c + 1 :=
    toShort_of_range (by omega) (by omega)
  by_cases hz : s.lookup (color_hash T.COLORS p.1 p.2) = 0
  · refine ⟨ColorState.mk true
        (some (Function.update (Function.update t
          (color_hash T.COLORS
            (hw (if c + 1 ≥ S then 1 else c + 1)).1
            (hw (if c + 1 ≥ S then 1 else c + 1)).2) 0)
          (color_hash T.COLORS p.1 p.2)
          (if c + 1 ≥ S then 1 else c + 1)))
        dfg dbg S (if c + 1 ≥ S then 1 else c + 1),
      fun _ _ => ⟨rfl, rfl⟩, fun h => absurd hz h, ?_⟩
    intro _ cur hcur
    subst hcur
    refine ⟨?_, ?_, rfl⟩
    · unfold color_get_hw color_get
      rw [hsetup]
      simp only [hsub, hnd, if_false, ht, hz, if_true, hinc, hSdef]
      simp only [hsub, Function.update_same, Prod.mk.eta]
    · intro k
      simp only [ColorState.lookup]
      by_cases hk1 : k = color_hash T.COLORS p.1 p.2
      · rw [if_pos hk1, hk1, Function.update_same]
      · rw [if_neg hk1, Function.update_noteq hk1]
        by_cases hk2 : k = color_hash T.COLORS
            (hw (if c + 1 ≥ S then 1 else c + 1)).1
            (hw (if c + 1 ≥ S then 1 else c + 1)).2
        · rw [if_pos hk2, hk2, Function.update_same]
        · rw [if_neg hk2, Function.update_noteq hk2, ht]
          rfl
  · refine ⟨ColorState.mk true (some t) dfg dbg S c, fun _ _ => ⟨rfl, rfl⟩,
      fun _ => ⟨?_, ?_, rfl⟩, fun h => absurd h hz⟩
    · unfold color_get_hw color_get
      rw [hsetup]
      simp only [hsub, hnd, if_false, ht, hz]
    · intro k
      simp only [ColorState.lookup, ht]

theorem getElem?_snoc_cases {α : Type} (ds : List α) (p q : α) (i : Nat)
    (h : (ds ++ [p])[i]? = some q) :
    (i < ds.length ∧ ds[i]? = some q) ∨ (i = ds.length ∧ q = p) := by
  by_cases hi : i < ds.length
  · left
    rw [List.getElem?_append_left hi] at h
    exact ⟨hi, h⟩
  · right
    rw [List.getElem?_append_right (by omega)] at h
    have h2 : i - ds.length = 0 := by
      by_contra hne
      rw [List.getElem?_eq_none (by simp; omega)] at h
      cases h
    rw [h2] at h
    simp only [List.getElem?_cons_zero, Option.some.injEq] at h
    exact ⟨by omega, h.symm⟩

/-- One request from a `RoundRobin` state while a slot is still free: a pair
seen before keeps its slot and the state; a new pair takes the next slot. -/
theorem roundRobin_step (T : Term) (hw0 hw : Hw) (s : ColorState) (ds : List (Int × Int))
    (p : Int × Int) (hC0 : 0 < T.COLORS) (hC1 : T.COLORS ≤ 32766)
    (hS2 : 2 ≤ min T.COLOR_PAIRS MAX_COLOR_PAIRS)
    (hrr : RoundRobin T (min T.COLOR_PAIRS MAX_COLOR_PAIRS) hw0 hw s ds)
    (hds : ∀ q ∈ ds, ValidPair T.COLORS q)
    (hp : ValidPair T.COLORS p) (hnd : ¬ (p.1 = -1 ∧ p.2 = -1))
    (hclean : ∀ j, 1 ≤ j → j < min T.COLOR_PAIRS MAX_COLOR_PAIRS → ∀ q, q ∈ ds ∨ q = p →
      color_hash T.COLORS (hw0 j).1 (hw0 j).2 ≠ color_hash T.COLORS q.1 q.2)
    (hlen : (ds.length : Int) < min T.COLOR_PAIRS MAX_COLOR_PAIRS)
    (hroom : p ∉ ds → (ds.length : Int) + 1 < min T.COLOR_PAIRS MAX_COLOR_PAIRS) :
    RoundRobin T (min T.COLOR_PAIRS MAX_COLOR_PAIRS) hw0
      (color_get_hw T true true (fun _ _ _ => true) hw s p.1 p.2).1
      (color_get_hw T true true (fun _ _ _ => true) hw s p.1 p.2).2.1
      (if p ∈ ds then ds else ds ++ [p]) := by
  obtain ⟨hcur, hown, hfree, hhw, hrest, hst⟩ := hrr
  obtain ⟨s1, hs1, hhit, hmiss⟩ :=
    color_get_hw_step T hw s ds.length p hC0 hS2 (by omega) hlen hcur hst hp hnd
  by_cases hmem : p ∈ ds
  · rw [if_pos hmem]
    obtain ⟨i, hi⟩ := List.getElem?_of_mem hmem
    have hne : s.lookup (color_hash T.COLORS p.1 p.2) ≠ 0 := by
      rw [hown i p hi]
      omega
    obtain ⟨hrun, hlook, hc1⟩ := hhit hne
    rw [hrun]
    refine ⟨hc1, ?_, ?_, hhw, hrest, hs1⟩
    · intro j q hj
      rw [hlook]
      exact hown j q hj
    · intro k hk
      rw [hlook]
      exact hfree k hk
  · rw [if_neg hmem]
    have hkey : ∀ q ∈ ds, color_hash T.COLORS q.1 q.2 ≠ color_hash T.COLORS p.1 p.2 := by
      intro q hq e
      have := color_hash_inj T.COLORS hC0 hC1 q p (hds q hq) hp e
      exact hmem (this ▸ hq)
    have hz : s.lookup (color_hash T.COLORS p.1 p.2) = 0 := hfree _ hkey
    have hroom2 := hroom hmem
    obtain ⟨hrun, hlook, hc1⟩ := hmiss hz ((ds.length : Int) + 1)
      (by rw [if_neg (by omega)])
    have hold : hw ((ds.length : Int) + 1) = hw0 ((ds.length : Int) + 1) :=
      hrest _ (by omega)
    rw [hrun]
    refine ⟨?_, ?_, ?_, ?_, ?_, hs1⟩
    · rw [hc1]
      simp
    · intro i q hi
      rw [hlook]
      rcases getElem?_snoc_cases ds p q i hi with ⟨_, h1⟩ | ⟨h1, h2⟩
      · have hq := List.getElem?_mem h1
        rw [if_neg (hkey q hq), hold, if_neg (fun e => hclean _ (by omega) hroom2 q (Or.inl hq) e.symm)]
        exact hown i q h1
      · subst h2
        rw [if_pos rfl, h1]
    · intro k hk
      rw [hlook]
      have h1 : k ≠ color_hash T.COLORS p.1 p.2 := fun e => hk p (by simp) e.symm
      rw [if_neg h1]
      split_ifs
      · rfl
      · exact hfree k (fun q hq => hk q (by simp [hq]))
    · intro i q hi
      show Function.update hw ((ds.length : Int) + 1) p ((i : Int) + 1) = q
      rcases getElem?_snoc_cases ds p q i hi with ⟨h0, h1⟩ | ⟨h1, h2⟩
      · rw [Function.update_noteq (by omega)]
        exact hhw i q h1
      · subst h2
        rw [h1, Function.update_same]
    · intro j hj
      show Function.update hw ((ds.length : Int) + 1) p j = hw0 j
      simp only [List.length_append, List.length_singleton, Nat.cast_add, Nat.cast_one] at hj
      rw [Function.update_noteq (by omega)]
      exact hrest j (by omega)

theorem firstsFrom_length_le (cs : List (Int × Int)) :
    ∀ ds, ds.length ≤ (firstsFrom ds cs).length := by
  induction cs with
  | nil => intro ds; exact le_refl _
  | cons p cs ih =>
    intro ds
    simp only [firstsFrom]
    refine le_trans ?_ (ih _)
    split_ifs
    · exact le_refl _
    · simp

theorem firstsFrom_mem (cs : List (Int × Int)) :
    ∀ ds q, q ∈ firstsFrom ds cs → q ∈ ds ∨ q ∈ cs := by
  induction cs with
  | nil => intro ds q hq; exact Or.inl hq
  | cons p cs ih =>
    intro ds q hq
    simp only [firstsFrom] at hq
    rcases ih _ q hq with h | h
    · split_ifs at h
      · exact Or.inl h
      · rcases List.mem_append.1 h with h1 | h1
        · exact Or.inl h1
        · simp only [List.mem_singleton] at h1
          exact Or.inr (by simp [h1])
    · exact Or.inr (List.mem_cons_of_mem _ h)

theorem firstsFrom_nodup (cs : List (Int × Int)) :
    ∀ ds, ds.Nodup → (firstsFrom ds cs).Nodup := by
  induction cs with
  | nil => intro ds h; exact h
  | cons p cs ih =>
    intro ds h
    simp only [firstsFrom]
    apply ih
    split_ifs with hm
    · exact h
    · exact List.Nodup.append h (List.nodup_singleton p) (by simpa using hm)

theorem firstsFrom_prefix (cs : List (Int × Int)) :
    ∀ ds (i : Nat) q, ds[i]? = some q → (firstsFrom ds cs)[i]? = some q := by
  induction cs with
  | nil => intro ds i q h; exact h
  | cons p cs ih =>
    intro ds i q h
    simp only [firstsFrom]
    apply ih
    split_ifs
    · exact h
    · rw [List.getElem?_append_left (index_lt_of_getElem? h)]
      exact h

/-- A request sequence on an accepting terminal whose distinct pairs all find a
free slot keeps the cache in a `RoundRobin` state. -/
theorem roundRobin_run (T : Term) (hw0 : Hw) (hC0 : 0 < T.COLORS) (hC1 : T.COLORS ≤ 32766)
    (hS2 : 2 ≤ min T.COLOR_PAIRS MAX_COLOR_PAIRS) (cs : List (Int × Int)) :
    ∀ (ds : List (Int × Int)) (hw : Hw) (s : ColorState),
      RoundRobin T (min T.COLOR_PAIRS MAX_COLOR_PAIRS) hw0 hw s ds →
      (∀ q ∈ ds, ValidPair T.COLORS q) →
      (∀ q ∈ cs, ValidPair T.COLORS q ∧ ¬ (q.1 = -1 ∧ q.2 = -1)) →
      (∀ j, 1 ≤ j → j < min T.COLOR_PAIRS MAX_COLOR_PAIRS → ∀ q, q ∈ ds ∨ q ∈ cs →
        color_hash T.COLORS (hw0 j).1 (hw0 j).2 ≠ color_hash T.COLORS q.1 q.2) →
      ((firstsFrom ds cs).length : Int) < min T.COLOR_PAIRS MAX_COLOR_PAIRS →
      RoundRobin T (min T.COLOR_PAIRS MAX_COLOR_PAIRS) hw0 (color_run_hw T hw s cs).1
        (color_run_hw T hw s cs).2.1 (firstsFrom ds cs) := by
  induction cs with
  | nil => intro ds hw s hrr _ _ _ _; exact hrr
  | cons p cs ih =>
    intro ds hw s hrr hds hcs hclean hlen
    simp only [firstsFrom] at hlen ⊢
    have hmono := firstsFrom_length_le cs (if p ∈ ds then ds else ds ++ [p])
    have hstep := roundRobin_step T hw0 hw s ds p hC0 hC1 hS2 hrr hds
      (hcs p (by simp)).1 (hcs p (by simp)).2
      (fun j hj1 hj2 q hq => hclean j hj1 hj2 q (by
        rcases hq with h | h
        · exact Or.inl h
        · exact Or.inr (by simp [h])))
      (by
        have : ds.length ≤ (if p ∈ ds then ds else ds ++ [p]).length := by
          split_ifs
          · exact le_refl _
          · simp
        omega)
      (by
        intro hm
        rw [if_neg hm] at hmono hlen
        simp only [List.length_append, List.length_singleton] at hmono
        omega)
    have hrec := ih (if p ∈ ds then ds else ds ++ [p]) _ _ hstep
      (by
        intro q hq
        split_ifs at hq
        · exact hds q hq
        · rcases List.mem_append.1 hq with h | h
          · exact hds q h
          · simp only [List.mem_singleton] at h
            rw [h]
            exact (hcs p (by simp)).1)
      (fun q hq => hcs q (List.mem_cons_of_mem _ hq))
      (by
        intro j hj1 hj2 q hq
        apply hclean j hj1 hj2 q
        rcases hq with h | h
        · split_ifs at h
          · exact Or.inl h
          · rcases List.mem_append.1 h with h1 | h1
            · exact Or.inl h1
            · simp only [List.mem_singleton] at h1
              exact Or.inr (by simp [h1])
        · exact Or.inr (List.mem_cons_of_mem _ h))
      hlen
    exact hrec

theorem roundRobin_fresh (T : Term) (S : Int) (hw0 : Hw) :
    RoundRobin T S hw0 hw0 ColorState.fresh [] := by
  refine ⟨rfl, ?_, fun _ _ => rfl, ?_, fun _ _ => rfl, ?_⟩
  · intro i p h
    simp at h
  · intro i p h
    simp at h
  · intro t h
    simp [ColorState.fresh] at h

/-- Round-robin eviction on a terminal whose untouched slots `1 .. S - 1`
report no requested pair. Let the requests `cs` (pairs in range, none default on
default, repetitions allowed) contain exactly `S - 1` distinct pairs, numbered
in the order of their first request, on a fresh cache and an accepting
terminal. Afterwards pair number `i` (from 0) owns slot `i + 1`. A further
distinct pair `q` is then given slot 1, the slot of the first pair; the first
pair loses its entry, every other pair keeps its slot; and requesting the first
pair again returns a slot in `[1, S)`. -/
theorem round_robin_eviction (T : Term) (hw0 : Hw) (cs : List (Int × Int)) (q : Int × Int)
    (hC0 : 0 < T.COLORS) (hC1 : T.COLORS ≤ 32766)
    (hS2 : 2 ≤ min T.COLOR_PAIRS MAX_COLOR_PAIRS)
    (hcs : ∀ p ∈ q :: cs, ValidPair T.COLORS p ∧ ¬ (p.1 = -1 ∧ p.2 = -1))
    (hclean : ∀ j, 1 ≤ j → j < min T.COLOR_PAIRS MAX_COLOR_PAIRS → ∀ p ∈ q :: cs,
      color_hash T.COLORS (hw0 j).1 (hw0 j).2 ≠ color_hash T.COLORS p.1 p.2)
    (hfull : ((firsts cs).length : Int) + 1 = min T.COLOR_PAIRS MAX_COLOR_PAIRS)
    (hq : q ∉ cs) :
    ∀ hw1 s1 slots, color_run_hw T hw0 ColorState.fresh cs = (hw1, s1, slots) →
      (∀ (i : Nat) p, (firsts cs)[i]? = some p →
        s1.lookup (color_hash T.COLORS p.1 p.2) = (i : Int) + 1) ∧
      ∀ hw2 s2 slot2,
        color_get_hw T true true (fun _ _ _ => true) hw1 s1 q.1 q.2 = (hw2, s2, slot2) →
        slot2 = 1 ∧
        (∀ p1, (firsts cs)[0]? = some p1 →
          s2.lookup (color_hash T.COLORS p1.1 p1.2) = 0 ∧
          1 ≤ (color_get_hw T true true (fun _ _ _ => true) hw2 s2 p1.1 p1.2).2.2 ∧
          (color_get_hw T true true (fun _ _ _ => true) hw2 s2 p1.1 p1.2).2.2 <
            min T.COLOR_PAIRS MAX_COLOR_PAIRS) ∧
        (∀ (i : Nat) p, 0 < i → (firsts cs)[i]? = some p →
          s2.lookup (color_hash T.COLORS p.1 p.2) = (i : Int) + 1) := by
  intro hw1 s1 slots hrun
  have hvalid : ∀ p ∈ firsts cs, ValidPair T.COLORS p := by
    intro p hp
    rcases firstsFrom_mem cs [] p hp with h | h
    · simp at h
    · exact (hcs p (List.mem_cons_of_mem _ h)).1
  have hnodup : (firsts cs).Nodup := firstsFrom_nodup cs [] List.nodup_nil
  have hrr := roundRobin_run T hw0 hC0 hC1 hS2 cs [] hw0 ColorState.fresh
    (roundRobin_fresh T _ hw0) (by simp) (fun p hp => hcs p (List.mem_cons_of_mem _ hp))
    (fun j hj1 hj2 p hp => hclean j hj1 hj2 p (by
      rcases hp with h | h
      · simp at h
      · exact List.mem_cons_of_mem _ h))
    (by unfold firsts at hfull; omega)
  rw [hrun] at hrr
  obtain ⟨hcur, hown, hfree, hhw, _, hst⟩ := hrr
  refine ⟨hown, ?_⟩
  intro hw2 s2 slot2 hstep
  have hqds : q ∉ firsts cs := by
    intro h
    rcases firstsFrom_mem cs [] q h with h1 | h1
    · simp at h1
    · exact hq h1
  have hkey : ∀ p ∈ firsts cs, color_hash T.COLORS p.1 p.2 ≠ color_hash T.COLORS q.1 q.2 := by
    intro p hp e
    have := color_hash_inj T.COLORS hC0 hC1 p q (hvalid p hp) (hcs q (by simp)).1 e
    exact hqds (this ▸ hp)
  obtain ⟨s2b, hst2, _, hmiss⟩ := color_get_hw_step T hw1 s1 (firsts cs).length q hC0 hS2
    (by omega) (by unfold firsts at hfull ⊢; omega) hcur hst (hcs q (by simp)).1
    (hcs q (by simp)).2
  obtain ⟨hrun2, hlook2, hcur2⟩ := hmiss (hfree _ hkey) 1 (by rw [if_pos (by omega)])
  rw [hrun2] at hstep
  simp only [Prod.mk.injEq] at hstep
  obtain ⟨_, hs2, hslot⟩ := hstep
  subst hs2
  have hfirst : ∀ p1, (firsts cs)[0]? = some p1 → hw1 1 = p1 := by
    intro p1 h
    have := hhw 0 p1 h
    simpa using this
  refine ⟨hslot.symm, ?_, ?_⟩
  · intro p1 hp1
    have hp1mem := List.getElem?_mem hp1
    have hz : s2b.lookup (color_hash T.COLORS p1.1 p1.2) = 0 := by
      rw [hlook2, if_neg (hkey p1 hp1mem), hfirst p1 hp1, if_pos rfl]
    refine ⟨hz, ?_⟩
    obtain ⟨s3, _, _, hmiss3⟩ := color_get_hw_step T hw2 s2b 1 p1 hC0 hS2 (by omega) (by omega)
      hcur2 hst2 (hvalid p1 hp1mem)
      (by
        rcases firstsFrom_mem cs [] p1 hp1mem with h | h
        · simp at h
        · exact (hcs p1 (List.mem_cons_of_mem _ h)).2)
    obtain ⟨hrun3, _, _⟩ := hmiss3 hz _ rfl
    rw [hrun3]
    constructor
    · show 1 ≤ (if (1 : Int) + 1 ≥ min T.COLOR_PAIRS MAX_COLOR_PAIRS then 1 else 1 + 1)
      split_ifs <;> omega
    · show (if (1 : Int) + 1 ≥ min T.COLOR_PAIRS MAX_COLOR_PAIRS then 1 else 1 + 1) <
        min T.COLOR_PAIRS MAX_COLOR_PAIRS
      split_ifs <;> omega
  · intro i p hi hp
    have hpmem := List.getElem?_mem hp
    obtain ⟨p1, hp1⟩ : ∃ p1, (firsts cs)[0]? = some p1 := by
      have := index_lt_of_getElem? hp
      exact ⟨_, List.getElem?_eq_getElem (by omega)⟩
    have hne : p ≠ p1 := by
      intro e
      subst e
      have h1 := (List.getElem?_eq_some_iff.1 hp)
      have h2 := (List.getElem?_eq_some_iff.1 hp1)
      obtain ⟨hi1, e1⟩ := h1
      obtain ⟨hi2, e2⟩ := h2
      have := (List.Nodup.getElem_inj_iff hnodup).1 (e1.trans e2.symm)
      omega
    have hk1 : color_hash T.COLORS p.1 p.2 ≠ color_hash T.COLORS p1.1 p1.2 := by
      intro e
      exact hne (color_hash_inj T.COLORS hC0 hC1 p p1 (hvalid p hpmem)
        (hvalid p1 (List.getElem?_mem hp1)) e)
    rw [hlook2, if_neg (hkey p hpmem), hfirst p1 hp1, if_neg hk1]
    exact hown i p hp

/-- The hypotheses of `round_robin_eviction` hold on an 8-colour terminal with
three pairs and a zero-initialised pair table for the requests red on black,
green on default, red on black, followed by yellow on black. -/
theorem round_robin_eviction_witness :
    ∀ hw1 s1 slots,
      color_run_hw ⟨8, 3⟩ zeroHw ColorState.fresh [(1, 0), (2, -1), (1, 0)] = (hw1, s1, slots) →
      (∀ (i : Nat) p, (firsts [(1, 0), (2, -1), (1, 0)])[i]? = some p →
        s1.lookup (color_hash 8 p.1 p.2) = (i : Int) + 1) ∧
      ∀ hw2 s2 slot2,
        color_get_hw ⟨8, 3⟩ true true (fun _ _ _ => true) hw1 s1 3 0 = (hw2, s2, slot2) →
        slot2 = 1 ∧
        (∀ p1, (firsts [(1, 0), (2, -1), (1, 0)])[0]? = some p1 →
          s2.lookup (color_hash 8 p1.1 p1.2) = 0 ∧
          1 ≤ (color_get_hw ⟨8, 3⟩ true true (fun _ _ _ => true) hw2 s2 p1.1 p1.2).2.2 ∧
          (color_get_hw ⟨8, 3⟩ true true (fun _ _ _ => true) hw2 s2 p1.1 p1.2).2.2 <
            min (3 : Int) MAX_COLOR_PAIRS) ∧
        (∀ (i : Nat) p, 0 < i → (firsts [(1, 0), (2, -1), (1, 0)])[i]? = some p →
          s2.lookup (color_hash 8 p.1 p.2) = (i : Int) + 1) :=
  round_robin_eviction ⟨8, 3⟩ zeroHw [(1, 0), (2, -1), (1, 0)] (3, 0) (by decide) (by decide)
    (by decide)
    (by
      intro p hp
      simp only [List.mem_cons, List.mem_singleton, List.not_mem_nil, or_false] at hp
      rcases hp with rfl | rfl | rfl | rfl <;> simp [ValidPair, ValidColor])
    (by
      intro j hj1 hj2 p hp
      have hj : j = 1 ∨ j = 2 := by
        have : min (3 : Int) MAX_COLOR_PAIRS = 3 := by decide
        change j < min (3 : Int) MAX_COLOR_PAIRS at hj2
        rw [this] at hj2
        omega
      simp only [List.mem_cons, List.mem_singleton, List.not_mem_nil, or_false] at hp
      rcases hj with rfl | rfl <;> rcases hp with rfl | rfl | rfl | rfl <;> decide)
    (by decide) (by decide)

/-! ## Windows: creation and the detached prompt pane -/

/-- A successful `ui_window_new` at an unused address puts the new window at
the head of a well-formed list and leaves every other window as it was, apart
from the prev link of the old head. -/
theorem ui_window_new_ok (uic : UiCurses) (a : Alloc) (l : List Nat) (p : Nat)
    (hwf : WF uic l) (hp : a.calloc = some p) (hfresh : uic.heap p = none)
    (h1 : a.window_new = true) (h2 : a.newwin = true) (h3 : a.newwin_status = true) :
    ∃ uic2, ui_window_new uic a = Except.ok (uic2, some p) ∧ WF uic2 (p :: l) ∧
      uic2.selwin = uic.selwin ∧ uic2.prompt_win = uic.prompt_win ∧
      (∃ w, uic2.heap p = some w ∧ w.next = uic.windows ∧ w.prev = none) ∧
      (∀ q, q ≠ p → uic.windows ≠ some q → uic2.heap q = uic.heap q) ∧
      (∀ q wq, uic.windows = some q → uic.heap q = some wq →
        uic2.heap q = some { wq with prev := some p }) := by
  have hpl : p ∉ l := by
    intro hm
    obtain ⟨w, hw, _⟩ := linked_alloc uic.heap l _ _ hwf p hm
    rw [hfresh] at hw
    cases hw
  unfold ui_window_new
  simp only [hp, h1, h2, h3, if_true, Option.isSome_some, and_self, Option.isNone_some,
    Bool.false_eq_true, or_self, if_false]
  cases l with
  | nil =>
    have hw0 : uic.windows = none := hwf
    simp only [hw0, load, Function.update_same]
    refine ⟨_, rfl, ?_, rfl, rfl, ⟨_, Function.update_same _ _ _, rfl, rfl⟩, ?_, ?_⟩
    · exact ⟨rfl, _, Function.update_same _ _ _, rfl, rfl, rfl⟩
    · intro q hq _
      simp [Function.update_noteq hq]
    · intro q wq hq
      cases hq
  | cons q l2 =>
    obtain ⟨hc, wq, hwq, hpv, hu, hr⟩ := hwf
    have hqp : q ≠ p := fun e => hpl (by rw [e]; simp)
    have hpq : p ≠ q := fun e => hqp e.symm
    simp only [hc, load, Function.update_noteq hqp, hwq, Function.update_noteq hpq,
      Function.update_same]
    refine ⟨_, rfl, ?_, rfl, rfl, ⟨_, Function.update_same _ _ _, rfl, rfl⟩, ?_, ?_⟩
    · refine ⟨rfl, _, Function.update_same _ _ _, rfl, rfl, ?_⟩
      refine ⟨rfl, { wq with prev := some p }, ?_, rfl, hu, ?_⟩
      · simp [Function.update_noteq hqp]
      · refine linked_frame uic.heap _ l2 _ _ hr (fun x hx => ?_)
        have hxp : x ≠ p := fun e => hpl (by rw [← e]; simp [hx])
        have hnd := linked_nodup uic.heap (q :: l2) none (some q) ⟨rfl, wq, hwq, hpv, hu, hr⟩
        have hxq : x ≠ q := fun e => (List.nodup_cons.1 hnd).1 (by rw [← e]; exact hx)
        simp [Function.update_noteq hxp, Function.update_noteq hxq]
    · intro x hx hxq
      have hxq2 : x ≠ q := fun e => hxq (by rw [e])
      simp [Function.update_noteq hx, Function.update_noteq hxq2]
    · intro x wx hx hwx
      cases hx
      rw [hwq] at hwx
      cases hwx
      simp [Function.update_noteq hqp]

theorem detached_not_head (uic : UiCurses) (l : List Nat) (P : Nat) (h : Detached uic l P) :
    uic.windows ≠ some P := by
  intro e
  obtain ⟨hwf, hPl, _, _⟩ := h
  have := linked_head _ _ _ _ hwf
  rw [e] at this
  cases l with
  | nil => cases this
  | cons q l2 =>
    simp only [List.head?_cons, Option.some.injEq] at this
    exact hPl (by rw [this]; simp)

/-- Freeing a detached prompt pane returns and leaves the list alone. -/
theorem detached_free (uic : UiCurses) (l : List Nat) (P : Nat) (h : Detached uic l P) :
    ∃ uic2, ui_window_free uic (some P) = Except.ok uic2 ∧ uic2.windows = uic.windows ∧
      (∀ q, q ≠ P → uic2.heap q = uic.heap q) ∧ WF uic2 l ∧ uic2.heap P = none := by
  have hhead := detached_not_head uic l P h
  obtain ⟨hwf, hPl, _, w, hw, hn, hp, hu⟩ := h
  unfold ui_window_free
  simp only [load, hw, hn, hp, hu, Bool.true_eq_false, if_false, if_neg hhead]
  refine ⟨_, rfl, rfl, ?_, ?_, ?_⟩
  · intro q hq
    exact Function.update_noteq hq _ _
  · exact linked_frame uic.heap _ l _ _ hwf
      (fun q hq => Function.update_noteq (fun e => hPl (by rw [← e]; exact hq)) _ _)
  · exact Function.update_same _ _ _

/-- Creating a window keeps the prompt pane detached. -/
theorem detached_new (uic : UiCurses) (l : List Nat) (P : Nat) (a : Alloc) (p : Nat)
    (h : Detached uic l P) (hp : a.calloc = some p) (hfresh : uic.heap p = none)
    (h1 : a.window_new = true) (h2 : a.newwin = true) (h3 : a.newwin_status = true) :
    ∃ uic2, ui_window_new uic a = Except.ok (uic2, some p) ∧ Detached uic2 (p :: l) P := by
  have hhead := detached_not_head uic l P h
  obtain ⟨hwf, hPl, hpw, w, hw, hn, hpv, hu⟩ := h
  obtain ⟨uic2, hrun, hwf2, _, hpw2, _, hother, _⟩ :=
    ui_window_new_ok uic a l p hwf hp hfresh h1 h2 h3
  have hPp : P ≠ p := by
    intro e
    rw [e, hfresh] at hw
    cases hw
  refine ⟨uic2, hrun, hwf2, ?_, by rw [hpw2, hpw], w, ?_, hn, hpv, hu⟩
  · intro hm
    rcases List.mem_cons.1 hm with h4 | h4
    · exact hPp h4
    · exact hPl h4
  · rw [hother P hPp hhead, hw]

/-- Freeing a window of the list keeps the prompt pane detached. -/
theorem detached_free_member (uic : UiCurses) (l : List Nat) (P q : Nat)
    (h : Detached uic l P) (hq : q ∈ l) :
    ∃ uic2, ui_window_free uic (some q) = Except.ok uic2 ∧ Detached uic2 (l.erase q) P := by
  obtain ⟨hwf, hPl, hpw, w, hw, hn, hpv, hu⟩ := h
  obtain ⟨wq, hwq, hfree⟩ := ui_window_free_member uic l q hwf hq
  have hnd := linked_nodup uic.heap l _ _ hwf
  have hl := linked_unlinked uic.heap q wq hwq l none uic.windows hwf hnd
    (fun x hx => by cases hx) hq
  obtain ⟨wq2, hwq2, _, hnx, hpr, _⟩ := linked_mem uic.heap q l _ _ hwf hnd hq
  rw [hwq] at hwq2
  cases hwq2
  have hPq : P ≠ q := fun e => hPl (by rw [e]; exact hq)
  refine ⟨_, hfree, hl, fun hm => hPl (List.mem_of_mem_erase hm), hpw, w, ?_, hn, hpv, hu⟩
  show unlinked uic.heap q wq P = some w
  rw [unlinked_other uic.heap q wq P hPq, hw]
  · intro e
    rcases hpr P e with h1 | h1
    · cases h1
    · exact hPl h1.1
  · intro e
    exact hPl (hnx P e).1

/-- Legal calls keep the prompt pane detached and never fault. -/
theorem detached_run (P : Nat) (ops : List WinOp) :
    ∀ (uic : UiCurses) (l : List Nat), Detached uic l P → OpsLegal uic ops →
      ∃ uic2 l2, runOps uic ops = Except.ok uic2 ∧ Detached uic2 l2 P := by
  induction ops with
  | nil => intro uic l h _; exact ⟨uic, l, rfl, h⟩
  | cons op rest ih =>
    intro uic l h hlegal
    cases op with
    | window_new a =>
      obtain ⟨⟨p, hp, hfresh⟩, h1, h2, h3, hnext⟩ := hlegal
      obtain ⟨uic1, hrun, hd⟩ := detached_new uic l P a p h hp hfresh h1 h2 h3
      rw [hrun] at hnext
      obtain ⟨uic2, l2, hrun2, hd2⟩ := ih uic1 _ hd hnext
      refine ⟨uic2, l2, ?_, hd2⟩
      simp only [runOps, hrun]
      exact hrun2
    | window_free q =>
      obtain ⟨⟨l1, hwf1, hq⟩, hnext⟩ := hlegal
      have hl : l1 = l := linked_det uic.heap l1 _ _ _ l hwf1 h.1
      subst hl
      obtain ⟨uic1, hrun, hd⟩ := detached_free_member uic l1 P q h hq
      rw [hrun] at hnext
      obtain ⟨uic2, l2, hrun2, hd2⟩ := ih uic1 _ hd hnext
      refine ⟨uic2, l2, ?_, hd2⟩
      simp only [runOps, hrun]
      exact hrun2

/-- A prompt pane created while the window list is empty is detached. -/
theorem prompt_new_detached (uic : UiCurses) (a : Alloc) (P : Nat)
    (hwf : WF uic []) (hno : uic.prompt_win = none)
    (hP : a.calloc = some P) (hfresh : uic.heap P = none)
    (h1 : a.window_new = true) (h2 : a.newwin = true) (h3 : a.newwin_status = true) :
    ∃ uic1, prompt_new uic a = Except.ok (uic1, some P) ∧ Detached uic1 [] P := by
  obtain ⟨uic2, hrun, hwf2, _, hpw2, ⟨w, hw, hwn, hwp⟩, _, _⟩ :=
    ui_window_new_ok uic a [] P hwf hP hfresh h1 h2 h3
  have hw0 : uic.windows = none := hwf
  rw [hw0] at hwn
  obtain ⟨_, w2, hw2, _, hu, _⟩ := hwf2
  rw [hw] at hw2
  cases hw2
  unfold prompt_new
  simp only [hno, hrun, load, hw, hwn]
  refine ⟨_, rfl, rfl, by simp, rfl, _, Function.update_same _ _ _, rfl, hwp, hu⟩

/-- When `prompt_new` creates the prompt pane while the window list is empty,
as the editor does at start-up, `ui_window_free` of the prompt pane is safe
after every sequence of legal `window_new` and `window_free` calls: it
returns, frees only the prompt pane and leaves the list head, the list order
and the links of every window as they were. -/
theorem prompt_free_safe_after_empty_start (uic : UiCurses) (a : Alloc) (P : Nat)
    (ops : List WinOp)
    (hwf : WF uic []) (hno : uic.prompt_win = none)
    (hP : a.calloc = some P) (hfresh : uic.heap P = none)
    (h1 : a.window_new = true) (h2 : a.newwin = true) (h3 : a.newwin_status = true) :
    ∃ uic1, prompt_new uic a = Except.ok (uic1, some P) ∧
      (OpsLegal uic1 ops →
        ∃ uic2 l, runOps uic1 ops = Except.ok uic2 ∧ WF uic2 l ∧
          ∃ uic3, ui_window_free uic2 uic2.prompt_win = Except.ok uic3 ∧
            uic3.windows = uic2.windows ∧ (∀ q, q ≠ P → uic3.heap q = uic2.heap q) ∧
            WF uic3 l) := by
  obtain ⟨uic1, hrun, hd⟩ := prompt_new_detached uic a P hwf hno hP hfresh h1 h2 h3
  refine ⟨uic1, hrun, ?_⟩
  intro hlegal
  obtain ⟨uic2, l, hrun2, hd2⟩ := detached_run P ops uic1 [] hd hlegal
  obtain ⟨uic3, hfree, hwin, hheap, hwf3, _⟩ := detached_free uic2 l P hd2
  refine ⟨uic2, l, hrun2, hd2.1, uic3, ?_, hwin, hheap, hwf3⟩
  rw [hd2.2.2.1]
  exact hfree

theorem promptOnly_legal :
    OpsLegal promptOnly
      [WinOp.window_new (okAlloc 1), WinOp.window_new (okAlloc 3), WinOp.window_free 1] := by
  refine ⟨⟨1, rfl, rfl⟩, rfl, rfl, rfl, ?_⟩
  refine ⟨⟨3, rfl, rfl⟩, rfl, rfl, rfl, ?_⟩
  refine ⟨⟨[3, 1], ?_, by decide⟩, trivial⟩
  exact ⟨rfl, _, rfl, rfl, rfl, rfl, _, rfl, rfl, rfl, rfl⟩

/-- The hypotheses of `prompt_free_safe_after_empty_start` hold for the empty
user interface and the calls `window_new`, `window_new`, `window_free` of the
first window. -/
theorem prompt_free_safe_after_empty_start_witness :
    ∃ uic2 l, runOps promptOnly
        [WinOp.window_new (okAlloc 1), WinOp.window_new (okAlloc 3), WinOp.window_free 1] =
        Except.ok uic2 ∧ WF uic2 l ∧
      ∃ uic3, ui_window_free uic2 uic2.prompt_win = Except.ok uic3 ∧
        uic3.windows = uic2.windows ∧ (∀ q, q ≠ 2 → uic3.heap q = uic2.heap q) ∧
        WF uic3 l := by
  obtain ⟨uic1, hrun, himp⟩ := prompt_free_safe_after_empty_start UiCurses.zero (okAlloc 2) 2
    [WinOp.window_new (okAlloc 1), WinOp.window_new (okAlloc 3), WinOp.window_free 1]
    rfl rfl rfl rfl rfl rfl rfl
  have h1 : prompt_new UiCurses.zero (okAlloc 2) = Except.ok (promptOnly, some 2) := rfl
  rw [h1] at hrun
  cases hrun
  exact himp promptOnly_legal

/-! ## Colour pairs: the default pair and cache hits -/

/-- On a terminal that supports default colours the pair `(-1, -1)` passes the
substitution of lines 105-115 unchanged. -/
theorem color_subst_default (T : Term) (s : ColorState) (hd : s.has_default_colors = true)
    (hC : 0 ≤ T.COLORS) : color_subst T s (-1) (-1) = (-1, -1) := by
  unfold color_subst
  have h : ¬ ((-1 : Int) ≥ T.COLORS) := by omega
  simp [h, hd]

/-- The one-time initialisation does nothing once the table exists. -/
theorem color_setup_of_table (T : Term) (a : Answers) (s : ColorState) (tbl : Nat → Int)
    (ht : s.color2palette = some tbl) : color_setup T a s = s := by
  unfold color_setup
  rw [ht]

/-- A cache hit: when the table holds a nonzero entry under the key of the
requested pair, `color_get` returns that entry and changes nothing. -/
theorem color_get_hit (T : Term) (a : Answers) (s : ColorState) (fg bg : Int) (tbl : Nat → Int)
    (ht : s.color2palette = some tbl)
    (hnd : ¬ ((color_subst T s fg bg).1 = -1 ∧ (color_subst T s fg bg).2 = -1))
    (hk : tbl (color_hash T.COLORS (color_subst T s fg bg).1 (color_subst T s fg bg).2) ≠ 0) :
    color_get T a s fg bg =
      { state := s
        slot := tbl (color_hash T.COLORS (color_subst T s fg bg).1 (color_subst T s fg bg).2)
        assigned := none } := by
  simp only [color_get]
  rw [color_setup_of_table T a s tbl ht]
  simp only [ht, hnd, hk, if_false]

/-- Resolving the same pair twice in a row: when a call returned a nonzero
slot, the same request made next returns that slot and changes nothing,
whatever the library answers. -/
theorem color_get_twice (T : Term) (a a2 : Answers) (s : ColorState) (fg bg : Int)
    (hs : (color_get T a s fg bg).slot ≠ 0) :
    color_get T a2 (color_get T a s fg bg).state fg bg =
      { state := (color_get T a s fg bg).state
        slot := (color_get T a s fg bg).slot
        assigned := none } := by
  simp only [color_get] at hs ⊢
  generalize color_setup T a s = s1 at *
  cases hc : s1.color2palette with
  | none => simp [hc] at hs
  | some tbl =>
    simp only [hc] at hs ⊢
    by_cases hnd : (color_subst T s1 fg bg).1 = -1 ∧ (color_subst T s1 fg bg).2 = -1
    · simp [hnd] at hs
    · simp only [hnd, if_false] at hs ⊢
      by_cases hz : tbl (color_hash T.COLORS (color_subst T s1 fg bg).1 (color_subst T s1 fg bg).2) = 0
      · simp only [hz, if_true] at hs ⊢
        by_cases hacc : a.init_pair
            (if toShort (s1.color_pair_current + 1) ≥ s1.color_pairs_max then 1
              else toShort (s1.color_pair_current + 1))
            (color_subst T s1 fg bg).1 (color_subst T s1 fg bg).2 = true
        · simp only [hacc, if_true] at hs ⊢
          simp only [Function.update_same] at hs
          simp only [color_setup, color_subst, Function.update_same]
          simp only [color_subst] at hnd
          simp [hnd, hs]
        · simp only [hacc] at hs
          simp [hz] at hs
      · simp only [hz, if_false] at hs ⊢
        rw [color_setup_of_table T a2 s1 tbl hc]
        simp only [hc, hnd, hz, if_false]

/-- C11: `color_get` returns slot 0 whenever both components resolve to the
default after substitution, in particular for `color_get(-1, -1)` on a
terminal that supports default colours; no assignment is made, every entry of
the pair-to-slot table reads as before and the round-robin cursor keeps its
value, for every state of the cache. -/
theorem color_get_default_pair (T : Term) (a : Answers) (s : ColorState) (fg bg : Int)
    (hres : color_subst T (color_setup T a s) fg bg = (-1, -1) ∨
      (fg = -1 ∧ bg = -1 ∧ (color_setup T a s).has_default_colors = true ∧ 0 ≤ T.COLORS)) :
    (color_get T a s fg bg).slot = 0 ∧
      (color_get T a s fg bg).assigned = none ∧
      (∀ k, (color_get T a s fg bg).state.lookup k = s.lookup k) ∧
      (color_get T a s fg bg).state.color_pair_current = s.color_pair_current := by
  have hres2 : color_subst T (color_setup T a s) fg bg = (-1, -1) := by
    rcases hres with h | ⟨rfl, rfl, hd, hC⟩
    · exact h
    · exact color_subst_default T _ hd hC
  have hl := lookup_setup T a s
  have hcur : (color_setup T a s).color_pair_current = s.color_pair_current := by
    unfold color_setup
    cases s.color2palette <;> rfl
  simp only [color_get]
  generalize color_setup T a s = s1 at *
  cases hc : s1.color2palette with
  | none => exact ⟨rfl, rfl, hl, hcur⟩
  | some tbl =>
    simp only [hres2, and_self, if_true]
    exact ⟨trivial, trivial, hl, hcur⟩

/-- Witness for C11: after `(1, 2)` was given slot 1 on a terminal with
default colours, `color_get(-1, -1)` returns 0 and leaves table and cursor. -/
theorem color_get_default_pair_witness :
    (color_get ⟨8, 64⟩ acceptAll (color_get ⟨8, 64⟩ acceptAll ColorState.fresh 1 2).state
        (-1) (-1)).slot = 0 ∧
      (color_get ⟨8, 64⟩ acceptAll (color_get ⟨8, 64⟩ acceptAll ColorState.fresh 1 2).state
        (-1) (-1)).assigned = none ∧
      (∀ k, (color_get ⟨8, 64⟩ acceptAll (color_get ⟨8, 64⟩ acceptAll ColorState.fresh 1 2).state
        (-1) (-1)).state.lookup k =
          (color_get ⟨8, 64⟩ acceptAll ColorState.fresh 1 2).state.lookup k) ∧
      (color_get ⟨8, 64⟩ acceptAll (color_get ⟨8, 64⟩ acceptAll ColorState.fresh 1 2).state
        (-1) (-1)).state.color_pair_current = 1 :=
  color_get_default_pair ⟨8, 64⟩ acceptAll (color_get ⟨8, 64⟩ acceptAll ColorState.fresh 1 2).state
    (-1) (-1) (Or.inr ⟨rfl, rfl, by decide, by decide⟩)

/-- C12 fails on the code, by the defect that makes C2 fail: a miss clears the
table entry of the pair that `pair_content` reports for the slot being
assigned, also when that slot was never assigned. On a terminal with 8
colours, 64 pairs and a zero-initialised pair table, `color_get(0, 0)` returns
slot 1; `color_get(1, 0)` is a miss that assigns slot 2 and leaves slot 1 of
the terminal holding `(0, 0)`, with the cursor at 2; yet the next
`color_get(0, 0)` does not return 1: it is a miss again, returns slot 3, moves
the cursor to 3 and rewrites the table entry. -/
theorem color_get_hit_lost_without_reassignment :
    (color_run_hw ⟨8, 64⟩ zeroHw ColorState.fresh [(0, 0)]).2.2 = [1] ∧
    (color_run_hw ⟨8, 64⟩ zeroHw ColorState.fresh [(0, 0), (1, 0)]).2.2 = [1, 2] ∧
    (color_run_hw ⟨8, 64⟩ zeroHw ColorState.fresh [(0, 0), (1, 0)]).1 1 = (0, 0) ∧
    (color_run_hw ⟨8, 64⟩ zeroHw ColorState.fresh [(0, 0), (1, 0)]).1 2 = (1, 0) ∧
    (color_run_hw ⟨8, 64⟩ zeroHw ColorState.fresh [(0, 0), (1, 0)]).2.1.color_pair_current = 2 ∧
    (color_get_hw ⟨8, 64⟩ true true (fun _ _ _ => true)
      (color_run_hw ⟨8, 64⟩ zeroHw ColorState.fresh [(0, 0), (1, 0)]).1
      (color_run_hw ⟨8, 64⟩ zeroHw ColorState.fresh [(0, 0), (1, 0)]).2.1 0 0).2.2 = 3 ∧
    (color_get_hw ⟨8, 64⟩ true true (fun _ _ _ => true)
      (color_run_hw ⟨8, 64⟩ zeroHw ColorState.fresh [(0, 0), (1, 0)]).1
      (color_run_hw ⟨8, 64⟩ zeroHw ColorState.fresh [(0, 0), (1, 0)]).2.1 0 0).2.1.color_pair_current
        = 3 ∧
    (color_get_hw ⟨8, 64⟩ true true (fun _ _ _ => true)
      (color_run_hw ⟨8, 64⟩ zeroHw ColorState.fresh [(0, 0), (1, 0)]).1
      (color_run_hw ⟨8, 64⟩ zeroHw ColorState.fresh [(0, 0), (1, 0)]).2.1 0 0).2.1.lookup
        (color_hash 8 0 0) = 3 := by
  refine ⟨by decide, by decide, by decide, by decide, by decide, by decide, by decide, by decide⟩

/-! ## Colour pairs: range of the table indices -/

/-- The substitution of lines 105-115 yields a pair in range when the
arguments are -1 or non-negative and the recorded defaults are palette
indices. -/
theorem color_subst_in_range (T : Term) (s : ColorState) (fg bg : Int)
    (hfg : fg = -1 ∨ 0 ≤ fg) (hbg : bg = -1 ∨ 0 ≤ bg)
    (hdf : 0 ≤ s.default_fg ∧ s.default_fg < T.COLORS)
    (hdb : 0 ≤ s.default_bg ∧ s.default_bg < T.COLORS) :
    ValidPair T.COLORS (color_subst T s fg bg) := by
  unfold color_subst ValidPair ValidColor
  obtain ⟨f0, f1⟩ := hdf
  obtain ⟨b0, b1⟩ := hdb
  constructor
  · split_ifs <;> simp only <;> omega
  · split_ifs <;> simp only <;> omega

/-- C20 (as amended): for a palette of `0 < C ≤ 32766` colours, arguments that
are -1 or non-negative, recorded defaults that are palette indices, and a
library that reports a pair in range for the slot being reassigned, every
index at which `color_get` reads or writes the table (the key of the requested
pair and the key of the evicted pair) lies in `[0, (C+2)²)`; and `color_hash`
is injective on `[-1, C) × [-1, C)`. -/
theorem color_get_indices_in_range (T : Term) (a : Answers) (s : ColorState) (fg bg : Int)
    (hC0 : 0 < T.COLORS) (hC1 : T.COLORS ≤ 32766)
    (hfg : fg = -1 ∨ 0 ≤ fg) (hbg : bg = -1 ∨ 0 ≤ bg)
    (hdf : 0 ≤ (color_setup T a s).default_fg ∧ (color_setup T a s).default_fg < T.COLORS)
    (hdb : 0 ≤ (color_setup T a s).default_bg ∧ (color_setup T a s).default_bg < T.COLORS)
    (hold : ∀ p, ValidPair T.COLORS (a.pair_content p)) :
    (∀ i ∈ color_get_indices T a s fg bg, (i : Int) < (T.COLORS + 2) * (T.COLORS + 2)) ∧
      ∀ p q, ValidPair T.COLORS p → ValidPair T.COLORS q →
        color_hash T.COLORS p.1 p.2 = color_hash T.COLORS q.1 q.2 → p = q := by
  refine ⟨?_, fun p q hp hq h => color_hash_inj T.COLORS hC0 hC1 p q hp hq h⟩
  have hv := color_subst_in_range T (color_setup T a s) fg bg hfg hbg hdf hdb
  have hidx := color_hash_lt T.COLORS hC0 hC1 _ hv
  simp only [color_get_indices]
  generalize color_setup T a s = s1 at *
  intro i hi
  cases hc : s1.color2palette with
  | none => simp [hc] at hi
  | some tbl =>
    simp only [hc] at hi
    have hold2 := fun p => color_hash_lt T.COLORS hC0 hC1 _ (hold p)
    split_ifs at hi
    · simp at hi
    all_goals
      simp only [List.mem_cons, List.mem_singleton, List.not_mem_nil, or_false] at hi
      rcases hi with rfl | rfl | rfl | rfl <;> first | exact hidx | exact hold2 _

/-- Witness for C20: the request `color_get(9, -1)` on a terminal with 8
colours whose slots report `(0, 0)`; the argument 9 is replaced by the
recorded default 0. -/
theorem color_get_indices_in_range_witness :
    (∀ i ∈ color_get_indices ⟨8, 64⟩ acceptAll ColorState.fresh 9 (-1), (i : Int) < (8 + 2) * (8 + 2)) ∧
      ∀ p q, ValidPair 8 p → ValidPair 8 q → color_hash 8 p.1 p.2 = color_hash 8 q.1 q.2 → p = q :=
  color_get_indices_in_range ⟨8, 64⟩ acceptAll ColorState.fresh 9 (-1) (by decide) (by decide)
    (by decide) (by decide) (by decide) (by decide)
    (fun _ => ⟨Or.inr (show (0 : Int) ≤ 0 ∧ (0 : Int) < 8 from by decide),
      Or.inr (show (0 : Int) ≤ 0 ∧ (0 : Int) < 8 from by decide)⟩)

/-- C20 does not hold as stated. With `C = 32767` colours the key arithmetic
leaves the range of `short`: the different pairs `(1, -1)` and `(0, 1)` of
`[-1, C) × [-1, C)` have the same key 1. And the recorded default need not be
a palette index: on a terminal with `C = 4` colours whose pair 0 is white on
black, `color_get(5, 0)` replaces 5 by the default 7 and accesses the table at
index `7 * 6 + 0 = 42`, outside `[0, 36)`, whether the terminal accepts the
assignment or rejects it. -/
theorem color_hash_not_injective_index_out_of_range :
    color_hash 32767 1 (-1) = 1 ∧ color_hash 32767 0 1 = 1 ∧
      color_get_indices ⟨4, 64⟩ (hwAnswers zeroHw) ColorState.fresh 5 0 = [42, 0, 42, 42] ∧
      color_get_indices ⟨4, 64⟩ { hwAnswers zeroHw with init_pair := fun _ _ _ => false }
        ColorState.fresh 5 0 = [42, 42] ∧
      ¬ ((42 : Int) < (4 + 2) * (4 + 2)) := by
  refine ⟨by decide, by decide, by decide, by decide, by decide⟩

/-! ## Status bar and sidebar: properties -/

/-- The digit count by repeated division is `⌊log10 n⌋ + 1` for positive `n`. -/
theorem decimalDigits_log : ∀ (fuel n : Nat), n ≤ fuel → 0 < n →
    decimalDigits fuel n = Nat.log 10 n + 1 := by
  intro fuel
  induction fuel with
  | zero => intro n h1 h2; omega
  | succ f ih =>
    intro n h1 h2
    unfold decimalDigits
    by_cases h : n < 10
    · rw [if_pos h, Nat.log_of_lt h]
    · rw [if_neg h]
      have h3 : n / 10 ≤ f := by omega
      have h4 : 0 < n / 10 := by omega
      have e : Nat.log 10 n = Nat.log 10 (n / 10) + 1 :=
        Nat.log_of_one_lt_of_le (by norm_num) (by omega)
      rw [ih _ h3 h4, e]
      omega

/-- Length of the `%zd` text of a positive value that fits `ssize_t`. -/
theorem decimalLength_pos (m : Nat) (h1 : 1 ≤ m) (h2 : m < 9223372036854775808) :
    decimalLength (toSSize (m : Int)) = Nat.log 10 m + 1 := by
  have e : toSSize (m : Int) = (m : Int) := by
    unfold toSSize
    omega
  rw [e]
  unfold decimalLength
  have h3 : ¬ ((m : Int) < 0) := by omega
  rw [if_neg h3, Int.natAbs_ofNat, decimalDigits_log m m (le_refl _) (by omega)]
  omega

/-- Ceiling and floor of the logarithm differ by one except at powers of the
base. -/
theorem clog_eq_log_succ (m : Nat) (h1 : 1 ≤ m) (hp : ∀ k, m ≠ 10 ^ k) :
    Nat.clog 10 m = Nat.log 10 m + 1 := by
  have hb : 1 < 10 := by norm_num
  have hle : 10 ^ Nat.log 10 m ≤ m := Nat.pow_log_le_self 10 (by omega)
  have hlt : m < 10 ^ (Nat.log 10 m + 1) := Nat.lt_pow_succ_log_self hb m
  have h3 : 10 ^ Nat.log 10 m < m := lt_of_le_of_ne hle (fun e => hp _ e.symm)
  have h4 : Nat.log 10 m < Nat.clog 10 m := (Nat.pow_lt_iff_lt_clog hb).1 h3
  have h5 : Nat.clog 10 m ≤ Nat.log 10 m + 1 := (Nat.le_pow_iff_clog_le hb).1 (le_of_lt hlt)
  omega

/-- The sidebar width after `ui_window_draw_sidebar` when the window has a
sidebar and there is a line: the length of the text of
`line->lineno + win->height - 2` plus one. -/
theorem ui_window_draw_sidebar_sets (win : UiCursesWin) (side : WINDOW) (l : Line)
    (rest : List Line) (hside : win.winside = some side) :
    (ui_window_draw_sidebar win (l :: rest)).sidebar_width =
      (decimalLength (toSSize ((l.lineno : Int) + win.height - 2)) : Int) + 1 := by
  unfold ui_window_draw_sidebar
  rw [hside]
  simp only
  split_ifs with h
  · rfl
  · exact not_not.1 h

/-- C13 (as amended): when the window has a sidebar and lines to number,
`ui_window_draw_sidebar` leaves the sidebar width equal to the number of
decimal digits of `m` plus one, that is `⌊log10 m⌋ + 2`, for every maximum line
number `m = line->lineno + win->height - 2 ≥ 1` (below `2^63`). This is the
`⌈log10 m⌉ + 1` of the spec exactly when `m` is not a power of ten; at a power
of ten it is one more. -/
theorem ui_window_draw_sidebar_width (win : UiCursesWin) (side : WINDOW) (l : Line)
    (rest : List Line) (m : Nat) (hside : win.winside = some side)
    (hm : (l.lineno : Int) + win.height - 2 = (m : Int)) (h1 : 1 ≤ m)
    (h2 : m < 9223372036854775808) :
    (ui_window_draw_sidebar win (l :: rest)).sidebar_width = (Nat.log 10 m : Int) + 2 ∧
      ((∀ k, m ≠ 10 ^ k) →
        (ui_window_draw_sidebar win (l :: rest)).sidebar_width = (spec_sidebar_width m : Int)) ∧
      ((∃ k, m = 10 ^ k) →
        (ui_window_draw_sidebar win (l :: rest)).sidebar_width =
          (spec_sidebar_width m : Int) + 1) := by
  have hw := ui_window_draw_sidebar_sets win side l rest hside
  rw [hm, decimalLength_pos m h1 h2] at hw
  rw [hw]
  refine ⟨by push_cast; ring, fun hp => ?_, fun ⟨k, hk⟩ => ?_⟩
  · unfold spec_sidebar_width
    rw [clog_eq_log_succ m h1 hp]
    push_cast
    ring
  · unfold spec_sidebar_width
    rw [hk, Nat.clog_pow 10 k (by norm_num), Nat.log_pow (by norm_num) k]

/-- Witness for C13: a window of height 24 whose first line has number 977
shows the line numbers up to 999, and the sidebar gets width 4. -/
theorem ui_window_draw_sidebar_width_witness :
    (ui_window_draw_sidebar (sidebarWin 24) [⟨0, 977, 0⟩]).sidebar_width = 4 ∧
    ((ui_window_draw_sidebar (sidebarWin 24) [⟨0, 977, 0⟩]).sidebar_width =
        (Nat.log 10 999 : Int) + 2 ∧
      ((∀ k, 999 ≠ 10 ^ k) →
        (ui_window_draw_sidebar (sidebarWin 24) [⟨0, 977, 0⟩]).sidebar_width =
          (spec_sidebar_width 999 : Int)) ∧
      ((∃ k, 999 = 10 ^ k) →
        (ui_window_draw_sidebar (sidebarWin 24) [⟨0, 977, 0⟩]).sidebar_width =
          (spec_sidebar_width 999 : Int) + 1)) :=
  ⟨by decide,
    ui_window_draw_sidebar_width (sidebarWin 24) ⟨1, 1, 1, 1⟩ ⟨0, 977, 0⟩ [] 999 rfl (by decide)
      (by decide) (by decide)⟩

/-- C13 does not hold as stated. With the line numbers shown reaching
`m = 1000` (first line 999 in a window of height 3) the sidebar gets width 5,
the four digits and one more, while `⌈log10 1000⌉ + 1` is 4; with `m = 1`
(first line 1 in a window of height 2) the width is 2 while `⌈log10 1⌉ + 1` is 1. -/
theorem ui_window_draw_sidebar_power_of_ten :
    (ui_window_draw_sidebar (sidebarWin 3) [⟨0, 999, 0⟩]).sidebar_width = 5 ∧
      spec_sidebar_width 1000 = 4 ∧
      (ui_window_draw_sidebar (sidebarWin 2) [⟨0, 1, 0⟩]).sidebar_width = 2 ∧
      spec_sidebar_width 1 = 1 := by
  refine ⟨by decide, ?_, by decide, ?_⟩
  · have e : (1000 : Nat) = 10 ^ 3 := by norm_num
    unfold spec_sidebar_width
    rw [e, Nat.clog_pow 10 3 (by norm_num)]
  · unfold spec_sidebar_width
    rw [Nat.clog_one_right]

/-- When the position text is shorter than the window is wide, the terminator
written by `ui_window_draw_status` lies inside the buffer and the column is not
negative. -/
theorem ui_window_draw_status_fits (win : UiCursesWin) (pos : CursorPos) (st : StatusText)
    (h : ui_window_draw_status win pos = some st) (hlen : st.len < win.width) :
    st.terminator = some st.len ∧ st.len < st.buf_size ∧ st.column = some (win.width - st.len - 1) ∧
      0 ≤ win.width - st.len - 1 := by
  unfold ui_window_draw_status at h
  cases hs : win.winstatus with
  | none => simp [hs] at h
  | some v =>
    simp only [hs] at h
    have hpos : (decimalLength (toSSize pos.line) : Int) + 2 + decimalLength (toSSize pos.col) > 0 := by
      omega
    rw [if_pos hpos] at h
    cases h
    simp only at hlen ⊢
    refine ⟨trivial, by omega, trivial, by omega⟩

/-- C14 fails on the code. `snprintf` returns the length of the whole text,
not of what it stored, and `ui_window_draw_status` uses that value unchecked.
In a window 5 columns wide with the cursor at line 12345, column 10 the text
has 9 characters: `len = 9 > 5`, the terminator is written at `buf[9]` of a
buffer of 6 bytes, and the column handed to `mvwaddstr` is `5 - 9 - 1 = -5`.
In a window 4 columns wide even the shortest text, 4 characters, gives
column `-1`. -/
theorem ui_window_draw_status_overflow :
    ui_window_draw_status { sidebarWin 24 with width := 5 } ⟨12345, 10⟩ =
        some { buf_size := 6, len := 9, terminator := some 9, column := some (-5) } ∧
      ui_window_draw_status { sidebarWin 24 with width := 4 } ⟨1, 0⟩ =
        some { buf_size := 5, len := 4, terminator := some 4, column := some (-1) } := by
  refine ⟨by decide, by decide⟩

/-! ## Windows: insertion at the head -/

/-- A call of `ui_window_new` that returns a window found `calloc` and the
three constructors succeeding, and returns the address `calloc` gave. -/
theorem ui_window_new_some (uic uic2 : UiCurses) (a : Alloc) (p : Nat)
    (hrun : ui_window_new uic a = Except.ok (uic2, some p)) :
    a.calloc = some p ∧ a.window_new = true ∧ a.newwin = true ∧ a.newwin_status = true := by
  unfold ui_window_new at hrun
  cases hc : a.calloc with
  | none => simp [hc] at hrun
  | some q =>
    simp only [hc] at hrun
    by_cases h1 : a.window_new = true
    · by_cases h2 : a.newwin = true
      · by_cases h3 : a.newwin_status = true
        · simp only [h1, h2, h3, if_true, Option.isSome_some, and_self, Option.isNone_some,
            Bool.false_eq_true, or_self, if_false] at hrun
          refine ⟨?_, h1, h2, h3⟩
          split at hrun
          · cases hrun
          · split at hrun
            · cases hrun
            · cases hrun
              rfl
        · exfalso
          simp only [h1, h2, h3, if_true, Option.isSome_some, and_self, Option.isNone_some,
            Bool.false_eq_true, or_self, if_false, and_false, Option.isNone_none, or_true,
            Option.isSome_none, false_and] at hrun
          split at hrun <;> cases hrun
      · exfalso
        simp only [h1, h2, if_true, Option.isSome_some, and_self, Option.isNone_some,
          Bool.false_eq_true, or_self, if_false, and_false, Option.isNone_none, or_true,
          Option.isSome_none, false_and, true_or] at hrun
        split at hrun <;> cases hrun
    · exfalso
      simp only [h1, if_true, Option.isSome_some, and_self, Option.isNone_some,
        Bool.false_eq_true, or_self, if_false, and_false, Option.isNone_none, or_true,
        Option.isSome_none, false_and, true_or] at hrun
      split at hrun <;> cases hrun

/-- C15: after a successful `ui_window_new` on a well-formed list `l`, with
`calloc` returning an address not in use, the new window is the head of the
list and is followed by the previous windows in their previous order, the list
is well formed again (links consistent, no window twice), and the focus
pointer is what it was. -/
theorem ui_window_new_head (uic uic2 : UiCurses) (a : Alloc) (l : List Nat) (p : Nat)
    (hwf : WF uic l) (hfresh : ∀ q, a.calloc = some q → uic.heap q = none)
    (hrun : ui_window_new uic a = Except.ok (uic2, some p)) :
    uic2.windows = some p ∧ WF uic2 (p :: l) ∧ (p :: l).Nodup ∧ uic2.selwin = uic.selwin := by
  obtain ⟨hp, h1, h2, h3⟩ := ui_window_new_some uic uic2 a p hrun
  obtain ⟨u, hu, hwf2, hsel, _⟩ := ui_window_new_ok uic a l p hwf hp (hfresh p hp) h1 h2 h3
  rw [hrun] at hu
  cases hu
  exact ⟨hwf2.1, hwf2, linked_nodup _ _ _ _ hwf2, hsel⟩

/-- Witness for C15: a fourth window is created beside three windows of which
window 2 is focused. -/
theorem ui_window_new_head_witness :
    WF (threeWins 80 24) [1, 2, 3] ∧
      ui_window_new (threeWins 80 24) (okAlloc 4) = Except.ok (fourWins, some 4) ∧
      (fourWins.windows = some 4 ∧ WF fourWins [4, 1, 2, 3] ∧ [4, 1, 2, 3].Nodup ∧
        fourWins.selwin = (threeWins 80 24).selwin) :=
  ⟨wf_threeWins 80 24, rfl,
    ui_window_new_head (threeWins 80 24) fourWins (okAlloc 4) [1, 2, 3] 4 (wf_threeWins 80 24)
      (fun q hq => by cases hq; rfl) rfl⟩

/-! ## Windows: the focus pointer -/

/-- A window whose prev link is `NULL` is unchanged by resetting that link. -/
theorem prev_reset (w : UiCursesWin) (p : Option Nat) (h : w.prev = none) :
    { ({ w with prev := p } : UiCursesWin) with prev := none } = w := by
  cases w
  simp only at h
  subst h
  rfl

/-- A successful `prompt_new` that creates the prompt pane leaves the window
list and the focus pointer as they were. -/
theorem prompt_new_wf (uic : UiCurses) (a : Alloc) (l : List Nat) (p : Nat)
    (hwf : WF uic l) (hno : uic.prompt_win = none)
    (hp : a.calloc = some p) (hfresh : uic.heap p = none)
    (h1 : a.window_new = true) (h2 : a.newwin = true) (h3 : a.newwin_status = true) :
    ∃ uic1, prompt_new uic a = Except.ok (uic1, some p) ∧ WF uic1 l ∧
      uic1.selwin = uic.selwin := by
  obtain ⟨uic2, hrun, hwf2, hsel, _, ⟨w, hw, hwn, _⟩, hframe, hhead⟩ :=
    ui_window_new_ok uic a l p hwf hp hfresh h1 h2 h3
  have hpl : p ∉ l := by
    intro hm
    obtain ⟨w0, hw0, _⟩ := linked_alloc uic.heap l _ _ hwf p hm
    rw [hfresh] at hw0
    cases hw0
  unfold prompt_new
  simp only [hno, hrun, load, hw]
  cases l with
  | nil =>
    have hw0 : uic.windows = none := hwf
    rw [hw0] at hwn
    simp only [hwn, hw]
    exact ⟨_, rfl, rfl, hsel⟩
  | cons q l2 =>
    have hl : Linked uic.heap none uic.windows (q :: l2) := hwf
    have hnd := linked_nodup uic.heap (q :: l2) _ _ hl
    obtain ⟨hc, wq, hwq, hprev, hu, hr⟩ := hl
    have hpq : p ≠ q := fun e => hpl (by rw [e]; exact List.mem_cons_self _ _)
    have hq2 := hhead q wq hc hwq
    rw [hc] at hwn
    simp only [hwn, hq2, prev_reset wq (some p) hprev]
    have e1 : Function.update uic2.heap q (some wq) p = some w := by
      rw [Function.update_noteq hpq]
      exact hw
    simp only [e1]
    refine ⟨_, rfl, ?_, hsel⟩
    have hl0 : Linked uic.heap none (some q) (q :: l2) := ⟨rfl, wq, hwq, hprev, hu, hr⟩
    refine linked_frame uic.heap _ (q :: l2) none (some q) hl0 ?_
    intro x hx
    have hxp : x ≠ p := fun e => hpl (by rw [← e]; exact hx)
    show Function.update (Function.update uic2.heap q (some wq)) p _ x = uic.heap x
    rw [Function.update_noteq hxp]
    by_cases hxq : x = q
    · rw [hxq, Function.update_same, hwq]
    · rw [Function.update_noteq hxq]
      exact hframe x hxp (by rw [hc]; exact fun e => hxq (Option.some.inj e).symm)

/-- `ui_window_focus` of a window of the list returns and moves the focus
pointer to it, when the focus pointer was `NULL` or on the list. -/
theorem ui_window_focus_member (uic : UiCurses) (l : List Nat) (p : Nat)
    (hwf : WF uic l) (hfoc : FocusInList uic l) (hp : p ∈ l) :
    ui_window_focus uic (some p) = Except.ok { uic with selwin := some p } := by
  obtain ⟨w, hw, hu⟩ := linked_alloc uic.heap l _ _ hwf p hp
  unfold ui_window_focus
  simp only [load, hw, hu, Bool.true_eq_false, if_false]
  rcases hfoc with h | ⟨q, hq, h⟩
  · rw [h]
  · obtain ⟨wq, hwq, _⟩ := linked_alloc uic.heap l _ _ hwf q hq
    rw [h]
    simp only [hwq]

/-- One legal call keeps the window list well formed and the focus pointer
`NULL` or on the list, and does not fault. -/
theorem stepUi_focus (uic : UiCurses) (l : List Nat) (op : UiOp)
    (hwf : WF uic l) (hfoc : FocusInList uic l) (hlegal : UiOpLegal uic op) :
    ∃ uic1 l1, stepUi uic op = Except.ok uic1 ∧ WF uic1 l1 ∧ FocusInList uic1 l1 := by
  cases op with
  | window_new a =>
    rcases hlegal with hnone | ⟨⟨p, hp, hfresh⟩, h1, h2, h3⟩
    · refine ⟨uic, l, ?_, hwf, hfoc⟩
      simp [stepUi, ui_window_new, hnone]
    · obtain ⟨uic2, hrun, hwf2, hsel, _⟩ := ui_window_new_ok uic a l p hwf hp hfresh h1 h2 h3
      refine ⟨uic2, p :: l, ?_, hwf2, ?_⟩
      · simp [stepUi, hrun]
      · rcases hfoc with h | ⟨q, hq, h⟩
        · exact Or.inl (by rw [hsel, h])
        · exact Or.inr ⟨q, List.mem_cons_of_mem _ hq, by rw [hsel, h]⟩
  | window_free p =>
    obtain ⟨l1, hwf1, hp⟩ := hlegal
    have hl : l1 = l := linked_det uic.heap l1 _ _ _ l hwf1 hwf
    subst hl
    obtain ⟨w, hw, hfree⟩ := ui_window_free_member uic l1 p hwf hp
    have hl := linked_unlinked uic.heap p w hw l1 none uic.windows hwf
      (linked_nodup uic.heap l1 _ _ hwf) (fun x hx => by cases hx) hp
    refine ⟨_, l1.erase p, hfree, hl, ?_⟩
    rcases hfoc with h | ⟨q, hq, h⟩
    · left
      simp [h]
    · by_cases hqp : q = p
      · left
        simp [h, hqp]
      · right
        refine ⟨q, (List.mem_erase_of_ne hqp).2 hq, ?_⟩
        simp [h, hqp]
  | window_focus p =>
    obtain ⟨l1, hwf1, hp⟩ := hlegal
    have hl : l1 = l := linked_det uic.heap l1 _ _ _ l hwf1 hwf
    subst hl
    refine ⟨_, l1, ui_window_focus_member uic l1 p hwf hfoc hp, hwf, Or.inr ⟨p, hp, rfl⟩⟩
  | prompt_new a =>
    cases hpw : uic.prompt_win with
    | some P =>
      refine ⟨uic, l, ?_, hwf, hfoc⟩
      simp [stepUi, prompt_new, hpw]
    | none =>
      rcases hlegal with hnone | ⟨⟨p, hp, hfresh⟩, h1, h2, h3⟩
      · refine ⟨uic, l, ?_, hwf, hfoc⟩
        simp [stepUi, prompt_new, hpw, ui_window_new, hnone]
      · obtain ⟨uic1, hrun, hwf1, hsel⟩ := prompt_new_wf uic a l p hwf hpw hp hfresh h1 h2 h3
        refine ⟨uic1, l, ?_, hwf1, ?_⟩
        · simp [stepUi, hrun]
        · rcases hfoc with h | ⟨q, hq, h⟩
          · exact Or.inl (by rw [hsel, h])
          · exact Or.inr ⟨q, hq, by rw [hsel, h]⟩

/-- Legal calls keep the window list well formed and the focus pointer `NULL`
or on the list, and never fault. -/
theorem runUi_focus (ops : List UiOp) :
    ∀ (uic : UiCurses) (l : List Nat), WF uic l → FocusInList uic l → UiOpsLegal uic ops →
      ∃ uic2 l2, runUi uic ops = Except.ok uic2 ∧ WF uic2 l2 ∧ FocusInList uic2 l2 := by
  induction ops with
  | nil => intro uic l hwf hfoc _; exact ⟨uic, l, rfl, hwf, hfoc⟩
  | cons op rest ih =>
    intro uic l hwf hfoc hlegal
    obtain ⟨hop, hnext⟩ := hlegal
    obtain ⟨uic1, l1, hstep, hwf1, hfoc1⟩ := stepUi_focus uic l op hwf hfoc hop
    rw [hstep] at hnext
    obtain ⟨uic2, l2, hrun2, hwf2, hfoc2⟩ := ih uic1 l1 hwf1 hfoc1 hnext
    refine ⟨uic2, l2, ?_, hwf2, hfoc2⟩
    simp only [runUi, hstep]
    exact hrun2

/-- C17 (as amended): in every state reached from the initial state through
`window_new`, `prompt_new`, and `window_free` and `window_focus` of windows of
the list, the calls return, the list is well formed and the focus pointer is
`NULL` or points to a window of the list. -/
theorem focus_in_list (ops : List UiOp) (hlegal : UiOpsLegal UiCurses.zero ops) :
    ∃ uic l, runUi UiCurses.zero ops = Except.ok uic ∧ WF uic l ∧ FocusInList uic l :=
  runUi_focus ops UiCurses.zero [] rfl (Or.inl rfl) hlegal

/-- Witness for C17: two windows and the prompt pane are created, the older
window is focused and then freed. -/
theorem focus_in_list_witness :
    UiOpsLegal UiCurses.zero
        [UiOp.window_new (okAlloc 1), UiOp.prompt_new (okAlloc 2), UiOp.window_new (okAlloc 3),
          UiOp.window_focus 1, UiOp.window_free 1] ∧
      ∃ uic l, runUi UiCurses.zero
          [UiOp.window_new (okAlloc 1), UiOp.prompt_new (okAlloc 2), UiOp.window_new (okAlloc 3),
            UiOp.window_focus 1, UiOp.window_free 1] = Except.ok uic ∧
        WF uic l ∧ FocusInList uic l := by
  have hl : UiOpsLegal UiCurses.zero
      [UiOp.window_new (okAlloc 1), UiOp.prompt_new (okAlloc 2), UiOp.window_new (okAlloc 3),
        UiOp.window_focus 1, UiOp.window_free 1] := by
    refine ⟨Or.inr ⟨⟨1, rfl, rfl⟩, rfl, rfl, rfl⟩, ?_⟩
    refine ⟨Or.inr ⟨⟨2, rfl, rfl⟩, rfl, rfl, rfl⟩, ?_⟩
    refine ⟨Or.inr ⟨⟨3, rfl, rfl⟩, rfl, rfl, rfl⟩, ?_⟩
    refine ⟨⟨[3, 1], ?_, by decide⟩, ?_⟩
    · exact ⟨rfl, _, rfl, rfl, rfl, rfl, _, rfl, rfl, rfl, rfl⟩
    refine ⟨⟨[3, 1], ?_, by decide⟩, trivial⟩
    exact ⟨rfl, _, rfl, rfl, rfl, rfl, _, rfl, rfl, rfl, rfl⟩
  exact ⟨hl, focus_in_list _ hl⟩

/-- C17 does not hold as stated. `ui_window_focus` stores the window it is
given in the focus pointer without looking at the list, and the prompt pane
returned by `prompt_new` is not on the list: after `prompt_new` and
`window_focus` of the prompt pane the list is empty and the focus pointer
points to the prompt pane. -/
theorem focus_on_prompt_pane :
    ∃ uic, runUi UiCurses.zero [UiOp.prompt_new (okAlloc 1), UiOp.window_focus 1] =
        Except.ok uic ∧
      WF uic [] ∧ uic.windows = none ∧ uic.prompt_win = some 1 ∧ uic.selwin = some 1 ∧
      ¬ FocusInList uic [] := by
  refine ⟨_, rfl, rfl, rfl, rfl, rfl, ?_⟩
  intro h
  rcases h with h | ⟨p, hp, _⟩
  · cases h
  · cases hp

/-! ## Staging order of `update` -/

/-- The loop of `update` stages the windows of the list other than the
selected one, in list order. -/
theorem update_loop_spec (h : Heap) (sel : Option Nat) (l : List Nat) :
    ∀ (fuel : Nat) (a cur : Option Nat) (acc : List Staged), Linked h a cur l → l.length ≤ fuel →
      update_loop fuel h sel cur acc =
        Except.ok (acc ++ stagePanes h (l.filter fun p => decide (some p ≠ sel))) := by
  induction l with
  | nil =>
    intro fuel a cur acc hl _
    cases hl
    cases fuel <;> simp [update_loop, stagePanes]
  | cons p l ih =>
    intro fuel a cur acc hl hf
    obtain ⟨hc, w, hw, _, _, hr⟩ := hl
    cases fuel with
    | zero => simp at hf
    | succ fuel =>
      subst hc
      simp only [update_loop, hw]
      rw [ih fuel _ _ _ hr (by simpa using hf)]
      by_cases hs : some p ≠ sel
      · simp [hs, stagePanes, hw, List.filter_cons]
      · simp [hs, stagePanes, List.filter_cons]

/-- Number of times `ui_window_update` of window `q` stages the text surface
of window `p`. -/
theorem count_ui_window_update (p q : Nat) (w : UiCursesWin) :
    (ui_window_update q w).count (p, Surface.win) = if p = q then 1 else 0 := by
  unfold ui_window_update
  by_cases hpq : p = q
  · subst hpq
    rw [if_pos rfl]
    split_ifs <;> simp [List.count_cons]
  · have h1 : ¬ (q = p) := fun e => hpq e.symm
    rw [if_neg hpq]
    split_ifs <;> simp [List.count_cons, hpq, h1]

/-- Staging allocated windows in turn stages the text surface of each as often
as it occurs among them. -/
theorem count_stagePanes (h : Heap) (p : Nat) (ps : List Nat)
    (hps : ∀ q ∈ ps, ∃ w, h q = some w) :
    (stagePanes h ps).count (p, Surface.win) = ps.count p := by
  induction ps with
  | nil => rfl
  | cons q ps ih =>
    obtain ⟨w, hw⟩ := hps q (List.mem_cons_self _ _)
    have ih2 := ih (fun x hx => hps x (List.mem_cons_of_mem _ hx))
    unfold stagePanes at ih2 ⊢
    rw [List.flatMap_cons, List.count_append, ih2, hw]
    simp only [count_ui_window_update, List.count_cons]
    by_cases hpq : p = q
    · subst hpq
      simp
      omega
    · have h1 : ¬ (q = p) := fun e => hpq e.symm
      simp [hpq, h1]

/-- The trace of `update` on a well-formed list: the windows of the list other
than the selected one, the selected window, and the prompt pane when the
prompt is shown. -/
theorem update_spec (fuel : Nat) (uic : UiCurses) (l : List Nat)
    (hwf : WF uic l) (hf : l.length ≤ fuel)
    (hsel : ∀ q, uic.selwin = some q → ∃ w, uic.heap q = some w)
    (hprompt : uic.prompt_title ≠ "" →
      ∃ P, uic.prompt_win = some P ∧ P ∉ l ∧ ∃ w, uic.heap P = some w) :
    update fuel uic = Except.ok
      (stagePanes uic.heap (l.filter fun p => decide (some p ≠ uic.selwin)) ++
        stagePanes uic.heap uic.selwin.toList ++
        (if uic.prompt_title ≠ "" then
          match uic.prompt_win with
          | some P => (P, Surface.win) :: stagePanes uic.heap [P]
          | none => []
        else [])) := by
  unfold update
  rw [update_loop_spec uic.heap uic.selwin l fuel none uic.windows [] hwf hf]
  simp only [List.nil_append]
  cases hs : uic.selwin with
  | none =>
    simp only [Option.toList]
    by_cases hp : uic.prompt_title ≠ ""
    · obtain ⟨P, hP, _, w, hw⟩ := hprompt hp
      simp [hp, hP, load, hw, stagePanes]
    · simp [hp, stagePanes]
  | some q =>
    obtain ⟨wq, hwq⟩ := hsel q hs
    simp only [load, hwq, Option.toList]
    by_cases hp : uic.prompt_title ≠ ""
    · obtain ⟨P, hP, _, w, hw⟩ := hprompt hp
      simp [hp, hP, load, hw, stagePanes, hwq]
    · simp [hp, stagePanes, hwq]

/-- C16: on a well-formed list, with the focus pointer `NULL` or on an
allocated window and, when the prompt is shown, an allocated prompt pane that
is not on the list, `update` returns and stages first the windows of the list
other than the focused one, in list order, then the focused window, then the
prompt pane; the text surface of every window of the list is staged exactly
once, and nothing but the prompt pane follows the focused window. -/
theorem update_staging_order (fuel : Nat) (uic : UiCurses) (l : List Nat)
    (hwf : WF uic l) (hf : l.length ≤ fuel)
    (hsel : ∀ q, uic.selwin = some q → ∃ w, uic.heap q = some w)
    (hprompt : uic.prompt_title ≠ "" →
      ∃ P, uic.prompt_win = some P ∧ P ∉ l ∧ ∃ w, uic.heap P = some w) :
    ∃ t, update fuel uic = Except.ok t ∧
      t = stagePanes uic.heap (l.filter fun p => decide (some p ≠ uic.selwin)) ++
          stagePanes uic.heap uic.selwin.toList ++
          (if uic.prompt_title ≠ "" then
            match uic.prompt_win with
            | some P => (P, Surface.win) :: stagePanes uic.heap [P]
            | none => []
          else []) ∧
      ∀ p ∈ l, t.count (p, Surface.win) = 1 := by
  refine ⟨_, update_spec fuel uic l hwf hf hsel hprompt, rfl, ?_⟩
  intro p hp
  have hnd := linked_nodup uic.heap l _ _ hwf
  have halloc : ∀ q ∈ l, ∃ w, uic.heap q = some w := fun q hq =>
    (linked_alloc uic.heap l _ _ hwf q hq).imp fun w hw => hw.1
  have hA : (stagePanes uic.heap (l.filter fun p => decide (some p ≠ uic.selwin))).count
      (p, Surface.win) = (l.filter fun p => decide (some p ≠ uic.selwin)).count p :=
    count_stagePanes uic.heap p _ (fun q hq => halloc q (List.mem_of_mem_filter hq))
  have hB : (stagePanes uic.heap uic.selwin.toList).count (p, Surface.win) =
      uic.selwin.toList.count p :=
    count_stagePanes uic.heap p _ (fun q hq => hsel q (by simpa using hq))
  have hC : (if uic.prompt_title ≠ "" then
        match uic.prompt_win with
        | some P => (P, Surface.win) :: stagePanes uic.heap [P]
        | none => []
      else []).count (p, Surface.win) = 0 := by
    by_cases hpt : uic.prompt_title ≠ ""
    · obtain ⟨P, hP, hPl, w, hw⟩ := hprompt hpt
      have hne : P ≠ p := fun e => hPl (by rw [e]; exact hp)
      have hne2 : p ≠ P := fun e => hne e.symm
      rw [if_pos hpt, hP]
      simp only [List.count_cons]
      rw [count_stagePanes uic.heap p [P] (fun q hq => by
        rw [List.mem_singleton] at hq
        rw [hq]
        exact ⟨w, hw⟩)]
      simp [hne, hne2]
    · rw [if_neg hpt]
      rfl
  rw [List.count_append, List.count_append, hA, hB, hC]
  by_cases hs : uic.selwin = some p
  · have h1 : p ∉ l.filter fun p => decide (some p ≠ uic.selwin) := by
      simp [hs]
    rw [List.count_eq_zero_of_not_mem h1, hs]
    simp
  · have h1 : p ∈ l.filter fun p => decide (some p ≠ uic.selwin) := by
      rw [List.mem_filter]
      exact ⟨hp, by simpa using fun e => hs e.symm⟩
    have h2 : p ∉ uic.selwin.toList := by
      intro hm
      exact hs (by simpa using hm)
    rw [List.count_eq_one_of_mem (hnd.filter _) h1, List.count_eq_zero_of_not_mem h2]

/-- The sample state with three windows and a prompt has a well-formed list. -/
theorem wf_withPrompt_threeWins : WF (withPrompt (threeWins 80 24) 9 ":") [1, 2, 3] := by
  simp [WF, Linked, withPrompt, threeWins, linkedWin, UiCursesWin.zero, UiCurses.zero,
    Function.update]

/-- Witness for C16: three windows with window 2 focused and the prompt shown;
windows 1 and 3 are staged, then window 2, then the prompt pane 9. -/
theorem update_staging_order_witness :
    update 3 (withPrompt (threeWins 80 24) 9 ":") = Except.ok
        [(1, Surface.winstatus), (1, Surface.win), (3, Surface.winstatus), (3, Surface.win),
          (2, Surface.winstatus), (2, Surface.win), (9, Surface.win), (9, Surface.win)] ∧
      ∃ t, update 3 (withPrompt (threeWins 80 24) 9 ":") = Except.ok t ∧
        t = stagePanes (withPrompt (threeWins 80 24) 9 ":").heap
              ([1, 2, 3].filter fun p =>
                decide (some p ≠ (withPrompt (threeWins 80 24) 9 ":").selwin)) ++
            stagePanes (withPrompt (threeWins 80 24) 9 ":").heap
              (withPrompt (threeWins 80 24) 9 ":").selwin.toList ++
            (if (withPrompt (threeWins 80 24) 9 ":").prompt_title ≠ "" then
              match (withPrompt (threeWins 80 24) 9 ":").prompt_win with
              | some P => (P, Surface.win) :: stagePanes (withPrompt (threeWins 80 24) 9 ":").heap [P]
              | none => []
            else []) ∧
        ∀ p ∈ [1, 2, 3], t.count (p, Surface.win) = 1 :=
  ⟨rfl, update_staging_order 3 (withPrompt (threeWins 80 24) 9 ":") [1, 2, 3]
    wf_withPrompt_threeWins (by decide)
    (fun q hq => by
      have e : q = 2 := (Option.some.inj hq).symm
      subst e
      exact ⟨_, rfl⟩)
    (fun _ => ⟨9, rfl, by decide, _, rfl⟩)⟩

/-! ## Resizing a window and hiding the info banner -/

/-- C18 (as amended): `ui_window_resize(win, width, height)` called twice with
the same arguments leaves the window as one call does. One call stores the
width and height; it gives the status surface the size `(1, width)`, the text
surface the size `(height - has_status, width - sidebar_width)` and the
sidebar surface the size `(height - 1, sidebar_width)` where both dimensions
of that size are positive, and leaves a surface at the size it had where
curses refuses the size; the viewport is handed the columns and rows asked
for the text surface; a surface that is absent stays absent. -/
theorem ui_window_resize_idempotent (w : UiCursesWin) (width height : Int) :
    ui_window_resize (ui_window_resize w width height) width height =
        ui_window_resize w width height ∧
      (ui_window_resize w width height).width = width ∧
      (ui_window_resize w width height).height = height ∧
      (ui_window_resize w width height).sidebar_width = w.sidebar_width ∧
      surface_size (ui_window_resize w width height).winstatus =
        (if 0 < width then w.winstatus.map (fun _ => ((1 : Int), width))
          else surface_size w.winstatus) ∧
      surface_size (ui_window_resize w width height).win =
        (if 0 < height - (if w.winstatus.isSome then 1 else 0) ∧ 0 < width - w.sidebar_width then
          w.win.map (fun _ =>
            (height - (if w.winstatus.isSome then 1 else 0), width - w.sidebar_width))
          else surface_size w.win) ∧
      surface_size (ui_window_resize w width height).winside =
        (if 0 < height - 1 ∧ 0 < w.sidebar_width then
          w.winside.map (fun _ => (height - 1, w.sidebar_width))
          else surface_size w.winside) ∧
      (ui_window_resize w width height).view =
        w.view.map (fun _ =>
          { width := width - w.sidebar_width
            height := height - (if w.winstatus.isSome then 1 else 0) }) := by
  obtain ⟨ui, view, win, ws, wsd, w0, h0, x, y, sw, nx, pv⟩ := w
  cases view <;> cases win <;> cases ws <;> cases wsd <;>
    simp [ui_window_resize, wresize, window_resize, surface_size] <;>
    (try split_ifs) <;> simp_all

/-- C18 does not hold as stated. A pane laid out 80 by 24 has its status bar at
`(1, 80)`, its text surface at `(23, 76)` and its sidebar at `(23, 4)`, as the
claim says. Resized to 80 by 1, as happens when the terminal shrinks to one
row, the text surface would get `1 - 1 = 0` rows: curses refuses the size and
the text surface stays at `(23, 76)` and the sidebar at `(23, 4)`, not at
`(0, 76)` and `(0, 4)`. -/
theorem ui_window_resize_refused_size :
    surface_size pane80x24.winstatus = some (1, 80) ∧
      surface_size pane80x24.win = some (23, 76) ∧
      surface_size pane80x24.winside = some (23, 4) ∧
      pane80x24.sidebar_width = 4 ∧
      (ui_window_resize pane80x24 80 1).height = 1 ∧
      surface_size (ui_window_resize pane80x24 80 1).winstatus = some (1, 80) ∧
      surface_size (ui_window_resize pane80x24 80 1).win = some (23, 76) ∧
      surface_size (ui_window_resize pane80x24 80 1).winside = some (23, 4) := by
  refine ⟨by decide, by decide, by decide, by decide, by decide, by decide, by decide, by decide⟩

/-- C19: on a well-formed list `info_hide` returns; with an empty banner it
changes nothing and does not redraw; and an `info_hide` that follows an
`info_hide` changes nothing and does not redraw, so that the state after the
second call is the state after the first. -/
theorem info_hide_idempotent (fuel fuel2 : Nat) (uic : UiCurses) (l : List Nat)
    (hwf : WF uic l) (hf : l.length ≤ fuel) :
    ∃ u1 d, info_hide fuel uic = Except.ok (u1, d) ∧
      (uic.info = "" → u1 = uic ∧ d = none) ∧
      (uic.info ≠ "" → u1.info = "" ∧ d.isSome = true) ∧
      info_hide fuel2 u1 = Except.ok (u1, none) := by
  by_cases hi : uic.info = ""
  · refine ⟨uic, none, ?_, fun _ => ⟨rfl, rfl⟩, fun h => absurd hi h, ?_⟩
    · simp [info_hide, hi]
    · simp [info_hide, hi]
  · have hwf2 : WF { uic with info := "" } l := hwf
    obtain ⟨h2, hrun, _⟩ := arrange_spec fuel { uic with info := "" } uic.layout l hwf2 hf
    have hd : ∃ u vl, draw fuel { uic with info := "" } = Except.ok (u, vl) ∧ u.info = "" :=
      ⟨_, _, hrun, rfl⟩
    obtain ⟨u, vl, hd, hinfo⟩ := hd
    refine ⟨u, some vl, ?_, fun h => absurd h hi, fun _ => ⟨hinfo, rfl⟩, ?_⟩
    · unfold info_hide
      rw [if_pos hi]
      simp only [hd]
    · simp [info_hide, hinfo]

/-- The sample state with two windows and the banner "msg" has a well-formed
list. -/
theorem wf_infoShown : WF infoShown [1, 2] :=
  ⟨rfl, _, rfl, rfl, rfl, rfl, _, rfl, rfl, rfl, rfl⟩

/-- Witness for C19: after `info` showed "msg" beside two windows, the first
`info_hide` clears the banner and redraws, the second changes nothing. -/
theorem info_hide_idempotent_witness :
    WF infoShown [1, 2] ∧ infoShown.info = "msg" ∧
      ∃ u1 d, info_hide 2 infoShown = Except.ok (u1, d) ∧
        (infoShown.info = "" → u1 = infoShown ∧ d = none) ∧
        (infoShown.info ≠ "" → u1.info = "" ∧ d.isSome = true) ∧
        info_hide 2 u1 = Except.ok (u1, none) :=
  ⟨wf_infoShown, by decide, info_hide_idempotent 2 2 infoShown [1, 2] wf_infoShown (by decide)⟩

/-! ## Colour pairs: the table against the terminal -/

/-- The statics after a call against a terminal are those of `color_get` with
the terminal answering `pair_content`. -/
theorem color_get_hw_state (T : Term) (udc alloc : Bool) (accept : Int → Int → Int → Bool)
    (hw : Hw) (s : ColorState) (fg bg : Int) :
    (color_get_hw T udc alloc accept hw s fg bg).2.1 =
      (color_get T
        { pair_content := hw, use_default_colors := udc, calloc := alloc, init_pair := accept }
        s fg bg).state := by
  unfold color_get_hw
  simp only
  split <;> rfl

/-- One call against a terminal keeps every key that holds a nonzero slot the
key of the pair the terminal has in that slot. -/
theorem cacheInv_step (T : Term) (udc alloc : Bool) (accept : Int → Int → Int → Bool)
    (hw : Hw) (s : ColorState) (fg bg : Int) (h : CacheInv T hw s) :
    CacheInv T (color_get_hw T udc alloc accept hw s fg bg).1
      (color_get_hw T udc alloc accept hw s fg bg).2.1 := by
  have hl := lookup_setup T
    { pair_content := hw, use_default_colors := udc, calloc := alloc, init_pair := accept } s
  have h1 : CacheInv T hw (color_setup T
      { pair_content := hw, use_default_colors := udc, calloc := alloc, init_pair := accept } s) := by
    intro k hk
    rw [hl] at hk ⊢
    exact h k hk
  simp only [color_get_hw, color_get]
  generalize color_setup T
    { pair_content := hw, use_default_colors := udc, calloc := alloc, init_pair := accept } s = s1
    at h1
  cases hc : s1.color2palette with
  | none => exact h1
  | some tbl =>
    have ht : ∀ k, tbl k ≠ 0 → k = color_hash T.COLORS (hw (tbl k)).1 (hw (tbl k)).2 := by
      intro k hk
      have := h1 k
      simp only [ColorState.lookup, hc] at this
      exact this hk
    simp only
    generalize (if toShort (s1.color_pair_current + 1) ≥ s1.color_pairs_max then 1
      else toShort (s1.color_pair_current + 1)) = cur
    split_ifs with hd hz hok
    · exact h1
    · intro k hk
      simp only [ColorState.lookup] at hk ⊢
      by_cases hk1 : k = color_hash T.COLORS (color_subst T s1 fg bg).1 (color_subst T s1 fg bg).2
      · subst hk1
        rw [Function.update_same, Function.update_same]
      · rw [Function.update_noteq hk1] at hk ⊢
        by_cases hk2 : k = color_hash T.COLORS (hw cur).1 (hw cur).2
        · rw [hk2, Function.update_same] at hk
          exact absurd rfl hk
        · rw [Function.update_noteq hk2] at hk ⊢
          have hne : tbl k ≠ cur := by
            intro e
            apply hk2
            have := ht k hk
            rw [e] at this
            exact this
          rw [Function.update_noteq hne]
          exact ht k hk
    · intro k hk
      simp only [ColorState.lookup] at hk ⊢
      exact ht k hk
    · exact h1

/-! ## Colour pairs: calls that stay inside the table -/

theorem toShort_lt (x : Int) : toShort x < 32768 := by
  unfold toShort
  omega

/-- A call that stays inside the table has the result of `color_get` on the
arguments as `short`. -/
theorem color_get_checked_ok (T : Term) (a : Answers) (s : ColorState) (fg bg : Int)
    (r : ColorResult) (h : color_get_checked T a s fg bg = Except.ok r) :
    r = color_get T a s (toShort fg) (toShort bg) := by
  simp only [color_get_checked] at h
  simp only [color_get]
  by_cases h0 : s.color2palette.isNone ∧ T.COLORS ≠ 0 ∧
      2147483648 ≤ (T.COLORS + 2) * (T.COLORS + 2)
  · rw [if_pos h0] at h
    cases h
  · rw [if_neg h0] at h
    generalize color_setup T a s = s1 at *
    cases hc : s1.color2palette with
    | none =>
      simp only [hc] at h
      cases h
      rfl
    | some tbl =>
      simp only [hc] at h ⊢
      generalize color_subst T s1 (toShort fg) (toShort bg) = q at *
      generalize (if toShort (s1.color_pair_current + 1) ≥ s1.color_pairs_max then 1
        else toShort (s1.color_pair_current + 1)) = cur at *
      split_ifs at h ⊢ <;> (cases h; rfl)

/-- A run that stays inside the table is the run of `color_get` on the
arguments as `short`. -/
theorem color_run_checked_ok (T : Term) (calls : List (Answers × Int × Int)) :
    ∀ (s s2 : ColorState) (slots : List Int),
      color_run_checked T s calls = Except.ok (s2, slots) →
      color_run T s (calls.map fun c => (c.1, toShort c.2.1, toShort c.2.2)) = (s2, slots) := by
  induction calls with
  | nil =>
    intro s s2 slots h
    simp only [color_run_checked] at h
    cases h
    rfl
  | cons c rest ih =>
    obtain ⟨a, fg, bg⟩ := c
    intro s s2 slots h
    simp only [color_run_checked] at h
    cases h1 : color_get_checked T a s fg bg with
    | error e => simp [h1] at h
    | ok r =>
      simp only [h1] at h
      cases h2 : color_run_checked T r.state rest with
      | error e => simp [h2] at h
      | ok out =>
        simp only [h2] at h
        cases h
        have e1 := color_get_checked_ok T a s fg bg r h1
        have e2 := ih r.state out.1 out.2 h2
        simp only [List.map_cons, color_run]
        rw [← e1, e2]

/-- The table size fits `int` for a palette of at most 32766 colours. -/
theorem table_len_fits (C : Int) (hC0 : 0 < C) (hC1 : C ≤ 32766) :
    ¬ (2147483648 ≤ (C + 2) * (C + 2)) := by
  have h1 : (C + 2) * (C + 2) ≤ 32768 * (C + 2) :=
    Int.mul_le_mul_of_nonneg_right (by omega) (by omega)
  omega

/-- The defaults recorded by the initialisation are palette indices when the
library reports a pair in range for slot 0 and white is a palette index where
it is the fallback. -/
theorem setup_defaults (T : Term) (a : Answers) (s : ColorState) (hC0 : 0 < T.COLORS)
    (hinv : DefaultsInv T s) (h0 : ValidPair T.COLORS (a.pair_content 0))
    (hw : (a.pair_content 0).1 = -1 → COLOR_WHITE < T.COLORS) :
    (0 ≤ (color_setup T a s).default_fg ∧ (color_setup T a s).default_fg < T.COLORS) ∧
      (0 ≤ (color_setup T a s).default_bg ∧ (color_setup T a s).default_bg < T.COLORS) := by
  unfold color_setup
  cases hc : s.color2palette with
  | some t => exact hinv t hc
  | none =>
    simp only
    obtain ⟨h1, h2⟩ := h0
    unfold ValidColor at h1 h2
    unfold COLOR_WHITE at hw ⊢
    unfold COLOR_BLACK
    constructor
    · split_ifs with h
      · have := hw h
        omega
      · omega
    · split_ifs with h
      · omega
      · omega

/-- A call in range stays inside the table and leaves the recorded defaults
palette indices. -/
theorem color_get_checked_in_range (T : Term) (c : Answers × Int × Int) (s : ColorState)
    (hC0 : 0 < T.COLORS) (hC1 : T.COLORS ≤ 32766) (hc : CallInRange T c)
    (hinv : DefaultsInv T s) :
    ∃ r, color_get_checked T c.1 s c.2.1 c.2.2 = Except.ok r ∧ DefaultsInv T r.state ∧
      ∀ p f b, r.assigned = some (p, f, b) → ValidPair T.COLORS (f, b) := by
  obtain ⟨a, fg, bg⟩ := c
  obtain ⟨hfg, hbg, hpc, hwhite⟩ := hc
  simp only at hfg hbg hpc hwhite ⊢
  have hd := setup_defaults T a s hC0 hinv (hpc 0) hwhite
  have efg : toShort fg = fg := toShort_of_range (by omega) (by omega)
  have ebg : toShort bg = bg := toShort_of_range (by omega) (by omega)
  have hv := color_subst_in_range T (color_setup T a s) fg bg (by omega) (by omega) hd.1 hd.2
  have hidx := color_hash_lt T.COLORS hC0 hC1 _ hv
  have hold := fun p => color_hash_lt T.COLORS hC0 hC1 _ (hpc p)
  have hlen : ((table_len T : Nat) : Int) = (T.COLORS + 2) * (T.COLORS + 2) := by
    unfold table_len
    have : 0 ≤ (T.COLORS + 2) * (T.COLORS + 2) := mul_self_nonneg _
    omega
  have hfit := table_len_fits T.COLORS hC0 hC1
  simp only [color_get_checked, efg, ebg]
  rw [if_neg (fun h => hfit h.2.2)]
  generalize color_setup T a s = s1 at *
  cases hc : s1.color2palette with
  | none =>
    refine ⟨_, rfl, ?_, ?_⟩
    · intro t ht
      rw [hc] at ht
      cases ht
    · intro p f b h
      cases h
  | some tbl =>
    simp only
    generalize (if toShort (s1.color_pair_current + 1) ≥ s1.color_pairs_max then 1
      else toShort (s1.color_pair_current + 1)) = cur
    have hi : ¬ (table_len T ≤ color_hash T.COLORS (color_subst T s1 fg bg).1
        (color_subst T s1 fg bg).2) := by
      omega
    have ho : ¬ (table_len T ≤ color_hash T.COLORS (a.pair_content cur).1
        (a.pair_content cur).2) := by
      have := hold cur
      omega
    simp only [hi, ho, if_false]
    split_ifs
    all_goals
      refine ⟨_, rfl, ?_, ?_⟩
      · intro t _
        exact hd
      · intro p f b h
        cases h <;> exact hv

/-- A run of calls in range stays inside the table. -/
theorem color_run_checked_in_range (T : Term) (hC0 : 0 < T.COLORS) (hC1 : T.COLORS ≤ 32766)
    (calls : List (Answers × Int × Int)) :
    ∀ s, DefaultsInv T s → (∀ c ∈ calls, CallInRange T c) →
      ∃ s2 slots, color_run_checked T s calls = Except.ok (s2, slots) := by
  induction calls with
  | nil => intro s _ _; exact ⟨s, [], rfl⟩
  | cons c rest ih =>
    intro s hinv hall
    obtain ⟨r, hr, hinv2, _⟩ := color_get_checked_in_range T c s hC0 hC1
      (hall c (List.mem_cons_self _ _)) hinv
    obtain ⟨s2, slots, h2⟩ := ih r.state hinv2 (fun x hx => hall x (List.mem_cons_of_mem _ hx))
    obtain ⟨a, fg, bg⟩ := c
    refine ⟨s2, r.slot :: slots, ?_⟩
    simp only [color_run_checked]
    simp only at hr
    rw [hr]
    simp only [h2]

/-- C1 (as amended): on a terminal with at least two hardware slots,
`S = min(COLOR_PAIRS, 256) ≥ 2`, every call of every finite sequence of
`color_get` calls from the fresh state during which every access to the table
lies inside the `(COLORS + 2)²` entries allocated for it returns a slot `s`
with `0 ≤ s < S`, whatever the library answers (accepting or rejecting each
`init_pair` arbitrarily). The accesses do lie inside the table, and the calls
return, when the palette has `0 < C ≤ 32766` colours, the arguments are -1 or
non-negative, the library reports pairs of `[-1, C) × [-1, C)` and the recorded
defaults are palette indices. -/
theorem color_get_slot_in_range (T : Term) (calls : List (Answers × Int × Int))
    (hS : 2 ≤ min T.COLOR_PAIRS 256) :
    (∀ s slots, color_run_checked T ColorState.fresh calls = Except.ok (s, slots) →
      ∀ r ∈ slots, 0 ≤ r ∧ r < min T.COLOR_PAIRS 256) ∧
    (0 < T.COLORS → T.COLORS ≤ 32766 → (∀ c ∈ calls, CallInRange T c) →
      ∃ s slots, color_run_checked T ColorState.fresh calls = Except.ok (s, slots)) := by
  constructor
  · intro s slots h r hr
    have e := color_run_checked_ok T calls ColorState.fresh s slots h
    have hall := slotInv_color_run T hS
      (calls.map fun c => (c.1, toShort c.2.1, toShort c.2.2)) ColorState.fresh (slotInv_fresh hS)
    rw [e] at hall
    exact hall r hr
  · intro hC0 hC1 hall
    refine color_run_checked_in_range T hC0 hC1 calls ColorState.fresh ?_ hall
    intro t ht
    cases ht

/-- The three calls of the witness for C1 are in range. -/
theorem witness_calls_in_range :
    ∀ c ∈ [(acceptAll, (1 : Int), (0 : Int)), (rejectAll, 2, -1), (acceptAll, -1, 3)],
      CallInRange ⟨8, 64⟩ c := by
  intro c hc
  simp only [List.mem_cons, List.mem_singleton, List.not_mem_nil, or_false] at hc
  rcases hc with rfl | rfl | rfl
  all_goals
    refine ⟨by decide, by decide, fun _ => ?_, fun _ => by decide⟩
    exact ⟨Or.inr (show (0 : Int) ≤ 0 ∧ (0 : Int) < 8 from by decide),
      Or.inr (show (0 : Int) ≤ 0 ∧ (0 : Int) < 8 from by decide)⟩

/-- Witness for C1: an 8-colour terminal with 64 pairs, three calls in range
of which the second is rejected; the calls return the slots 1, 0 and 3. -/
theorem color_get_slot_in_range_witness :
    2 ≤ min (64 : Int) 256 ∧
    (∃ s, color_run_checked ⟨8, 64⟩ ColorState.fresh
        [(acceptAll, 1, 0), (rejectAll, 2, -1), (acceptAll, -1, 3)] = Except.ok (s, [1, 0, 3])) ∧
    (∀ s slots, color_run_checked ⟨8, 64⟩ ColorState.fresh
        [(acceptAll, 1, 0), (rejectAll, 2, -1), (acceptAll, -1, 3)] = Except.ok (s, slots) →
      ∀ r ∈ slots, 0 ≤ r ∧ r < min (64 : Int) 256) ∧
    ∃ s slots, color_run_checked ⟨8, 64⟩ ColorState.fresh
        [(acceptAll, 1, 0), (rejectAll, 2, -1), (acceptAll, -1, 3)] = Except.ok (s, slots) :=
  ⟨by decide, ⟨_, rfl⟩,
    (color_get_slot_in_range ⟨8, 64⟩
      [(acceptAll, 1, 0), (rejectAll, 2, -1), (acceptAll, -1, 3)] (by decide)).1,
    (color_get_slot_in_range ⟨8, 64⟩
      [(acceptAll, 1, 0), (rejectAll, 2, -1), (acceptAll, -1, 3)] (by decide)).2
      (by decide) (by decide) witness_calls_in_range⟩

/-- C1 does not hold as stated. With a single hardware slot, on a terminal with
8 colours and `COLOR_PAIRS = 1` (so `S = 1`), `color_get(1, 0)` on an accepting
library returns slot 1, which is not below `S`. And on a terminal with 4
colours and no default colours whose pair 0 is white on black,
`color_get(-1, 0)` replaces -1 by the recorded default 7 and reads the table
at index `7 * 6 + 0 = 42`, beyond its 36 entries, so that the value returned
is whatever lies behind the table. -/
theorem color_get_slot_out_of_range :
    (0 : Int) < 8 ∧
    (∃ s, color_run_checked ⟨8, 1⟩ ColorState.fresh [(acceptAll, 1, 0)] = Except.ok (s, [1])) ∧
    ¬ ((0 : Int) ≤ 1 ∧ (1 : Int) < min (1 : Int) 256) ∧
    color_run_checked ⟨4, 64⟩ ColorState.fresh
        [({ hwAnswers zeroHw with use_default_colors := false }, -1, 0)] =
      Except.error ColorFault.bounds ∧
    color_key ⟨4, 64⟩ { hwAnswers zeroHw with use_default_colors := false } ColorState.fresh
      (-1) 0 = 42 ∧
    table_len ⟨4, 64⟩ = 36 := by
  refine ⟨by decide, ⟨_, rfl⟩, by decide, rfl, by decide, by decide⟩

/-! ## Colour pairs: the table against the terminal, inside the table -/

/-- A call against a terminal that stays inside the table has the result of
`color_get_hw` on the arguments as `short`. -/
theorem color_get_hw_checked_ok (T : Term) (udc alloc : Bool) (accept : Int → Int → Int → Bool)
    (hw : Hw) (s : ColorState) (fg bg : Int) (r : Hw × ColorState × Int)
    (h : color_get_hw_checked T udc alloc accept hw s fg bg = Except.ok r) :
    r = color_get_hw T udc alloc accept hw s (toShort fg) (toShort bg) := by
  unfold color_get_hw_checked at h
  cases h1 : color_get_checked T
      { pair_content := hw, use_default_colors := udc, calloc := alloc, init_pair := accept }
      s fg bg with
  | error e => simp [h1] at h
  | ok r0 =>
    have e := color_get_checked_ok T _ s fg bg r0 h1
    simp only [h1] at h
    unfold color_get_hw
    simp only
    rw [← e]
    cases ha : r0.assigned with
    | none =>
      simp only [ha] at h
      cases h
      rfl
    | some q =>
      obtain ⟨p, f, b⟩ := q
      simp only [ha] at h
      cases h
      rfl

/-- One `color_get` call keeps the entries of the table slots of the terminal,
when the library accepts assignments only to slots of the terminal. -/
theorem entryInv_color_get (T : Term) (a : Answers) (s : ColorState) (fg bg : Int)
    (hacc : ∀ p f b, a.init_pair p f b = true → 0 ≤ p ∧ p < T.COLOR_PAIRS)
    (h : EntryInv T s) : EntryInv T (color_get T a s fg bg).state := by
  have h1 : EntryInv T (color_setup T a s) := by
    unfold color_setup
    cases hc : s.color2palette with
    | some t => simpa [hc] using h
    | none =>
      refine ⟨h.1, ?_⟩
      intro t ht
      refine ⟨rfl, ?_⟩
      simp only at ht
      split_ifs at ht
      · cases ht
        intro k
        exact Or.inl rfl
  simp only [color_get]
  generalize color_setup T a s = s1 at *
  cases hc : s1.color2palette with
  | none => exact h1
  | some tbl =>
    obtain ⟨⟨hc0, hc1⟩, ht⟩ := h1
    obtain ⟨hmax, hk⟩ := ht tbl hc
    have hinc : toShort (s1.color_pair_current + 1) = s1.color_pair_current + 1 :=
      toShort_of_range (by omega) (by omega)
    have hmlt := toShort_lt (min T.COLOR_PAIRS MAX_COLOR_PAIRS)
    simp only [hinc]
    have hcur : 1 ≤ (if s1.color_pair_current + 1 ≥ s1.color_pairs_max then 1
          else s1.color_pair_current + 1) ∧
        (if s1.color_pair_current + 1 ≥ s1.color_pairs_max then 1
          else s1.color_pair_current + 1) < 32767 ∧
        ((if s1.color_pair_current + 1 ≥ s1.color_pairs_max then 1
          else s1.color_pair_current + 1) = 1 ∨
         (if s1.color_pair_current + 1 ≥ s1.color_pairs_max then 1
          else s1.color_pair_current + 1) < s1.color_pairs_max) := by
      split_ifs <;> omega
    generalize (if s1.color_pair_current + 1 ≥ s1.color_pairs_max then 1
      else s1.color_pair_current + 1) = cur at hcur
    split_ifs with hd hz hok
    · exact ⟨⟨hc0, hc1⟩, ht⟩
    · have hslot := hacc _ _ _ hok
      have hlt : cur < min T.COLOR_PAIRS MAX_COLOR_PAIRS := by
        have hm : min T.COLOR_PAIRS MAX_COLOR_PAIRS ≤ 256 := min_le_right _ _
        have hm2 : min T.COLOR_PAIRS MAX_COLOR_PAIRS ≤ T.COLOR_PAIRS := min_le_left _ _
        have hm3 : min T.COLOR_PAIRS MAX_COLOR_PAIRS = T.COLOR_PAIRS ∨
            min T.COLOR_PAIRS MAX_COLOR_PAIRS = 256 := by
          rcases min_choice T.COLOR_PAIRS MAX_COLOR_PAIRS with e | e
          · exact Or.inl e
          · exact Or.inr e
        rw [hmax] at hcur
        generalize min T.COLOR_PAIRS MAX_COLOR_PAIRS = m at *
        unfold toShort at hcur
        omega
      refine ⟨⟨by show 0 ≤ cur; omega, by show cur < 32767; omega⟩, ?_⟩
      intro t2 ht2
      simp only [Option.some.injEq] at ht2
      subst ht2
      refine ⟨hmax, fun k => ?_⟩
      by_cases hk1 : k = color_hash T.COLORS (color_subst T s1 fg bg).1 (color_subst T s1 fg bg).2
      · subst hk1
        rw [Function.update_same]
        exact Or.inr ⟨hcur.1, hlt⟩
      · rw [Function.update_noteq hk1]
        by_cases hk2 : k = color_hash T.COLORS (a.pair_content cur).1 (a.pair_content cur).2
        · subst hk2
          rw [Function.update_same]
          exact Or.inl rfl
        · rw [Function.update_noteq hk2]
          exact hk k
    · refine ⟨⟨by show 0 ≤ cur; omega, by show cur < 32767; omega⟩, ?_⟩
      intro t2 ht2
      cases ht2
      exact ⟨hmax, hk⟩
    · exact ⟨⟨hc0, hc1⟩, ht⟩

/-- Along a run against a terminal that accepts assignments only to its own
slots, and that stays inside the table, the entries stay slots of the terminal
and every key holding a nonzero slot stays the key of the pair in that slot. -/
theorem color_run_hw_checked_inv (T : Term) (calls : List HwCall) :
    ∀ (hw : Hw) (s : ColorState) (hw2 : Hw) (s2 : ColorState) (slots : List Int),
      EntryInv T s → CacheInv T hw s → (∀ c ∈ calls, SlotsExist T c) →
      color_run_hw_checked T hw s calls = Except.ok (hw2, s2, slots) →
      EntryInv T s2 ∧ CacheInv T hw2 s2 := by
  induction calls with
  | nil =>
    intro hw s hw2 s2 slots he hc _ h
    simp only [color_run_hw_checked] at h
    cases h
    exact ⟨he, hc⟩
  | cons c rest ih =>
    intro hw s hw2 s2 slots he hc hall h
    simp only [color_run_hw_checked] at h
    cases h1 : color_get_hw_checked T c.use_default_colors c.calloc c.init_pair hw s c.fg c.bg with
    | error e => simp [h1] at h
    | ok r =>
      simp only [h1] at h
      cases h2 : color_run_hw_checked T r.1 r.2.1 rest with
      | error e => simp [h2] at h
      | ok out =>
        simp only [h2] at h
        cases h
        have e := color_get_hw_checked_ok T _ _ _ hw s c.fg c.bg r h1
        have he2 : EntryInv T r.2.1 := by
          rw [e, color_get_hw_state]
          exact entryInv_color_get T _ s _ _ (hall c (List.mem_cons_self _ _)) he
        have hc2 : CacheInv T r.1 r.2.1 := by
          rw [e]
          exact cacheInv_step T _ _ _ hw s _ _ hc
        exact ih r.1 r.2.1 out.1 out.2.1 out.2.2 he2 hc2
          (fun x hx => hall x (List.mem_cons_of_mem _ hx)) h2

/-- A run against a terminal whose slots hold pairs in range, with arguments
in range, stays inside the table. -/
theorem color_run_hw_checked_in_range (T : Term) (hC0 : COLOR_WHITE < T.COLORS)
    (hC1 : T.COLORS ≤ 32766) (calls : List HwCall) :
    ∀ (hw : Hw) (s : ColorState), DefaultsInv T s → (∀ p, ValidPair T.COLORS (hw p)) →
      (∀ c ∈ calls, ArgsInRange c) →
      ∃ hw2 s2 slots, color_run_hw_checked T hw s calls = Except.ok (hw2, s2, slots) := by
  have hpos : 0 < T.COLORS := by
    unfold COLOR_WHITE at hC0
    omega
  induction calls with
  | nil => intro hw s _ _ _; exact ⟨hw, s, [], rfl⟩
  | cons c rest ih =>
    intro hw s hinv hhw hall
    obtain ⟨hfg, hbg⟩ := hall c (List.mem_cons_self _ _)
    obtain ⟨r, hr, hinv2, hassigned⟩ := color_get_checked_in_range T
      ({ pair_content := hw, use_default_colors := c.use_default_colors, calloc := c.calloc,
         init_pair := c.init_pair }, c.fg, c.bg) s hpos hC1
      ⟨hfg, hbg, hhw, fun _ => hC0⟩ hinv
    simp only at hr
    have hstep : ∃ hw1, color_get_hw_checked T c.use_default_colors c.calloc c.init_pair hw s
        c.fg c.bg = Except.ok (hw1, r.state, r.slot) ∧ ∀ p, ValidPair T.COLORS (hw1 p) := by
      unfold color_get_hw_checked
      simp only [hr]
      cases ha : r.assigned with
      | none => exact ⟨hw, rfl, hhw⟩
      | some q =>
        obtain ⟨p, f, b⟩ := q
        refine ⟨_, rfl, fun x => ?_⟩
        by_cases hx : x = p
        · rw [hx, Function.update_same]
          exact hassigned p f b ha
        · rw [Function.update_noteq hx]
          exact hhw x
    obtain ⟨hw1, hrun1, hhw1⟩ := hstep
    obtain ⟨hw2, s2, slots, h2⟩ := ih hw1 r.state hinv2 hhw1
      (fun x hx => hall x (List.mem_cons_of_mem _ hx))
    refine ⟨hw2, s2, r.slot :: slots, ?_⟩
    simp only [color_run_hw_checked, hrun1, h2]

/-- C21: in every state of cache and terminal reached from the fresh cache by
`color_get` calls that stay inside the table, against a terminal that reports
back for each slot the pair last assigned to it (whatever it reports for
untouched slots) and accepts assignments only to its own `COLOR_PAIRS` slots,
every entry of the pair-to-slot table is 0 or a slot in `[1, S)` with
`S = min(COLOR_PAIRS, 256)`, no two distinct keys hold the same nonzero slot,
and every key holding a nonzero slot `s` is the key of the pair the terminal
has in slot `s`. Such states are reached: the calls stay inside the table and
return when the palette has `8 ≤ C ≤ 32766` colours, the terminal's slots hold
pairs of `[-1, C) × [-1, C)` at the start and the arguments are -1 or
non-negative. -/
theorem color_cache_invariant (T : Term) (hw0 : Hw) (calls : List HwCall)
    (hslots : ∀ c ∈ calls, SlotsExist T c) :
    (∀ hw s slots, color_run_hw_checked T hw0 ColorState.fresh calls = Except.ok (hw, s, slots) →
      (∀ k, s.lookup k = 0 ∨ (1 ≤ s.lookup k ∧ s.lookup k < min T.COLOR_PAIRS 256)) ∧
      (∀ k1 k2, s.lookup k1 ≠ 0 → s.lookup k1 = s.lookup k2 → k1 = k2) ∧
      ∀ k, s.lookup k ≠ 0 → k = color_hash T.COLORS (hw (s.lookup k)).1 (hw (s.lookup k)).2) ∧
    (COLOR_WHITE < T.COLORS → T.COLORS ≤ 32766 → (∀ p, ValidPair T.COLORS (hw0 p)) →
      (∀ c ∈ calls, ArgsInRange c) →
      ∃ hw s slots, color_run_hw_checked T hw0 ColorState.fresh calls = Except.ok (hw, s, slots)) := by
  constructor
  · intro hw s slots h
    have hfresh : CacheInv T hw0 ColorState.fresh := by
      intro k hk
      exact absurd rfl hk
    have hentry : EntryInv T ColorState.fresh := by
      refine ⟨⟨le_refl _, by decide⟩, ?_⟩
      intro t ht
      cases ht
    obtain ⟨he, hinv⟩ := color_run_hw_checked_inv T calls hw0 ColorState.fresh hw s slots
      hentry hfresh hslots h
    refine ⟨fun k => ?_, fun k1 k2 h1 h12 => ?_, hinv⟩
    · unfold ColorState.lookup
      cases hc : s.color2palette with
      | none => exact Or.inl rfl
      | some t => exact (he.2 t hc).2 k
    · have e1 := hinv k1 h1
      have e2 := hinv k2 (by rw [← h12]; exact h1)
      rw [← h12] at e2
      rw [e1, ← e2]
  · intro hC0 hC1 hhw hargs
    refine color_run_hw_checked_in_range T hC0 hC1 calls hw0 ColorState.fresh ?_ hhw hargs
    intro t ht
    cases ht

/-- The sample calls are made against a terminal that accepts assignments only
to its 64 slots, with arguments in range. -/
theorem sampleCalls_legal :
    (∀ c ∈ sampleCalls, SlotsExist ⟨8, 64⟩ c) ∧ (∀ c ∈ sampleCalls, ArgsInRange c) := by
  constructor
  · intro c hc
    simp only [sampleCalls, List.mem_cons, List.mem_singleton, List.not_mem_nil, or_false] at hc
    rcases hc with rfl | rfl | rfl | rfl | rfl
    all_goals
      intro p f b h
      simp only [acceptedCall, rejectedCall, decide_eq_true_eq, Bool.false_eq_true] at h
      try exact ⟨by omega, by show p < 64; omega⟩
  · intro c hc
    simp only [sampleCalls, List.mem_cons, List.mem_singleton, List.not_mem_nil, or_false] at hc
    rcases hc with rfl | rfl | rfl | rfl | rfl <;> exact ⟨by decide, by decide⟩

/-- Every slot of the terminal `zeroHw` holds a pair in range for 8 colours. -/
theorem zeroHw_valid : ∀ p, ValidPair 8 (zeroHw p) := by
  intro p
  unfold zeroHw
  split_ifs
  · exact ⟨Or.inr (by decide), Or.inr (by decide)⟩
  · exact ⟨Or.inr (by decide), Or.inr (by decide)⟩

/-- Witness for C21: the five sample calls on a terminal with 8 colours and 64
pairs whose untouched slots report `(0, 0)` return the slots 1, 2, 0, 4, 5;
afterwards the key of `(-1, 4)` holds slot 5, in which the terminal has
`(-1, 4)`. On a terminal with a single pair the assignment is refused and the
table stays empty. -/
theorem color_cache_invariant_witness :
    (∀ c ∈ sampleCalls, SlotsExist ⟨8, 64⟩ c) ∧
    (∃ hw s, color_run_hw_checked ⟨8, 64⟩ zeroHw ColorState.fresh sampleCalls =
        Except.ok (hw, s, [1, 2, 0, 4, 5]) ∧
      s.lookup (color_hash 8 (-1) 4) = 5 ∧ hw 5 = (-1, 4)) ∧
    (∃ hw s, color_run_hw_checked ⟨8, 1⟩ zeroHw ColorState.fresh [acceptedCall 1 1 0] =
        Except.ok (hw, s, [0]) ∧ s.lookup (color_hash 8 1 0) = 0) ∧
    (∀ hw s slots,
      color_run_hw_checked ⟨8, 64⟩ zeroHw ColorState.fresh sampleCalls = Except.ok (hw, s, slots) →
      (∀ k, s.lookup k = 0 ∨ (1 ≤ s.lookup k ∧ s.lookup k < min (64 : Int) 256)) ∧
      (∀ k1 k2, s.lookup k1 ≠ 0 → s.lookup k1 = s.lookup k2 → k1 = k2) ∧
      ∀ k, s.lookup k ≠ 0 → k = color_hash 8 (hw (s.lookup k)).1 (hw (s.lookup k)).2) ∧
    ∃ hw s slots,
      color_run_hw_checked ⟨8, 64⟩ zeroHw ColorState.fresh sampleCalls = Except.ok (hw, s, slots) :=
  ⟨sampleCalls_legal.1, ⟨_, _, rfl, by decide, by decide⟩, ⟨_, _, rfl, by decide⟩,
    (color_cache_invariant ⟨8, 64⟩ zeroHw sampleCalls sampleCalls_legal.1).1,
    (color_cache_invariant ⟨8, 64⟩ zeroHw sampleCalls sampleCalls_legal.1).2
      (by decide) (by decide) zeroHw_valid sampleCalls_legal.2⟩

end Vis
